import Mathlib

/-!
Cache-key derivation (`cache/cache_key.cc`).

A shallow embedding of `OffsetableCacheKey::OffsetableCacheKey` and of the helpers it
calls.  Values of C++ type `uint64_t` are natural numbers; every place where the C++
arithmetic can wrap is written with an explicit `% 2 ^ 64`.  Theorems that need a value
to be a 64-bit word say so with a hypothesis `x < 2 ^ 64`.
-/

namespace Mizar

/-! ## 64-bit machine arithmetic -/

/-- Left shift of a `uint64_t`: bits shifted past position 63 are dropped. -/
def shl64 (x n : Nat) : Nat := (x <<< n) % 2 ^ 64

/-- Subtraction of `uint64_t` values, wrapping modulo `2 ^ 64`. -/
def sub64 (a b : Nat) : Nat := (a + 2 ^ 64 - b) % 2 ^ 64

/-! ## Helpers of `util/math.h` and `util/hash.h` -/

/-- Scan of the bit positions `w - 1, w - 2, ..., 0` for the first set bit. -/
def msbScan : Nat → Nat → Nat
  | 0, _ => 0
  | i + 1, x => if x.testBit i then i else msbScan i x

/-- Modelled from the spec: `FloorLog2` of `util/math.h` (spec 4.4): for `x > 0`, the
0-based position of the most significant set bit of a 64-bit word.  The C++ function is
undefined on `0`; this model returns `0` there. -/
def FloorLog2 (x : Nat) : Nat := msbScan 64 x

/-- Reversal of the low `w` bits of `x`: bit `i` moves to bit `w - 1 - i`. -/
def revBits : Nat → Nat → Nat
  | 0, _ => 0
  | w + 1, x => (x % 2) * 2 ^ w + revBits w (x / 2)

/-- Modelled from the spec: `ReverseBits` of `util/math.h` (spec 4.4): bit-reversal of a
64-bit word, bit `i` moves to bit `63 - i`. -/
def ReverseBits (x : Nat) : Nat := revBits 64 x

/-- The functions of `util/hash.h` and `table/unique_id_impl.h` that the constructor
calls.  They are parameters of the embedding: `DecodeSessionId` returns `none` when the
C++ status is not OK, and otherwise the pair `(upper, lower)`. -/
structure Externals where
  DecodeSessionId : String → Option (Nat × Nat)
  Hash2x64 : String → Nat × Nat
  Hash64 : String → Nat → Nat

/-! ## Data model -/

/-- The 128-bit cache key of `cache/cache_key.h`: two 64-bit words. -/
structure CacheKey where
  session_etc64 : Nat
  offset_etc64 : Nat
  deriving DecidableEq, Repr

/-- The base key of one SST file; `max_offset` is the debug-only member `max_offset_`. -/
structure OffsetableCacheKey where
  session_etc64 : Nat
  offset_etc64 : Nat
  max_offset : Nat
  deriving DecidableEq, Repr

/-! ## `OffsetableCacheKey::OffsetableCacheKey` -/

/-- Lines 187-196: the two halves of the session id, from `DecodeSessionId`, or from
`Hash2x64` of the raw string when decoding fails. -/
def decoded_session (E : Externals) (db_session_id : String) : Nat × Nat :=
  match E.DecodeSessionId db_session_id with
  | some p => p
  | none => E.Hash2x64 db_session_id

/-- Lines 228-229: `(63 - FloorLog2(max_offset | 0x100000000U)) / 8`. -/
def file_number_bytes_in_offset_etc (max_offset : Nat) : Nat :=
  (63 - FloorLog2 (max_offset ||| 0x100000000)) / 8

/-- Line 230: `file_number_bytes_in_offset_etc * 8`. -/
def file_number_bits_in_offset_etc (max_offset : Nat) : Nat :=
  file_number_bytes_in_offset_etc max_offset * 8

/-- Line 241: `(uint64_t{1} << file_number_bits_in_offset_etc) - 1`. -/
def mask (max_offset : Nat) : Nat :=
  sub64 (shl64 1 (file_number_bits_in_offset_etc max_offset)) 1

/-- Line 244: `ReverseBits(file_number & mask)`. -/
def offset_etc_modifier (file_number max_offset : Nat) : Nat :=
  ReverseBits (file_number &&& mask max_offset)

/-- Lines 248-252: the overflow of the file number and `3 - byte count`, bit-reversed. -/
def session_etc_modifier (file_number max_offset : Nat) : Nat :=
  ReverseBits
    (shl64 (file_number >>> file_number_bits_in_offset_etc max_offset) 2 |||
      (3 - file_number_bytes_in_offset_etc max_offset))

/-- Lines 237-239: the assertion that no larger allowed byte count could have been used. -/
def maximal_bytes_assertion (max_offset : Nat) : Prop :=
  file_number_bytes_in_offset_etc max_offset = 3 ∨
    shl64 max_offset (file_number_bits_in_offset_etc max_offset + 8) >>>
        (file_number_bits_in_offset_etc max_offset + 8) ≠ max_offset

instance (max_offset : Nat) : Decidable (maximal_bytes_assertion max_offset) := by
  unfold maximal_bytes_assertion; infer_instance

set_option linter.dupNamespace false in
/-- The constructor, statement by statement (lines 177-269). -/
def OffsetableCacheKey.OffsetableCacheKey (E : Externals) (db_id db_session_id : String)
    (file_number max_offset : Nat) : Mizar.OffsetableCacheKey :=
  let session_upper := (decoded_session E db_session_id).1
  let session_lower := (decoded_session E db_session_id).2
  let db_hash := E.Hash64 db_id session_upper
  let session_etc64_ := session_lower
  let offset_etc64_ := db_hash
  let session_etc64_ := session_etc64_ ^^^ session_etc_modifier file_number max_offset
  let offset_etc64_ := offset_etc64_ ^^^ offset_etc_modifier file_number max_offset
  let session_etc64_ := if session_etc64_ = 0 then session_upper ||| 1 else session_etc64_
  { session_etc64 := session_etc64_, offset_etc64 := offset_etc64_, max_offset := max_offset }

/-- Line 245: `assert(offset_etc_modifier << file_number_bits_in_offset_etc == 0U)`. -/
def offset_etc_modifier_assertion (file_number max_offset : Nat) : Prop :=
  shl64 (offset_etc_modifier file_number max_offset)
    (file_number_bits_in_offset_etc max_offset) = 0

instance (file_number max_offset : Nat) :
    Decidable (offset_etc_modifier_assertion file_number max_offset) := by
  unfold offset_etc_modifier_assertion; infer_instance

/-- The value of `session_etc64_` after line 259, before the zero check of line 265. -/
def session_xor (E : Externals) (db_session_id : String) (file_number max_offset : Nat) : Nat :=
  (decoded_session E db_session_id).2 ^^^ session_etc_modifier file_number max_offset

/-- Modelled from the spec: `WithOffset` of `cache/cache_key.h` (spec 4.5.6): the key
`CacheKey(session_etc64, offset_etc64 ^ offset)`.  The debug assertion
`offset <= max_offset_` is not part of the returned value. -/
def OffsetableCacheKey.WithOffset (k : Mizar.OffsetableCacheKey) (offset : Nat) : CacheKey :=
  { session_etc64 := k.session_etc64, offset_etc64 := k.offset_etc64 ^^^ offset }

/-- Lines 203-268 of the constructor, run on given halves of the session id. -/
def OffsetableCacheKey.from_session_halves (E : Externals) (db_id : String)
    (session_upper session_lower file_number max_offset : Nat) : Mizar.OffsetableCacheKey :=
  let db_hash := E.Hash64 db_id session_upper
  let session_etc64_ := session_lower
  let offset_etc64_ := db_hash
  let session_etc64_ := session_etc64_ ^^^ session_etc_modifier file_number max_offset
  let offset_etc64_ := offset_etc64_ ^^^ offset_etc_modifier file_number max_offset
  let session_etc64_ := if session_etc64_ = 0 then session_upper ||| 1 else session_etc64_
  { session_etc64 := session_etc64_, offset_etc64 := offset_etc64_, max_offset := max_offset }

/-! ## `CacheKey::CreateUniqueForCacheLifetime` and `CacheKey::CreateUniqueForProcessLifetime` -/

/-- Line 31: `assert((id >> 63) == 0U)`. -/
def cache_lifetime_assertion (id : Nat) : Prop := id >>> 63 = 0

instance (id : Nat) : Decidable (cache_lifetime_assertion id) := by
  unfold cache_lifetime_assertion; infer_instance

/-- Lines 27-33.  `Cache::NewId` is declared in `mizar/cache.h` and is a parameter here: from
the state of the cache it gives the id it returns and the next state of the cache.  The
result is the key and the next state of the cache. -/
def CacheKey.CreateUniqueForCacheLifetime {σ : Type} (NewId : σ → Nat × σ) (cache : σ) :
    Mizar.CacheKey × σ :=
  let id := ((NewId cache).1 + 1) % 2 ^ 64
  ({ session_etc64 := 0, offset_etc64 := id }, (NewId cache).2)

/-- The initial value of the static counter of line 39. -/
def UINT64_MAX : Nat := 2 ^ 64 - 1

/-- Line 42: `assert((id >> 63) == 1U)`. -/
def process_lifetime_assertion (id : Nat) : Prop := id >>> 63 = 1

instance (id : Nat) : Decidable (process_lifetime_assertion id) := by
  unfold process_lifetime_assertion; infer_instance

/-- Lines 35-44, with the static counter as explicit state: `fetch_sub(1)` returns the value
the counter had and leaves it decremented (wrapping).  The result is the key and the next
value of the counter. -/
def CacheKey.CreateUniqueForProcessLifetime (counter : Nat) : Mizar.CacheKey × Nat :=
  let id := counter
  ({ session_etc64 := 0, offset_etc64 := id }, sub64 counter 1)

/-- The static counter after `k` calls in one process. -/
def counter_after : Nat → Nat
  | 0 => UINT64_MAX
  | k + 1 => (CacheKey.CreateUniqueForProcessLifetime (counter_after k)).2

/-- The key that the `k`-th call in one process returns, `k` counted from 1. -/
def process_lifetime_key (k : Nat) : CacheKey :=
  (CacheKey.CreateUniqueForProcessLifetime (counter_after (k - 1))).1

/-- A sample cache for concrete evaluations: its state is the next id, `NewId` counts up
from zero in 64 bits. -/
def sampleNewId (cache : Nat) : Nat × Nat := (cache, (cache + 1) % 2 ^ 64)

/-- A sample instantiation of the external helpers, for concrete evaluations: a session id
written in decimal digits decodes to `(0x12345678, its value)`, anything else fails to
decode; the hashes are simple arithmetic mixes. -/
def sampleExternals : Externals where
  DecodeSessionId := fun s =>
    if s.toList.all Char.isDigit then
      some (0x12345678, s.toList.foldl (fun n c => 10 * n + (c.toNat - 48)) 0)
    else none
  Hash2x64 := fun s => (s.length + 7, s.length + 1)
  Hash64 := fun s seed => (s.length * 0x9E3779B97F4A7C15 + seed) % 2 ^ 64

/-! ## The derivation in the words of the specification (sections 4.5.2-4.5.5) -/

/-- Spec 4.5.2: `(63 - floor_log2(max_offset | 0x1_0000_0000)) / 8`. -/
def spec_bytes (max_offset : Nat) : Nat := (63 - FloorLog2 (max_offset ||| 2 ^ 32)) / 8

/-- Spec 4.5.2: `bits = 8 * bytes`. -/
def spec_bits (max_offset : Nat) : Nat := 8 * spec_bytes max_offset

/-- Spec 4.5.1-4.5.4: `db_hash ^ reverse_bits(file_number & ((1 << bits) - 1))`. -/
def spec_offset_etc64 (db_hash file_number max_offset : Nat) : Nat :=
  db_hash ^^^ ReverseBits (file_number &&& (2 ^ spec_bits max_offset - 1))

/-- Spec 4.5.3-4.5.4: `session_lower ^ reverse_bits((fn_high << 2) | (3 - bytes))`, the
shift taken in 64 bits. -/
def spec_session_xor (session_lower file_number max_offset : Nat) : Nat :=
  session_lower ^^^
    ReverseBits ((((file_number >>> spec_bits max_offset) <<< 2) % 2 ^ 64) |||
      (3 - spec_bytes max_offset))

/-- Spec 4.5.5: the XORed word, or `session_upper | 1` when that word is zero. -/
def spec_session_etc64 (session_upper session_lower file_number max_offset : Nat) : Nat :=
  if spec_session_xor session_lower file_number max_offset ≠ 0 then
    spec_session_xor session_lower file_number max_offset
  else session_upper ||| 1

/-! ## Bytewise comparator (`util/comparator.cc`) -/

/-- Strings and slices are lists of byte values; a value is a byte when it is below 256. -/
def is_bytes (s : List Nat) : Prop := ∀ b ∈ s, b < 256

instance (s : List Nat) : Decidable (is_bytes s) := by
  unfold is_bytes; infer_instance

/-- Modelled from the spec: `Slice::compare` of `mizar/slice.h`, the bytewise order the
claims speak of: the bytes are compared as unsigned values over the common length
(`memcmp`), and of two strings that agree there the shorter comes first.  Only the sign of
the C++ result is kept: `-1`, `0` or `1`. -/
def Slice.compare : List Nat → List Nat → Int
  | [], [] => 0
  | [], _ :: _ => -1
  | _ :: _, [] => 1
  | a :: as, b :: bs => if a < b then -1 else if b < a then 1 else Slice.compare as bs

/-- Modelled from the spec: `Slice::difference_offset` of `mizar/slice.h`: the index of the
first byte at which the two slices differ, or the shorter length when there is none. -/
def Slice.difference_offset : List Nat → List Nat → Nat
  | a :: as, b :: bs => if a = b then Slice.difference_offset as bs + 1 else 0
  | _, _ => 0

/-- The call `std::string::resize(n)`: the string is cut to `n` bytes, or padded with zero
bytes up to `n`. -/
def resize (s : List Nat) (n : Nat) : List Nat := s.take n ++ List.replicate (n - s.length) 0

/-- Lines 33-35: `BytewiseComparatorImpl::Compare`. -/
def BytewiseComparatorImpl.Compare (a b : List Nat) : Int := Slice.compare a b

/-- Lines 44-47 (and 163-166): the loop that advances `diff_index` over the common prefix.
The first argument after `min_length` bounds the number of iterations; `min_length`
iterations are enough since `diff_index` starts at 0. -/
def diff_index_loop (start limit : List Nat) (min_length : Nat) : Nat → Nat → Nat
  | 0, diff_index => diff_index
  | fuel + 1, diff_index =>
    if diff_index < min_length ∧ start.getD diff_index 0 = limit.getD diff_index 0 then
      diff_index_loop start limit min_length fuel (diff_index + 1)
    else diff_index

/-- Lines 74-84: the loop that looks for the first byte below `0xff` from `diff_index` on,
increments it and cuts the string after it.  The first argument bounds the number of
iterations; `start.size() - diff_index` are enough. -/
def BytewiseComparatorImpl.increment_loop (start : List Nat) : Nat → Nat → List Nat
  | 0, _ => start
  | fuel + 1, diff_index =>
    if diff_index < start.length then
      if start.getD diff_index 0 < 0xff then
        resize (start.set diff_index ((start.getD diff_index 0 + 1) % 256)) (diff_index + 1)
      else BytewiseComparatorImpl.increment_loop start fuel (diff_index + 1)
    else start

/-- Lines 39-88: `BytewiseComparatorImpl::FindShortestSeparator`; the result is the new
content of `*start`. -/
def BytewiseComparatorImpl.FindShortestSeparator (start limit : List Nat) : List Nat :=
  let min_length := min start.length limit.length
  let diff_index := diff_index_loop start limit min_length min_length 0
  if diff_index ≥ min_length then start
  else
    let start_byte := start.getD diff_index 0
    let limit_byte := limit.getD diff_index 0
    if start_byte ≥ limit_byte then start
    else if diff_index < limit.length - 1 ∨ start_byte + 1 < limit_byte then
      resize (start.set diff_index ((start_byte + 1) % 256)) (diff_index + 1)
    else
      BytewiseComparatorImpl.increment_loop start (start.length - (diff_index + 1))
        (diff_index + 1)

/-- Lines 93-100: the loop of `FindShortSuccessor` over `i`; the first argument after `n`
bounds the number of iterations. -/
def BytewiseComparatorImpl.FindShortSuccessor_loop (key : List Nat) (n : Nat) :
    Nat → Nat → List Nat
  | 0, _ => key
  | fuel + 1, i =>
    if i < n then
      if key.getD i 0 ≠ 0xff then
        resize (key.set i ((key.getD i 0 + 1) % 256)) (i + 1)
      else BytewiseComparatorImpl.FindShortSuccessor_loop key n fuel (i + 1)
    else key

/-- Lines 90-102: `BytewiseComparatorImpl::FindShortSuccessor`; the result is the new
content of `*key`. -/
def BytewiseComparatorImpl.FindShortSuccessor (key : List Nat) : List Nat :=
  BytewiseComparatorImpl.FindShortSuccessor_loop key key.length key.length 0

/-- Lines 117-123: the loop over the bytes after `diff_ind`; the first argument bounds the
number of iterations. -/
def BytewiseComparatorImpl.remaining_bytes_loop (s t : List Nat) : Nat → Nat → Bool
  | 0, _ => true
  | fuel + 1, i =>
    if i < s.length then
      if s.getD i 0 ≠ 0xff ∨ t.getD i 0 ≠ 0x00 then false
      else BytewiseComparatorImpl.remaining_bytes_loop s t fuel (i + 1)
    else true

/-- Lines 104-128: `BytewiseComparatorImpl::IsSameLengthImmediateSuccessor`. -/
def BytewiseComparatorImpl.IsSameLengthImmediateSuccessor (s t : List Nat) : Bool :=
  if s.length ≠ t.length ∨ s.length = 0 then false
  else
    let diff_ind := Slice.difference_offset s t
    if diff_ind ≥ s.length then false
    else
      let byte_s := s.getD diff_ind 0
      let byte_t := t.getD diff_ind 0
      if byte_s ≠ 0xff ∧ byte_s + 1 = byte_t then
        BytewiseComparatorImpl.remaining_bytes_loop s t (s.length - (diff_ind + 1))
          (diff_ind + 1)
      else false

/-- The value of a string read as a big-endian base-256 number. -/
def bytes_value : List Nat → Nat
  | [] => 0
  | a :: as => a * 256 ^ as.length + bytes_value as

/-- The string of `len` bytes whose big-endian base-256 value is `v` (for `v < 256 ^ len`). -/
def bytes_of_value (v : Nat) : Nat → List Nat
  | 0 => []
  | len + 1 => (v / 256 ^ len) % 256 :: bytes_of_value (v % 256 ^ len) len

/-! ## Reverse bytewise comparator (`util/comparator.cc`, lines 145-218) -/

/-- Lines 154-156: `ReverseBytewiseComparatorImpl::Compare`, `-a.compare(b)`. -/
def ReverseBytewiseComparatorImpl.Compare (a b : List Nat) : Int := -Slice.compare a b

/-- Line 145: the class derives from `BytewiseComparatorImpl` and does not override
`IsSameLengthImmediateSuccessor`, so the bytewise method is the one it runs. -/
def ReverseBytewiseComparatorImpl.IsSameLengthImmediateSuccessor (s t : List Nat) : Bool :=
  BytewiseComparatorImpl.IsSameLengthImmediateSuccessor s t

/-- Line 168: `assert(diff_index <= min_length)`. -/
def ReverseBytewiseComparatorImpl.diff_index_assertion (start limit : List Nat) : Prop :=
  diff_index_loop start limit (min start.length limit.length)
    (min start.length limit.length) 0 ≤ min start.length limit.length

/-- Lines 158-203: `ReverseBytewiseComparatorImpl::FindShortestSeparator`; the result is
the new content of `*start`. -/
def ReverseBytewiseComparatorImpl.FindShortestSeparator (start limit : List Nat) : List Nat :=
  let min_length := min start.length limit.length
  let diff_index := diff_index_loop start limit min_length min_length 0
  if diff_index = min_length then start
  else
    let start_byte := start.getD diff_index 0
    let limit_byte := limit.getD diff_index 0
    if start_byte > limit_byte ∧ diff_index < start.length - 1 then
      resize start (diff_index + 1)
    else start

/-! ## Table properties (`table/table_properties.cc`) -/

/-- The members of `TableProperties` (declared in `mizar/table_properties.h`) that
`table_properties.cc` names: the `uint64_t` members, then the `std::string` members.
`rest` stands for the members after the strings, starting with
`user_collected_properties`, and for any member the file does not name. -/
structure TableProperties (ρ : Type) where
  orig_file_number : Nat
  data_size : Nat
  index_size : Nat
  index_partitions : Nat
  top_level_index_size : Nat
  index_key_is_user_key : Nat
  index_value_is_delta_encoded : Nat
  filter_size : Nat
  raw_key_size : Nat
  raw_value_size : Nat
  num_data_blocks : Nat
  num_entries : Nat
  num_filter_entries : Nat
  num_deletions : Nat
  num_merge_operands : Nat
  num_range_deletions : Nat
  column_family_id : Nat
  creation_time : Nat
  oldest_key_time : Nat
  file_creation_time : Nat
  slow_compression_estimated_data_size : Nat
  fast_compression_estimated_data_size : Nat
  db_id : String
  db_session_id : String
  db_host_id : String
  column_family_name : String
  filter_policy_name : String
  comparator_name : String
  merge_operator_name : String
  prefix_extractor_name : String
  property_collectors_names : String
  compression_name : String
  compression_options : String
  rest : ρ

/-- The statement `x += y` on `uint64_t`. -/
def add64 (x y : Nat) : Nat := (x + y) % 2 ^ 64

/-- Lines 171-191: `TableProperties::Add`, statement by statement; the result is the new
content of `*this`. -/
def TableProperties.Add {ρ : Type} (self tp : TableProperties ρ) : TableProperties ρ :=
  let self := { self with data_size := add64 self.data_size tp.data_size }
  let self := { self with index_size := add64 self.index_size tp.index_size }
  let self := { self with index_partitions := add64 self.index_partitions tp.index_partitions }
  let self := { self with
    top_level_index_size := add64 self.top_level_index_size tp.top_level_index_size }
  let self := { self with
    index_key_is_user_key := add64 self.index_key_is_user_key tp.index_key_is_user_key }
  let self := { self with
    index_value_is_delta_encoded :=
      add64 self.index_value_is_delta_encoded tp.index_value_is_delta_encoded }
  let self := { self with filter_size := add64 self.filter_size tp.filter_size }
  let self := { self with raw_key_size := add64 self.raw_key_size tp.raw_key_size }
  let self := { self with raw_value_size := add64 self.raw_value_size tp.raw_value_size }
  let self := { self with num_data_blocks := add64 self.num_data_blocks tp.num_data_blocks }
  let self := { self with num_entries := add64 self.num_entries tp.num_entries }
  let self := { self with
    num_filter_entries := add64 self.num_filter_entries tp.num_filter_entries }
  let self := { self with num_deletions := add64 self.num_deletions tp.num_deletions }
  let self := { self with
    num_merge_operands := add64 self.num_merge_operands tp.num_merge_operands }
  let self := { self with
    num_range_deletions := add64 self.num_range_deletions tp.num_range_deletions }
  let self := { self with
    slow_compression_estimated_data_size :=
      add64 self.slow_compression_estimated_data_size
        tp.slow_compression_estimated_data_size }
  let self := { self with
    fast_compression_estimated_data_size :=
      add64 self.fast_compression_estimated_data_size
        tp.fast_compression_estimated_data_size }
  self

/-- The statement `rv[key] = value` on a `std::map<std::string, uint64_t>`, the map being
the function from a key to the value stored under it, if any. -/
def map_assign (rv : String → Option Nat) (key : String) (value : Nat) : String → Option Nat :=
  fun k => if k = key then some value else rv k

/-- Lines 193-214: `TableProperties::GetAggregatablePropertiesAsMap`. -/
def TableProperties.GetAggregatablePropertiesAsMap {ρ : Type} (self : TableProperties ρ) :
    String → Option Nat :=
  let rv : String → Option Nat := fun _ => none
  let rv := map_assign rv "data_size" self.data_size
  let rv := map_assign rv "index_size" self.index_size
  let rv := map_assign rv "index_partitions" self.index_partitions
  let rv := map_assign rv "top_level_index_size" self.top_level_index_size
  let rv := map_assign rv "filter_size" self.filter_size
  let rv := map_assign rv "raw_key_size" self.raw_key_size
  let rv := map_assign rv "raw_value_size" self.raw_value_size
  let rv := map_assign rv "num_data_blocks" self.num_data_blocks
  let rv := map_assign rv "num_entries" self.num_entries
  let rv := map_assign rv "num_filter_entries" self.num_filter_entries
  let rv := map_assign rv "num_deletions" self.num_deletions
  let rv := map_assign rv "num_merge_operands" self.num_merge_operands
  let rv := map_assign rv "num_range_deletions" self.num_range_deletions
  let rv := map_assign rv "slow_compression_estimated_data_size"
    self.slow_compression_estimated_data_size
  let rv := map_assign rv "fast_compression_estimated_data_size"
    self.fast_compression_estimated_data_size
  rv

/-- The keys that `GetAggregatablePropertiesAsMap` assigns, in the order of lines 196-212. -/
def aggregatable_keys : List String :=
  ["data_size", "index_size", "index_partitions", "top_level_index_size", "filter_size",
    "raw_key_size", "raw_value_size", "num_data_blocks", "num_entries", "num_filter_entries",
    "num_deletions", "num_merge_operands", "num_range_deletions",
    "slow_compression_estimated_data_size", "fast_compression_estimated_data_size"]

/-! ## `RemoveEmptyValueCompactionFilter`
(`utilities/compaction_filters/remove_emptyvalue_compactionfilter.cc`) -/

/-- Modelled from the spec: `Slice::empty` of `mizar/slice.h`: whether the slice has no
bytes. -/
def Slice.empty (s : List Nat) : Bool := s.length == 0

/-- Lines 15-22: `RemoveEmptyValueCompactionFilter::Filter`.  The two output parameters
`*new_value` and `*value_changed` are passed through as state: the result is the returned
boolean and their content after the call. -/
def RemoveEmptyValueCompactionFilter.Filter (_level : Int) (_key existing_value : List Nat)
    (new_value : List Nat) (value_changed : Bool) : Bool × List Nat × Bool :=
  (Slice.empty existing_value, new_value, value_changed)

/-! ## Bit-level facts about the helpers -/

theorem lt_two_pow_of_testBit_false {w x : Nat} (h : x < 2 ^ (w + 1))
    (hb : x.testBit w = false) : x < 2 ^ w := by
  apply Nat.lt_pow_two_of_testBit
  intro i hi
  rcases Nat.eq_or_lt_of_le hi with rfl | hlt
  · exact hb
  · exact Nat.testBit_lt_two_pow
      (Nat.lt_of_lt_of_le h (Nat.pow_le_pow_right (by decide) hlt))

theorem msbScan_spec : ∀ (w x : Nat), x < 2 ^ w → x ≠ 0 →
    x.testBit (msbScan w x) = true ∧ x < 2 ^ (msbScan w x + 1)
  | 0, x, h, h0 => by
    simp at h; exact absurd h h0
  | w + 1, x, h, h0 => by
    unfold msbScan
    by_cases hb : x.testBit w = true
    · simp [hb, h]
    · simp only [hb]
      simp only [Bool.not_eq_true] at hb
      exact msbScan_spec w x (lt_two_pow_of_testBit_false h hb) h0

theorem FloorLog2_le {x : Nat} (h : x < 2 ^ 64) (h0 : x ≠ 0) : 2 ^ FloorLog2 x ≤ x :=
  Nat.testBit_implies_ge (msbScan_spec 64 x h h0).1

theorem lt_FloorLog2 {x : Nat} (h : x < 2 ^ 64) (h0 : x ≠ 0) : x < 2 ^ (FloorLog2 x + 1) :=
  (msbScan_spec 64 x h h0).2

theorem revBits_lt : ∀ (w x : Nat), revBits w x < 2 ^ w
  | 0, _ => by simp [revBits]
  | w + 1, x => by
    have ih := revBits_lt w (x / 2)
    have h2 : x % 2 < 2 := Nat.mod_lt _ (by decide)
    unfold revBits
    have : x % 2 * 2 ^ w ≤ 1 * 2 ^ w := Nat.mul_le_mul_right _ (by omega)
    rw [Nat.pow_succ]
    omega

theorem testBit_revBits : ∀ (w x j : Nat),
    (revBits w x).testBit j = (decide (j < w) && x.testBit (w - 1 - j))
  | 0, x, j => by simp [revBits]
  | w + 1, x, j => by
    unfold revBits
    rw [Nat.mul_comm, Nat.testBit_mul_pow_two_add _ (revBits_lt w (x / 2))]
    by_cases hj : j < w
    · have e : w - j = (w - 1 - j) + 1 := by omega
      simp [hj, testBit_revBits w (x / 2) j, Nat.lt_succ_of_lt hj]
      rw [e, Nat.testBit_succ]
    · simp only [hj, if_false]
      by_cases hj2 : j = w
      · subst hj2
        simp [Nat.testBit_zero]
      · have : ¬ j < w + 1 := by omega
        have h2 : x % 2 < 2 ^ (j - w) := by
          have : 2 ^ 1 ≤ 2 ^ (j - w) := Nat.pow_le_pow_right (by decide) (by omega)
          have := Nat.mod_lt x (show 0 < 2 by decide)
          omega
        simp [this, Nat.testBit_lt_two_pow h2]

theorem ReverseBits_lt (x : Nat) : ReverseBits x < 2 ^ 64 := revBits_lt 64 x

theorem testBit_ReverseBits (x j : Nat) :
    (ReverseBits x).testBit j = (decide (j < 64) && x.testBit (63 - j)) :=
  testBit_revBits 64 x j

/-! ## The size of the file-number field -/

theorem or_two_pow_32_lt {mo : Nat} (h : mo < 2 ^ 64) : mo ||| 0x100000000 < 2 ^ 64 :=
  Nat.or_lt_two_pow h (by decide)

theorem or_two_pow_32_ne_zero (mo : Nat) : mo ||| 0x100000000 ≠ 0 := by
  intro h
  have h1 := congrArg (fun n => Nat.testBit n 32) h
  have h2 : Nat.testBit 0x100000000 32 = true := by decide
  simp [Nat.testBit_or, h2] at h1

theorem two_pow_32_le_or (mo : Nat) : 2 ^ 32 ≤ mo ||| 0x100000000 := by
  apply Nat.testBit_implies_ge
  rw [Nat.testBit_or]
  have : Nat.testBit 0x100000000 32 = true := by decide
  simp [this]

theorem le_msbScan : ∀ (w x i : Nat), i < w → x.testBit i = true → i ≤ msbScan w x
  | 0, _, _, h, _ => absurd h (Nat.not_lt_zero _)
  | w + 1, x, i, h, hb => by
    unfold msbScan
    by_cases hw : x.testBit w = true
    · simp only [hw, if_true]; omega
    · simp only [hw]
      rcases Nat.eq_or_lt_of_le (Nat.le_of_lt_succ h) with rfl | hlt
      · exact absurd hb hw
      · exact le_msbScan w x i hlt hb

theorem FloorLog2_or_ge (mo : Nat) : 32 ≤ FloorLog2 (mo ||| 0x100000000) := by
  apply le_msbScan 64 _ 32 (by decide)
  have : Nat.testBit 0x100000000 32 = true := by decide
  simp [Nat.testBit_or, this]

theorem FloorLog2_or_le {mo : Nat} (h : mo < 2 ^ 64) :
    FloorLog2 (mo ||| 0x100000000) ≤ 63 := by
  have h1 := FloorLog2_le (or_two_pow_32_lt h) (or_two_pow_32_ne_zero mo)
  have h2 := Nat.lt_of_le_of_lt h1 (or_two_pow_32_lt h)
  have := (Nat.pow_lt_pow_iff_right (show 1 < 2 by decide)).1 h2
  omega

theorem lt_two_pow_FloorLog2_or {mo : Nat} (h : mo < 2 ^ 64) :
    mo < 2 ^ (FloorLog2 (mo ||| 0x100000000) + 1) := by
  have h1 := lt_FloorLog2 (or_two_pow_32_lt h) (or_two_pow_32_ne_zero mo)
  apply Nat.lt_pow_two_of_testBit
  intro i hi
  have h2 : (mo ||| 0x100000000).testBit i = false :=
    Nat.testBit_lt_two_pow (Nat.lt_of_lt_of_le h1 (Nat.pow_le_pow_right (by decide) hi))
  rw [Nat.testBit_or] at h2
  simp at h2
  exact h2.1

theorem FloorLog2_or_lt {mo k : Nat} (h : mo < 2 ^ k) (hk : 33 ≤ k) (hk2 : k ≤ 64) :
    FloorLog2 (mo ||| 0x100000000) < k := by
  have h64 : mo < 2 ^ 64 := Nat.lt_of_lt_of_le h (Nat.pow_le_pow_right (by decide) hk2)
  have hx : mo ||| 0x100000000 < 2 ^ k :=
    Nat.or_lt_two_pow h
      (Nat.lt_of_lt_of_le (show 0x100000000 < 2 ^ 33 by decide)
        (Nat.pow_le_pow_right (by decide) hk))
  have h1 := FloorLog2_le (or_two_pow_32_lt h64) (or_two_pow_32_ne_zero mo)
  exact (Nat.pow_lt_pow_iff_right (show 1 < 2 by decide)).1 (Nat.lt_of_le_of_lt h1 hx)

theorem bytes_le_three (mo : Nat) : file_number_bytes_in_offset_etc mo ≤ 3 := by
  have := FloorLog2_or_ge mo
  unfold file_number_bytes_in_offset_etc
  omega

theorem bits_le (mo : Nat) : file_number_bits_in_offset_etc mo ≤ 24 := by
  have := bytes_le_three mo
  unfold file_number_bits_in_offset_etc
  omega

/-- Every offset up to `max_offset` fits below the file-number field. -/
theorem max_offset_lt {mo : Nat} (h : mo < 2 ^ 64) :
    mo < 2 ^ (64 - file_number_bits_in_offset_etc mo) := by
  have h1 := lt_two_pow_FloorLog2_or h
  have h2 := FloorLog2_or_le h
  refine Nat.lt_of_lt_of_le h1 (Nat.pow_le_pow_right (by decide) ?_)
  unfold file_number_bits_in_offset_etc file_number_bytes_in_offset_etc
  omega

/-- No larger byte count among `0..3` leaves room for `max_offset`. -/
theorem bytes_maximal {mo k : Nat} (hk : k ≤ 3) (h : mo < 2 ^ (64 - 8 * k)) :
    k ≤ file_number_bytes_in_offset_etc mo := by
  have := FloorLog2_or_lt h (by omega) (by omega)
  unfold file_number_bytes_in_offset_etc
  omega

theorem mask_eq (mo : Nat) : mask mo = 2 ^ file_number_bits_in_offset_etc mo - 1 := by
  have hb := bits_le mo
  unfold mask shl64 sub64
  rw [Nat.one_shiftLeft]
  have h1 : 2 ^ file_number_bits_in_offset_etc mo ≤ 2 ^ 24 :=
    Nat.pow_le_pow_right (by decide) hb
  have h0 : 0 < 2 ^ file_number_bits_in_offset_etc mo := Nat.pow_pos (by decide)
  have e : (2 : Nat) ^ 24 = 16777216 := by norm_num
  have e64 : (2 : Nat) ^ 64 = 18446744073709551616 := by norm_num
  rw [e] at h1
  rw [e64]
  omega

theorem bytes_eq_three_iff {mo : Nat} (h : mo < 2 ^ 64) :
    file_number_bytes_in_offset_etc mo = 3 ↔ mo < 2 ^ 40 := by
  constructor
  · intro hb
    have := max_offset_lt h
    unfold file_number_bits_in_offset_etc at this
    rw [hb] at this
    exact this
  · intro hlt
    have h1 := bytes_maximal (k := 3) (by decide) hlt
    have h2 := bytes_le_three mo
    omega

/-! ## Bits of the two modifiers -/

theorem testBit_offset_etc_modifier (fn mo j : Nat) :
    (offset_etc_modifier fn mo).testBit j =
      (decide (j < 64) && (fn.testBit (63 - j) &&
        decide (63 - j < file_number_bits_in_offset_etc mo))) := by
  unfold offset_etc_modifier
  rw [mask_eq, testBit_ReverseBits, Nat.testBit_and, Nat.testBit_two_pow_sub_one]

theorem testBit_shl64 (x n i : Nat) :
    (shl64 x n).testBit i = (decide (i < 64) && (decide (n ≤ i) && x.testBit (i - n))) := by
  unfold shl64
  rw [Nat.testBit_mod_two_pow, Nat.testBit_shiftLeft]

theorem testBit_session_etc_modifier (fn mo j : Nat) :
    (session_etc_modifier fn mo).testBit j =
      (decide (j < 64) &&
        ((decide (2 ≤ 63 - j) &&
            fn.testBit (file_number_bits_in_offset_etc mo + (63 - j - 2))) ||
          (3 - file_number_bytes_in_offset_etc mo).testBit (63 - j))) := by
  unfold session_etc_modifier
  rw [testBit_ReverseBits, Nat.testBit_or, testBit_shl64, Nat.testBit_shiftRight]
  have : decide (63 - j < 64) = true := decide_eq_true (by omega)
  simp [this]

theorem or_one_ne_zero (u : Nat) : u ||| 1 ≠ 0 := by
  intro h
  have h1 := congrArg (fun n => Nat.testBit n 0) h
  simp [Nat.testBit_or] at h1

theorem ReverseBits_zero : ReverseBits 0 = 0 := by decide

/-! ## The constructed words -/

theorem ctor_session_etc64 (E : Externals) (db_id sid : String) (fn mo : Nat) :
    (OffsetableCacheKey.OffsetableCacheKey E db_id sid fn mo).session_etc64 =
      if (decoded_session E sid).2 ^^^ session_etc_modifier fn mo = 0 then
        (decoded_session E sid).1 ||| 1
      else (decoded_session E sid).2 ^^^ session_etc_modifier fn mo := rfl

theorem ctor_offset_etc64 (E : Externals) (db_id sid : String) (fn mo : Nat) :
    (OffsetableCacheKey.OffsetableCacheKey E db_id sid fn mo).offset_etc64 =
      E.Hash64 db_id (decoded_session E sid).1 ^^^ offset_etc_modifier fn mo := rfl

theorem session_etc64_ne_zero_aux (E : Externals) (db_id sid : String) (fn mo : Nat) :
    (OffsetableCacheKey.OffsetableCacheKey E db_id sid fn mo).session_etc64 ≠ 0 := by
  rw [ctor_session_etc64]
  split
  · exact or_one_ne_zero _
  · assumption

theorem bytes_eq_three {mo : Nat} (h : mo < 2 ^ 40) :
    file_number_bytes_in_offset_etc mo = 3 :=
  (bytes_eq_three_iff (Nat.lt_of_lt_of_le h (Nat.pow_le_pow_right (by decide)
    (by decide)))).2 h

theorem bits_eq_24 {mo : Nat} (h : mo < 2 ^ 40) : file_number_bits_in_offset_etc mo = 24 := by
  unfold file_number_bits_in_offset_etc
  rw [bytes_eq_three h]

/-- With three bytes of a file number below `2 ^ 24` packed into `offset_etc64`, nothing
is left for the session word. -/
theorem session_etc_modifier_eq_zero {fn mo : Nat} (hfn : fn < 2 ^ 24) (hmo : mo < 2 ^ 40) :
    session_etc_modifier fn mo = 0 := by
  unfold session_etc_modifier
  rw [bits_eq_24 hmo, bytes_eq_three hmo, Nat.shiftRight_eq_div_pow, Nat.div_eq_of_lt hfn]
  decide

/-! ## Reading the file number back from the two modifiers -/

/-- Every bit of the file number below position `62 + bits` is stored in one of the two
modifiers. -/
theorem testBit_file_number (fn mo p : Nat)
    (hp : p < 62 + file_number_bits_in_offset_etc mo) :
    fn.testBit p =
      if p < file_number_bits_in_offset_etc mo then
        (offset_etc_modifier fn mo).testBit (63 - p)
      else
        (session_etc_modifier fn mo).testBit (61 + file_number_bits_in_offset_etc mo - p) := by
  have hb := bits_le mo
  have hby := bytes_le_three mo
  by_cases h : p < file_number_bits_in_offset_etc mo
  · rw [if_pos h, testBit_offset_etc_modifier]
    have e : 63 - (63 - p) = p := by omega
    have h1 : decide (63 - p < 64) = true := decide_eq_true (by omega)
    rw [e, h1, decide_eq_true h]
    simp
  · rw [if_neg h, testBit_session_etc_modifier]
    have h1 : decide (61 + file_number_bits_in_offset_etc mo - p < 64) = true :=
      decide_eq_true (by omega)
    have h2 : decide (2 ≤ 63 - (61 + file_number_bits_in_offset_etc mo - p)) = true :=
      decide_eq_true (by omega)
    have e : file_number_bits_in_offset_etc mo +
        (63 - (61 + file_number_bits_in_offset_etc mo - p) - 2) = p := by omega
    have h3 : (3 - file_number_bytes_in_offset_etc mo).testBit
        (63 - (61 + file_number_bits_in_offset_etc mo - p)) = false := by
      apply Nat.testBit_lt_two_pow
      have : 2 ^ 2 ≤ 2 ^ (63 - (61 + file_number_bits_in_offset_etc mo - p)) :=
        Nat.pow_le_pow_right (by decide) (by omega)
      omega
    rw [h1, h2, e, h3]
    simp

/-- File numbers below `2 ^ (62 + bits)` are determined by their two modifiers. -/
theorem file_number_eq_of_modifiers_eq {fn1 fn2 mo1 mo2 : Nat}
    (hb : file_number_bits_in_offset_etc mo1 = file_number_bits_in_offset_etc mo2)
    (h1 : fn1 < 2 ^ (62 + file_number_bits_in_offset_etc mo1))
    (h2 : fn2 < 2 ^ (62 + file_number_bits_in_offset_etc mo1))
    (ho : offset_etc_modifier fn1 mo1 = offset_etc_modifier fn2 mo2)
    (hs : session_etc_modifier fn1 mo1 = session_etc_modifier fn2 mo2) : fn1 = fn2 := by
  apply Nat.eq_of_testBit_eq
  intro p
  by_cases hp : p < 62 + file_number_bits_in_offset_etc mo1
  · rw [testBit_file_number fn1 mo1 p hp, testBit_file_number fn2 mo2 p (hb ▸ hp), ho, hs, hb]
  · have hle : 62 + file_number_bits_in_offset_etc mo1 ≤ p := Nat.le_of_not_lt hp
    rw [Nat.testBit_lt_two_pow (Nat.lt_of_lt_of_le h1 (Nat.pow_le_pow_right (by decide) hle)),
      Nat.testBit_lt_two_pow (Nat.lt_of_lt_of_le h2 (Nat.pow_le_pow_right (by decide) hle))]

theorem lt_two_pow_of_lt_64 {fn k : Nat} (h : fn < 2 ^ 64) (hk : 64 ≤ k) : fn < 2 ^ k :=
  Nat.lt_of_lt_of_le h (Nat.pow_le_pow_right (by decide) hk)

/-- When `max_offset < 2 ^ 56` at least one byte of the file number goes into
`offset_etc64`. -/
theorem eight_le_bits {mo : Nat} (h : mo < 2 ^ 56) : 8 ≤ file_number_bits_in_offset_etc mo := by
  have := bytes_maximal (k := 1) (by decide) h
  unfold file_number_bits_in_offset_etc
  omega

/-! ## Words made of two fields that share no bit -/

theorem xor_ne_zero_of_low {l m a : Nat} (hl0 : l ≠ 0) (hla : l < 2 ^ a)
    (hm : ∀ j : Nat, j < a → m.testBit j = false) : l ^^^ m ≠ 0 := by
  obtain ⟨i, hi⟩ := Nat.ne_zero_implies_bit_true hl0
  have hia : i < a := by
    apply Nat.lt_of_not_le
    intro hle
    have := Nat.testBit_lt_two_pow (Nat.lt_of_lt_of_le hla (Nat.pow_le_pow_right (by decide) hle))
    rw [hi] at this
    exact Bool.noConfusion this
  intro h0
  have h1 := congrArg (fun n => Nat.testBit n i) h0
  simp only [Nat.testBit_xor, hi, hm i hia, Nat.zero_testBit] at h1
  exact Bool.noConfusion h1

/-- A word `l ^^^ m` with `l` below bit `a` and `m` at or above bit `a` determines both. -/
theorem eq_and_eq_of_xor_eq {l1 l2 m1 m2 a : Nat} (hl1 : l1 < 2 ^ a) (hl2 : l2 < 2 ^ a)
    (hm1 : ∀ j : Nat, j < a → m1.testBit j = false)
    (hm2 : ∀ j : Nat, j < a → m2.testBit j = false)
    (h : l1 ^^^ m1 = l2 ^^^ m2) : l1 = l2 ∧ m1 = m2 := by
  have hl : l1 = l2 := by
    apply Nat.eq_of_testBit_eq
    intro j
    by_cases hj : j < a
    · have h1 := congrArg (fun n => Nat.testBit n j) h
      simpa only [Nat.testBit_xor, hm1 j hj, hm2 j hj, Bool.xor_false] using h1
    · have hle : a ≤ j := Nat.le_of_not_lt hj
      rw [Nat.testBit_lt_two_pow
          (Nat.lt_of_lt_of_le hl1 (Nat.pow_le_pow_right (by decide) hle)),
        Nat.testBit_lt_two_pow
          (Nat.lt_of_lt_of_le hl2 (Nat.pow_le_pow_right (by decide) hle))]
  subst hl
  exact ⟨rfl, Nat.xor_right_injective h⟩

/-- With three bytes in `offset_etc64`, a file number below `2 ^ b` leaves the low
`86 - b` bits of the session word alone. -/
theorem session_etc_modifier_low_bits {fn mo a b j : Nat} (hfn : fn < 2 ^ b)
    (hab : a + b ≤ 86) (hmo : mo < 2 ^ 40) (hj : j < a) :
    (session_etc_modifier fn mo).testBit j = false := by
  rw [testBit_session_etc_modifier, bits_eq_24 hmo, bytes_eq_three hmo]
  by_cases h2 : 2 ≤ 63 - j
  · have hbit : fn.testBit (24 + (63 - j - 2)) = false :=
      Nat.testBit_lt_two_pow
        (Nat.lt_of_lt_of_le hfn (Nat.pow_le_pow_right (by decide) (by omega)))
    simp [hbit]
  · simp [h2]

/-- With three bytes in `offset_etc64`, the low 40 bits are left for the offset. -/
theorem offset_etc_modifier_low_bits (fn : Nat) {mo j : Nat} (hmo : mo < 2 ^ 40)
    (hj : j < 40) :
    (offset_etc_modifier fn mo).testBit j = false := by
  rw [testBit_offset_etc_modifier, bits_eq_24 hmo]
  have : ¬ 63 - j < 24 := by omega
  simp [this]


/-! ## The process-wide counter -/

theorem counter_after_eq (k : Nat) : counter_after k = 2 ^ 64 - 1 - k % 2 ^ 64 := by
  induction k with
  | zero =>
    show UINT64_MAX = _
    unfold UINT64_MAX
    omega
  | succ k ih =>
    show sub64 (counter_after k) 1 = _
    unfold sub64
    omega

theorem process_lifetime_key_offset (k : Nat) :
    (process_lifetime_key k).offset_etc64 = 2 ^ 64 - 1 - (k - 1) % 2 ^ 64 :=
  counter_after_eq (k - 1)

theorem process_lifetime_key_eq (k : Nat) :
    process_lifetime_key k =
      { session_etc64 := 0, offset_etc64 := 2 ^ 64 - 1 - (k - 1) % 2 ^ 64 } := by
  show CacheKey.mk 0 (counter_after (k - 1)) = _
  rw [counter_after_eq]

/-! ## Large files: no byte of the file number in `offset_etc64` -/

theorem bytes_eq_zero {mo : Nat} (h1 : 2 ^ 56 ≤ mo) (h2 : mo < 2 ^ 64) :
    file_number_bytes_in_offset_etc mo = 0 := by
  have h3 := max_offset_lt h2
  apply Nat.eq_zero_of_not_pos
  intro hpos
  have h4 : 64 - file_number_bits_in_offset_etc mo ≤ 56 := by
    unfold file_number_bits_in_offset_etc; omega
  have h5 := Nat.lt_of_lt_of_le h3 (Nat.pow_le_pow_right (by decide) h4)
  omega

theorem bits_eq_zero {mo : Nat} (h1 : 2 ^ 56 ≤ mo) (h2 : mo < 2 ^ 64) :
    file_number_bits_in_offset_etc mo = 0 := by
  unfold file_number_bits_in_offset_etc
  rw [bytes_eq_zero h1 h2]

theorem ctor_eq_from_session_halves (E : Externals) (db_id sid : String) (fn mo : Nat) :
    OffsetableCacheKey.OffsetableCacheKey E db_id sid fn mo =
      OffsetableCacheKey.from_session_halves E db_id (decoded_session E sid).1
        (decoded_session E sid).2 fn mo := rfl


/-! ## Decoding the two modifiers -/

theorem ReverseBits_ReverseBits {x : Nat} (h : x < 2 ^ 64) : ReverseBits (ReverseBits x) = x := by
  apply Nat.eq_of_testBit_eq
  intro j
  rw [testBit_ReverseBits, testBit_ReverseBits]
  by_cases hj : j < 64
  · have e : 63 - (63 - j) = j := by omega
    have h1 : decide (63 - j < 64) = true := decide_eq_true (by omega)
    rw [e, h1, decide_eq_true hj]
    simp
  · have hx : x.testBit j = false :=
      Nat.testBit_lt_two_pow (Nat.lt_of_lt_of_le h (Nat.pow_le_pow_right (by decide)
        (Nat.le_of_not_lt hj)))
    simp [hj, hx]

theorem shl64_lt (x n : Nat) : shl64 x n < 2 ^ 64 := Nat.mod_lt _ (Nat.pow_pos (by decide))

/-- The word of lines 248-250 before it is reversed. -/
theorem session_meta_lt (fn mo : Nat) :
    shl64 (fn >>> file_number_bits_in_offset_etc mo) 2 |||
      (3 - file_number_bytes_in_offset_etc mo) < 2 ^ 64 :=
  Nat.or_lt_two_pow (shl64_lt _ _)
    (Nat.lt_of_le_of_lt (Nat.sub_le 3 _) (by decide))

theorem ReverseBits_session_etc_modifier (fn mo : Nat) :
    ReverseBits (session_etc_modifier fn mo) =
      shl64 (fn >>> file_number_bits_in_offset_etc mo) 2 |||
        (3 - file_number_bytes_in_offset_etc mo) :=
  ReverseBits_ReverseBits (session_meta_lt fn mo)

theorem ReverseBits_offset_etc_modifier (fn mo : Nat) :
    ReverseBits (offset_etc_modifier fn mo) =
      fn &&& (2 ^ file_number_bits_in_offset_etc mo - 1) := by
  unfold offset_etc_modifier
  rw [mask_eq]
  apply ReverseBits_ReverseBits
  have hb := bits_le mo
  have h1 : fn &&& (2 ^ file_number_bits_in_offset_etc mo - 1) <
      2 ^ file_number_bits_in_offset_etc mo := by
    apply Nat.lt_pow_two_of_testBit
    intro i hi
    rw [Nat.testBit_and, Nat.testBit_two_pow_sub_one]
    have : ¬ i < file_number_bits_in_offset_etc mo := by omega
    simp [this]
  exact Nat.lt_of_lt_of_le h1 (Nat.pow_le_pow_right (by decide) (by omega))

theorem three_sub_testBit (b i : Nat) (hi : 2 ≤ i) : (3 - b).testBit i = false := by
  apply Nat.testBit_lt_two_pow
  have : 2 ^ 2 ≤ 2 ^ i := Nat.pow_le_pow_right (by decide) hi
  omega

/-- The two low bits of the metadata word hold `3 - byte count`. -/
theorem session_meta_and_three (fn mo : Nat) :
    (shl64 (fn >>> file_number_bits_in_offset_etc mo) 2 |||
      (3 - file_number_bytes_in_offset_etc mo)) &&& 3 =
      3 - file_number_bytes_in_offset_etc mo := by
  apply Nat.eq_of_testBit_eq
  intro i
  have h3 : (3 : Nat) = 2 ^ 2 - 1 := by decide
  rw [Nat.testBit_and, Nat.testBit_or, testBit_shl64]
  nth_rewrite 2 [h3]
  rw [Nat.testBit_two_pow_sub_one]
  by_cases hi : i < 2
  · have : ¬ 2 ≤ i := by omega
    simp [hi, this]
  · simp [hi, three_sub_testBit _ i (by omega)]

/-- The remaining bits of the metadata word hold the overflow of the file number. -/
theorem session_meta_shiftRight_two {fn : Nat} (mo : Nat) (h : fn < 2 ^ 62) :
    (shl64 (fn >>> file_number_bits_in_offset_etc mo) 2 |||
      (3 - file_number_bytes_in_offset_etc mo)) >>> 2 =
      fn >>> file_number_bits_in_offset_etc mo := by
  apply Nat.eq_of_testBit_eq
  intro i
  rw [Nat.testBit_shiftRight, Nat.testBit_or, testBit_shl64, Nat.testBit_shiftRight,
    three_sub_testBit _ (2 + i) (by omega)]
  have e : 2 + i - 2 = i := by omega
  rw [e]
  by_cases hi : 2 + i < 64
  · simp [hi]
  · have hx : fn.testBit (file_number_bits_in_offset_etc mo + i) = false :=
      Nat.testBit_lt_two_pow (Nat.lt_of_lt_of_le h (Nat.pow_le_pow_right (by decide)
        (by omega)))
    simp [hi, hx]

theorem shiftRight_shiftLeft_or_and (fn b : Nat) :
    ((fn >>> b) <<< b) ||| (fn &&& (2 ^ b - 1)) = fn := by
  apply Nat.eq_of_testBit_eq
  intro j
  rw [Nat.testBit_or, Nat.testBit_shiftLeft, Nat.testBit_shiftRight, Nat.testBit_and,
    Nat.testBit_two_pow_sub_one]
  by_cases hj : j < b
  · have : ¬ j ≥ b := by omega
    simp [hj, this]
  · have e : b + (j - b) = j := by omega
    have : j ≥ b := by omega
    simp [hj, this, e]

/-- The file number is read back from the two modifiers. -/
theorem decode_file_number {fn : Nat} (mo : Nat) (h : fn < 2 ^ 62) :
    ((ReverseBits (session_etc_modifier fn mo) >>> 2) <<<
        file_number_bits_in_offset_etc mo) |||
      ReverseBits (offset_etc_modifier fn mo) = fn := by
  rw [ReverseBits_session_etc_modifier, ReverseBits_offset_etc_modifier,
    session_meta_shiftRight_two mo h, shiftRight_shiftLeft_or_and]

/-- The byte count is read back from the session modifier. -/
theorem decode_bytes (fn mo : Nat) :
    3 - (ReverseBits (session_etc_modifier fn mo) &&& 3) =
      file_number_bytes_in_offset_etc mo := by
  rw [ReverseBits_session_etc_modifier, session_meta_and_three]
  have := bytes_le_three mo
  omega

theorem FloorLog2_le_FloorLog2_or {mo : Nat} (h0 : 0 < mo) (h : mo < 2 ^ 64) :
    FloorLog2 mo ≤ FloorLog2 (mo ||| 0x100000000) := by
  have h1 := FloorLog2_le h (Nat.pos_iff_ne_zero.1 h0)
  have h2 := lt_two_pow_FloorLog2_or h
  have := (Nat.pow_lt_pow_iff_right (show 1 < 2 by decide)).1 (Nat.lt_of_le_of_lt h1 h2)
  omega

/-! ## The loops of the bytewise comparator, one byte at a time -/

theorem resize_cons_succ (a : Nat) (s : List Nat) (n : Nat) :
    resize (a :: s) (n + 1) = a :: resize s n := by
  unfold resize
  simp

theorem resize_one_cons (a : Nat) (s : List Nat) : resize (a :: s) 1 = [a] := by
  unfold resize
  simp

theorem diff_index_loop_cons (a b : Nat) (s l : List Nat) (m fuel i : Nat) :
    diff_index_loop (a :: s) (b :: l) (m + 1) fuel (i + 1) =
      diff_index_loop s l m fuel i + 1 := by
  induction fuel generalizing i with
  | zero => rfl
  | succ fuel ih =>
    unfold diff_index_loop
    simp only [List.getD_cons_succ, Nat.add_lt_add_iff_right]
    by_cases h : i < m ∧ s.getD i 0 = l.getD i 0
    · rw [if_pos h, if_pos h, ih]
    · rw [if_neg h, if_neg h]

theorem diff_index_loop_le (s l : List Nat) (m fuel i : Nat) (h : i ≤ m) :
    diff_index_loop s l m fuel i ≤ m := by
  induction fuel generalizing i with
  | zero => exact h
  | succ fuel ih =>
    unfold diff_index_loop
    by_cases hc : i < m ∧ s.getD i 0 = l.getD i 0
    · rw [if_pos hc]; exact ih (i + 1) hc.1
    · rw [if_neg hc]; exact h

theorem increment_loop_cons (a : Nat) (s : List Nat) (fuel i : Nat) :
    BytewiseComparatorImpl.increment_loop (a :: s) fuel (i + 1) =
      a :: BytewiseComparatorImpl.increment_loop s fuel i := by
  induction fuel generalizing i with
  | zero => rfl
  | succ fuel ih =>
    unfold BytewiseComparatorImpl.increment_loop
    simp only [List.getD_cons_succ, List.length_cons, Nat.add_lt_add_iff_right,
      List.set_cons_succ, resize_cons_succ]
    by_cases h1 : i < s.length
    · by_cases h2 : s.getD i 0 < 0xff
      · simp only [h1, h2, if_true]
      · simp only [h1, h2, if_true, if_false, ih]
    · simp only [h1, if_false]

theorem increment_loop_nil (fuel i : Nat) :
    BytewiseComparatorImpl.increment_loop [] fuel i = [] := by
  cases fuel with
  | zero => rfl
  | succ fuel =>
    unfold BytewiseComparatorImpl.increment_loop
    simp

theorem increment_loop_succ (start : List Nat) (fuel i : Nat) :
    BytewiseComparatorImpl.increment_loop start (fuel + 1) i =
      if i < start.length then
        if start.getD i 0 < 0xff then
          resize (start.set i ((start.getD i 0 + 1) % 256)) (i + 1)
        else BytewiseComparatorImpl.increment_loop start fuel (i + 1)
      else start := rfl

/-- The increment loop over a whole string, by its first byte. -/
theorem increment_loop_cons_zero (c : Nat) (s : List Nat) :
    BytewiseComparatorImpl.increment_loop (c :: s) (s.length + 1) 0 =
      if c < 0xff then [c + 1]
      else c :: BytewiseComparatorImpl.increment_loop s s.length 0 := by
  rw [increment_loop_succ]
  simp only [List.length_cons, Nat.zero_lt_succ, if_true, List.getD_cons_zero,
    List.set_cons_zero, resize_one_cons, Nat.zero_add]
  by_cases h : c < 0xff
  · rw [if_pos h, if_pos h]
    have : (c + 1) % 256 = c + 1 := Nat.mod_eq_of_lt (by omega)
    rw [this]
  · rw [if_neg h, if_neg h, increment_loop_cons]

theorem FindShortestSeparator_nil_left (limit : List Nat) :
    BytewiseComparatorImpl.FindShortestSeparator [] limit = [] := by
  unfold BytewiseComparatorImpl.FindShortestSeparator
  simp [diff_index_loop]

theorem FindShortestSeparator_nil_right (start : List Nat) :
    BytewiseComparatorImpl.FindShortestSeparator start [] = start := by
  unfold BytewiseComparatorImpl.FindShortestSeparator
  simp [diff_index_loop]

theorem diff_index_loop_succ (s l : List Nat) (m fuel i : Nat) :
    diff_index_loop s l m (fuel + 1) i =
      if i < m ∧ s.getD i 0 = l.getD i 0 then diff_index_loop s l m fuel (i + 1)
      else i := rfl

theorem succ_min_succ (x y : Nat) : min (x + 1) (y + 1) = min x y + 1 := by omega

/-- Equal first bytes are kept and the rest is treated the same way. -/
theorem FindShortestSeparator_cons_same (a : Nat) (s l : List Nat) :
    BytewiseComparatorImpl.FindShortestSeparator (a :: s) (a :: l) =
      a :: BytewiseComparatorImpl.FindShortestSeparator s l := by
  unfold BytewiseComparatorImpl.FindShortestSeparator
  simp only [List.length_cons, succ_min_succ]
  rw [diff_index_loop_succ]
  simp only [Nat.zero_lt_succ, List.getD_cons_zero, and_self, if_true, Nat.zero_add,
    diff_index_loop_cons, List.getD_cons_succ, List.set_cons_succ, resize_cons_succ,
    ge_iff_le, Nat.add_le_add_iff_right, Nat.add_sub_cancel, increment_loop_cons]
  generalize diff_index_loop s l (min s.length l.length) (min s.length l.length) 0 = d
  have hfuel : s.length + 1 - (d + 1 + 1) = s.length - (d + 1) := by omega
  have hcond : (d + 1 < l.length) ↔ (d < l.length - 1) := by omega
  rw [hfuel]
  simp only [hcond]
  split_ifs <;> rfl

/-- Different first bytes decide at once. -/
theorem FindShortestSeparator_cons_ne (a b : Nat) (s l : List Nat) (hne : a ≠ b) :
    BytewiseComparatorImpl.FindShortestSeparator (a :: s) (b :: l) =
      if a ≥ b then a :: s
      else if 0 < l.length ∨ a + 1 < b then [(a + 1) % 256]
      else a :: BytewiseComparatorImpl.increment_loop s s.length 0 := by
  unfold BytewiseComparatorImpl.FindShortestSeparator
  simp only [List.length_cons, succ_min_succ]
  rw [diff_index_loop_succ]
  simp only [Nat.zero_lt_succ, List.getD_cons_zero, hne, and_false, if_false,
    List.set_cons_zero, resize_one_cons, Nat.zero_add, Nat.add_sub_cancel,
    increment_loop_cons, ge_iff_le, Nat.le_zero_eq, Nat.add_one_ne_zero]

/-! ## The bytewise order -/

theorem compare_cons_same (a : Nat) (s l : List Nat) :
    Slice.compare (a :: s) (a :: l) = Slice.compare s l := by
  simp [Slice.compare]

theorem compare_cons_lt {a b : Nat} (s l : List Nat) (h : a < b) :
    Slice.compare (a :: s) (b :: l) = -1 := by
  simp [Slice.compare, h]

theorem compare_cons_gt {a b : Nat} (s l : List Nat) (h : b < a) :
    Slice.compare (a :: s) (b :: l) = 1 := by
  have : ¬ a < b := by omega
  simp [Slice.compare, h, this]

theorem compare_self (s : List Nat) : Slice.compare s s = 0 := by
  induction s with
  | nil => rfl
  | cons a s ih => rw [compare_cons_same, ih]

theorem compare_nil_cons (b : Nat) (l : List Nat) : Slice.compare [] (b :: l) = -1 := rfl

theorem compare_cons_nil (a : Nat) (s : List Nat) : Slice.compare (a :: s) [] = 1 := rfl

theorem increment_loop_length_le (s : List Nat) :
    (BytewiseComparatorImpl.increment_loop s s.length 0).length ≤ s.length := by
  induction s with
  | nil => rw [increment_loop_nil]
  | cons c s ih =>
    rw [List.length_cons, increment_loop_cons_zero]
    split
    · simp
    · simpa using ih

theorem compare_increment_loop (s : List Nat) :
    Slice.compare s (BytewiseComparatorImpl.increment_loop s s.length 0) ≤ 0 := by
  induction s with
  | nil => rw [increment_loop_nil]; decide
  | cons c s ih =>
    rw [List.length_cons, increment_loop_cons_zero]
    split
    · have e := compare_cons_lt s [] (Nat.lt_add_one c)
      omega
    · rw [compare_cons_same]; exact ih

/-- The three facts about `FindShortestSeparator`, by induction over the common prefix. -/
theorem FindShortestSeparator_spec (start : List Nat) :
    ∀ limit : List Nat, is_bytes limit →
      (BytewiseComparatorImpl.FindShortestSeparator start limit).length ≤ start.length ∧
        Slice.compare start (BytewiseComparatorImpl.FindShortestSeparator start limit) ≤ 0 ∧
        (Slice.compare start limit < 0 →
          Slice.compare (BytewiseComparatorImpl.FindShortestSeparator start limit) limit < 0) := by
  induction start with
  | nil =>
    intro limit _
    rw [FindShortestSeparator_nil_left]
    exact ⟨Nat.le_refl _, by decide, fun h => h⟩
  | cons a s ih =>
    intro limit hl
    cases limit with
    | nil =>
      rw [FindShortestSeparator_nil_right]
      exact ⟨Nat.le_refl _, Int.le_of_eq (compare_self _), fun h => h⟩
    | cons b l =>
      have hb : b < 256 := hl b (List.mem_cons_self b l)
      have hl2 : is_bytes l := fun x hx => hl x (List.mem_cons_of_mem b hx)
      by_cases hab : a = b
      · subst hab
        obtain ⟨h1, h2, h3⟩ := ih l hl2
        rw [FindShortestSeparator_cons_same]
        refine ⟨by simpa using h1, by rw [compare_cons_same]; exact h2, ?_⟩
        rw [compare_cons_same, compare_cons_same]
        exact h3
      · rw [FindShortestSeparator_cons_ne a b s l hab]
        by_cases hge : a ≥ b
        · rw [if_pos hge]
          exact ⟨Nat.le_refl _, Int.le_of_eq (compare_self _), fun h => h⟩
        · rw [if_neg hge]
          have hlt : a < b := Nat.lt_of_not_le hge
          by_cases hc : 0 < l.length ∨ a + 1 < b
          · rw [if_pos hc]
            have hmod : (a + 1) % 256 = a + 1 := Nat.mod_eq_of_lt (by omega)
            rw [hmod]
            refine ⟨by simp, by have e := compare_cons_lt s [] (Nat.lt_add_one a); omega,
              fun _ => ?_⟩
            by_cases h2 : a + 1 < b
            · have e := compare_cons_lt [] l h2
              omega
            · have hEq : a + 1 = b := by omega
              have hpos : 0 < l.length := by
                rcases hc with h | h
                · exact h
                · exact absurd h h2
              rw [hEq, compare_cons_same]
              cases l with
              | nil => exact absurd hpos (Nat.lt_irrefl 0)
              | cons c l2 =>
                have e := compare_nil_cons c l2
                omega
          · rw [if_neg hc]
            refine ⟨by simpa using increment_loop_length_le s,
              by rw [compare_cons_same]; exact compare_increment_loop s, fun _ => ?_⟩
            have e := compare_cons_lt (BytewiseComparatorImpl.increment_loop s s.length 0) l hlt
            omega

/-- When one string is a prefix of the other, or `start` is the larger one,
`FindShortestSeparator` returns `start`. -/
theorem FindShortestSeparator_unchanged (start : List Nat) :
    ∀ limit : List Nat,
      (start <+: limit ∨ limit <+: start ∨ Slice.compare start limit > 0) →
        BytewiseComparatorImpl.FindShortestSeparator start limit = start := by
  induction start with
  | nil => intro limit _; exact FindShortestSeparator_nil_left limit
  | cons a s ih =>
    intro limit h
    cases limit with
    | nil => exact FindShortestSeparator_nil_right _
    | cons b l =>
      by_cases hab : a = b
      · subst hab
        rw [FindShortestSeparator_cons_same, ih l]
        rcases h with h | h | h
        · exact Or.inl ((List.cons_prefix_cons.1 h).2)
        · exact Or.inr (Or.inl ((List.cons_prefix_cons.1 h).2))
        · rw [compare_cons_same] at h
          exact Or.inr (Or.inr h)
      · rw [FindShortestSeparator_cons_ne a b s l hab]
        have hge : a ≥ b := by
          rcases h with h | h | h
          · exact absurd (List.cons_prefix_cons.1 h).1 hab
          · exact absurd (List.cons_prefix_cons.1 h).1.symm hab
          · apply Nat.le_of_not_lt
            intro hlt
            rw [compare_cons_lt s l hlt] at h
            exact absurd h (by decide)
        rw [if_pos hge]

/-! ## `FindShortSuccessor`, one byte at a time -/

theorem FindShortSuccessor_loop_succ (key : List Nat) (n fuel i : Nat) :
    BytewiseComparatorImpl.FindShortSuccessor_loop key n (fuel + 1) i =
      if i < n then
        if key.getD i 0 ≠ 0xff then resize (key.set i ((key.getD i 0 + 1) % 256)) (i + 1)
        else BytewiseComparatorImpl.FindShortSuccessor_loop key n fuel (i + 1)
      else key := rfl

theorem FindShortSuccessor_loop_cons (a : Nat) (s : List Nat) (n fuel i : Nat) :
    BytewiseComparatorImpl.FindShortSuccessor_loop (a :: s) (n + 1) fuel (i + 1) =
      a :: BytewiseComparatorImpl.FindShortSuccessor_loop s n fuel i := by
  induction fuel generalizing i with
  | zero => rfl
  | succ fuel ih =>
    rw [FindShortSuccessor_loop_succ, FindShortSuccessor_loop_succ]
    simp only [List.getD_cons_succ, Nat.add_lt_add_iff_right, List.set_cons_succ,
      resize_cons_succ, ih]
    split_ifs <;> rfl

theorem FindShortSuccessor_nil : BytewiseComparatorImpl.FindShortSuccessor [] = [] := rfl

theorem FindShortSuccessor_cons (a : Nat) (s : List Nat) :
    BytewiseComparatorImpl.FindShortSuccessor (a :: s) =
      if a ≠ 0xff then [(a + 1) % 256]
      else a :: BytewiseComparatorImpl.FindShortSuccessor s := by
  unfold BytewiseComparatorImpl.FindShortSuccessor
  rw [List.length_cons, FindShortSuccessor_loop_succ]
  simp only [Nat.zero_lt_succ, if_true, List.getD_cons_zero, List.set_cons_zero,
    resize_one_cons, Nat.zero_add, FindShortSuccessor_loop_cons]

theorem FindShortSuccessor_all_ff (key : List Nat) (h : ∀ b ∈ key, b = 0xff) :
    BytewiseComparatorImpl.FindShortSuccessor key = key := by
  induction key with
  | nil => rfl
  | cons a s ih =>
    have ha : a = 0xff := h a (List.mem_cons_self a s)
    rw [FindShortSuccessor_cons, if_neg (fun hne => hne ha),
      ih (fun b hb => h b (List.mem_cons_of_mem a hb))]

theorem FindShortSuccessor_first_not_ff (key : List Nat) :
    ∀ i : Nat, is_bytes key → i < key.length → (∀ j : Nat, j < i → key.getD j 0 = 0xff) →
      key.getD i 0 ≠ 0xff →
      BytewiseComparatorImpl.FindShortSuccessor key = key.take i ++ [key.getD i 0 + 1] ∧
        Slice.compare key (BytewiseComparatorImpl.FindShortSuccessor key) < 0 := by
  induction key with
  | nil => intro i _ hi; exact absurd hi (Nat.not_lt_zero _)
  | cons a s ih =>
    intro i hk hi hff hne
    have ha : a < 256 := hk a (List.mem_cons_self a s)
    cases i with
    | zero =>
      have hne2 : a ≠ 0xff := by simpa using hne
      have hmod : (a + 1) % 256 = a + 1 := Nat.mod_eq_of_lt (by omega)
      rw [FindShortSuccessor_cons, if_pos hne2, hmod]
      refine ⟨by simp, ?_⟩
      have e := compare_cons_lt s [] (Nat.lt_add_one a)
      omega
    | succ i =>
      have ha2 : a = 0xff := by simpa using hff 0 (Nat.zero_lt_succ i)
      obtain ⟨h1, h2⟩ := ih i (fun x hx => hk x (List.mem_cons_of_mem a hx))
        (by simpa using hi)
        (fun j hj => by simpa using hff (j + 1) (Nat.succ_lt_succ hj))
        (by simpa using hne)
      rw [FindShortSuccessor_cons, if_neg (fun hne3 => hne3 ha2), compare_cons_same]
      refine ⟨?_, h2⟩
      rw [h1]
      simp

/-! ## `IsSameLengthImmediateSuccessor`, one byte at a time -/

theorem difference_offset_cons_same (a : Nat) (s t : List Nat) :
    Slice.difference_offset (a :: s) (a :: t) = Slice.difference_offset s t + 1 := by
  simp [Slice.difference_offset]

theorem difference_offset_cons_ne {a b : Nat} (s t : List Nat) (h : a ≠ b) :
    Slice.difference_offset (a :: s) (b :: t) = 0 := by
  simp [Slice.difference_offset, h]

theorem remaining_bytes_loop_succ (s t : List Nat) (fuel i : Nat) :
    BytewiseComparatorImpl.remaining_bytes_loop s t (fuel + 1) i =
      if i < s.length then
        if s.getD i 0 ≠ 0xff ∨ t.getD i 0 ≠ 0x00 then false
        else BytewiseComparatorImpl.remaining_bytes_loop s t fuel (i + 1)
      else true := rfl

theorem remaining_bytes_loop_cons (a b : Nat) (s t : List Nat) (fuel i : Nat) :
    BytewiseComparatorImpl.remaining_bytes_loop (a :: s) (b :: t) fuel (i + 1) =
      BytewiseComparatorImpl.remaining_bytes_loop s t fuel i := by
  induction fuel generalizing i with
  | zero => rfl
  | succ fuel ih =>
    rw [remaining_bytes_loop_succ, remaining_bytes_loop_succ]
    simp only [List.getD_cons_succ, List.length_cons, Nat.add_lt_add_iff_right, ih]

/-- The loop accepts exactly when `s` is all `0xff` and `t` is all `0x00`. -/
theorem remaining_bytes_loop_iff (s : List Nat) :
    ∀ t : List Nat, s.length = t.length →
      (BytewiseComparatorImpl.remaining_bytes_loop s t s.length 0 = true ↔
        (∀ x ∈ s, x = 0xff) ∧ (∀ x ∈ t, x = 0)) := by
  induction s with
  | nil =>
    intro t ht
    cases t with
    | nil => simp [BytewiseComparatorImpl.remaining_bytes_loop]
    | cons b t => simp at ht
  | cons a s ih =>
    intro t ht
    cases t with
    | nil => simp at ht
    | cons b t =>
      have ht2 : s.length = t.length := by simpa using ht
      rw [List.length_cons, remaining_bytes_loop_succ]
      simp only [List.length_cons, Nat.zero_lt_succ, if_true, List.getD_cons_zero,
        Nat.zero_add, remaining_bytes_loop_cons, List.forall_mem_cons]
      by_cases hc : a ≠ 0xff ∨ b ≠ 0x00
      · rw [if_pos hc]
        constructor
        · intro h; exact absurd h (by decide)
        · rintro ⟨⟨ha, _⟩, ⟨hb, _⟩⟩
          rcases hc with h | h
          · exact absurd ha h
          · exact absurd hb h
      · rw [if_neg hc, ih t ht2]
        have ha : a = 0xff := by
          by_contra h; exact hc (Or.inl h)
        have hb : b = 0 := by
          by_contra h; exact hc (Or.inr h)
        simp [ha, hb]

theorem IsSameLengthImmediateSuccessor_length_ne (s t : List Nat) (h : s.length ≠ t.length) :
    BytewiseComparatorImpl.IsSameLengthImmediateSuccessor s t = false := by
  unfold BytewiseComparatorImpl.IsSameLengthImmediateSuccessor
  simp [h]

theorem IsSameLengthImmediateSuccessor_nil :
    BytewiseComparatorImpl.IsSameLengthImmediateSuccessor [] [] = false := rfl

theorem IsSameLengthImmediateSuccessor_cons_same (a : Nat) (s t : List Nat) :
    BytewiseComparatorImpl.IsSameLengthImmediateSuccessor (a :: s) (a :: t) =
      BytewiseComparatorImpl.IsSameLengthImmediateSuccessor s t := by
  by_cases hlen : s.length = t.length
  · unfold BytewiseComparatorImpl.IsSameLengthImmediateSuccessor
    simp only [List.length_cons, hlen, difference_offset_cons_same, List.getD_cons_succ,
      remaining_bytes_loop_cons, ne_eq, not_true_eq_false, Nat.add_one_ne_zero, or_self,
      if_false, ge_iff_le, Nat.add_le_add_iff_right, false_or]
    have hfuel : t.length + 1 - (Slice.difference_offset s t + 1 + 1) =
        t.length - (Slice.difference_offset s t + 1) := by omega
    rw [hfuel]
    by_cases h0 : t.length = 0
    · have : t.length ≤ Slice.difference_offset s t := by omega
      simp [h0]
    · simp [h0]
  · rw [IsSameLengthImmediateSuccessor_length_ne s t hlen,
      IsSameLengthImmediateSuccessor_length_ne (a :: s) (a :: t) (by simpa using hlen)]

theorem IsSameLengthImmediateSuccessor_cons_ne {a b : Nat} (s t : List Nat) (hab : a ≠ b)
    (hlen : s.length = t.length) :
    BytewiseComparatorImpl.IsSameLengthImmediateSuccessor (a :: s) (b :: t) =
      if a ≠ 0xff ∧ a + 1 = b then
        BytewiseComparatorImpl.remaining_bytes_loop s t s.length 0
      else false := by
  unfold BytewiseComparatorImpl.IsSameLengthImmediateSuccessor
  simp only [List.length_cons, hlen, difference_offset_cons_ne s t hab, List.getD_cons_zero,
    remaining_bytes_loop_cons, ne_eq, not_true_eq_false, Nat.add_one_ne_zero, or_self,
    if_false, ge_iff_le, Nat.le_zero_eq, Nat.zero_add, Nat.add_sub_cancel]

/-! ## Strings as big-endian base-256 numbers -/

theorem bytes_value_cons (a : Nat) (s : List Nat) :
    bytes_value (a :: s) = a * 256 ^ s.length + bytes_value s := rfl

theorem is_bytes_cons {a : Nat} {s : List Nat} (h : is_bytes (a :: s)) :
    a < 256 ∧ is_bytes s :=
  ⟨h a (List.mem_cons_self a s), fun x hx => h x (List.mem_cons_of_mem a hx)⟩

theorem bytes_value_lt (s : List Nat) (h : is_bytes s) : bytes_value s < 256 ^ s.length := by
  induction s with
  | nil => decide
  | cons a s ih =>
    obtain ⟨ha, hs⟩ := is_bytes_cons h
    have h1 := ih hs
    have h2 : a * 256 ^ s.length ≤ 255 * 256 ^ s.length :=
      Nat.mul_le_mul_right _ (by omega)
    rw [bytes_value_cons, List.length_cons, Nat.pow_succ]
    omega

theorem bytes_value_eq_zero_iff (s : List Nat) : bytes_value s = 0 ↔ ∀ x ∈ s, x = 0 := by
  induction s with
  | nil => simp [bytes_value]
  | cons a s ih =>
    have hP : 0 < 256 ^ s.length := Nat.pow_pos (by decide)
    rw [bytes_value_cons, List.forall_mem_cons, ← ih]
    constructor
    · intro h
      have h1 : a * 256 ^ s.length = 0 := by omega
      rcases Nat.mul_eq_zero.1 h1 with h2 | h2
      · exact ⟨h2, by omega⟩
      · omega
    · rintro ⟨ha, hv⟩
      rw [ha, hv]
      simp

theorem bytes_value_add_one_eq_iff (s : List Nat) (h : is_bytes s) :
    bytes_value s + 1 = 256 ^ s.length ↔ ∀ x ∈ s, x = 0xff := by
  induction s with
  | nil => simp [bytes_value]
  | cons a s ih =>
    obtain ⟨ha, hs⟩ := is_bytes_cons h
    have hP : 0 < 256 ^ s.length := Nat.pow_pos (by decide)
    have hv := bytes_value_lt s hs
    have h2 : a * 256 ^ s.length ≤ 255 * 256 ^ s.length :=
      Nat.mul_le_mul_right _ (by omega)
    rw [bytes_value_cons, List.length_cons, Nat.pow_succ, List.forall_mem_cons, ← ih hs]
    constructor
    · intro heq
      have h3 : a * 256 ^ s.length = 255 * 256 ^ s.length := by omega
      exact ⟨Nat.eq_of_mul_eq_mul_right hP h3, by omega⟩
    · rintro ⟨ha2, hv2⟩
      rw [ha2]
      omega

theorem compare_lt_zero_iff_value_lt (s : List Nat) :
    ∀ t : List Nat, is_bytes s → is_bytes t → s.length = t.length →
      (Slice.compare s t < 0 ↔ bytes_value s < bytes_value t) := by
  induction s with
  | nil =>
    intro t _ _ hlen
    cases t with
    | nil => simp [Slice.compare, bytes_value]
    | cons b t => simp at hlen
  | cons a s ih =>
    intro t hs ht hlen
    cases t with
    | nil => simp at hlen
    | cons b t =>
      have hlen2 : s.length = t.length := by simpa using hlen
      obtain ⟨_, hs2⟩ := is_bytes_cons hs
      obtain ⟨_, ht2⟩ := is_bytes_cons ht
      have hvs := bytes_value_lt s hs2
      have hvt := bytes_value_lt t ht2
      rw [bytes_value_cons, bytes_value_cons, ← hlen2]
      rw [← hlen2] at hvt
      rcases Nat.lt_trichotomy a b with hlt | heq | hgt
      · have e := compare_cons_lt s t hlt
        have h3 : (a + 1) * 256 ^ s.length ≤ b * 256 ^ s.length :=
          Nat.mul_le_mul_right _ hlt
        rw [Nat.succ_mul] at h3
        constructor
        · intro _; omega
        · intro _; omega
      · subst heq
        rw [compare_cons_same, ih t hs2 ht2 hlen2]
        omega
      · have e := compare_cons_gt s t hgt
        have h3 : (b + 1) * 256 ^ s.length ≤ a * 256 ^ s.length :=
          Nat.mul_le_mul_right _ hgt
        rw [Nat.succ_mul] at h3
        constructor
        · intro _; omega
        · intro _; omega

theorem bytes_of_value_spec (len : Nat) :
    ∀ v : Nat, v < 256 ^ len →
      (bytes_of_value v len).length = len ∧ is_bytes (bytes_of_value v len) ∧
        bytes_value (bytes_of_value v len) = v := by
  induction len with
  | zero =>
    intro v hv
    have : v = 0 := by simpa using hv
    subst this
    exact ⟨rfl, fun x hx => absurd hx (List.not_mem_nil x), rfl⟩
  | succ len ih =>
    intro v hv
    have hP : 0 < 256 ^ len := Nat.pow_pos (by decide)
    obtain ⟨h1, h2, h3⟩ := ih (v % 256 ^ len) (Nat.mod_lt _ hP)
    have hdiv : v / 256 ^ len < 256 := by
      apply Nat.div_lt_of_lt_mul
      rw [Nat.pow_succ] at hv
      exact hv
    show ((v / 256 ^ len) % 256 :: bytes_of_value (v % 256 ^ len) len).length = len + 1 ∧
      is_bytes ((v / 256 ^ len) % 256 :: bytes_of_value (v % 256 ^ len) len) ∧
      bytes_value ((v / 256 ^ len) % 256 :: bytes_of_value (v % 256 ^ len) len) = v
    refine ⟨by simp [h1], ?_, ?_⟩
    · intro x hx
      rcases List.mem_cons.1 hx with rfl | hx2
      · exact Nat.mod_lt _ (by decide)
      · exact h2 x hx2
    · rw [bytes_value_cons, h1, h3, Nat.mod_eq_of_lt hdiv]
      exact Nat.div_add_mod' v (256 ^ len)

/-- `IsSameLengthImmediateSuccessor` is the test `t = s + 1` on numbers of one length. -/
theorem IsSameLengthImmediateSuccessor_iff_value (s : List Nat) :
    ∀ t : List Nat, is_bytes s → is_bytes t →
      (BytewiseComparatorImpl.IsSameLengthImmediateSuccessor s t = true ↔
        s.length = t.length ∧ s.length ≠ 0 ∧ bytes_value t = bytes_value s + 1) := by
  induction s with
  | nil =>
    intro t _ _
    have : BytewiseComparatorImpl.IsSameLengthImmediateSuccessor [] t = false := by
      unfold BytewiseComparatorImpl.IsSameLengthImmediateSuccessor
      simp
    simp [this]
  | cons a s ih =>
    intro t hs ht
    cases t with
    | nil =>
      rw [IsSameLengthImmediateSuccessor_length_ne _ _ (by simp)]
      simp
    | cons b t =>
      obtain ⟨ha, hs2⟩ := is_bytes_cons hs
      obtain ⟨hb, ht2⟩ := is_bytes_cons ht
      by_cases hlen : s.length = t.length
      · have hvs := bytes_value_lt s hs2
        have hvt := bytes_value_lt t ht2
        have hP : 0 < 256 ^ s.length := Nat.pow_pos (by decide)
        rw [bytes_value_cons, bytes_value_cons, ← hlen]
        rw [← hlen] at hvt
        by_cases hab : a = b
        · subst hab
          rw [IsSameLengthImmediateSuccessor_cons_same, ih t hs2 ht2]
          constructor
          · rintro ⟨_, _, hv⟩
            exact ⟨by simp [hlen], by simp, by omega⟩
          · rintro ⟨_, _, hv⟩
            refine ⟨hlen, ?_, by omega⟩
            intro h0
            have hs0 : s = [] := List.length_eq_zero.1 h0
            have ht0 : t = [] := List.length_eq_zero.1 (hlen ▸ h0)
            subst hs0; subst ht0
            simp [bytes_value] at hv
        · rw [IsSameLengthImmediateSuccessor_cons_ne s t hab hlen]
          constructor
          · intro h
            by_cases hc : a ≠ 0xff ∧ a + 1 = b
            · rw [if_pos hc] at h
              obtain ⟨hff, h00⟩ := (remaining_bytes_loop_iff s t hlen).1 h
              have h1 := (bytes_value_add_one_eq_iff s hs2).2 hff
              have h2 := (bytes_value_eq_zero_iff t).2 h00
              refine ⟨by simp [hlen], by simp, ?_⟩
              rw [← hc.2, Nat.succ_mul]
              omega
            · rw [if_neg hc] at h
              exact absurd h (by decide)
          · rintro ⟨_, _, hv⟩
            rcases Nat.lt_or_gt_of_ne hab with hlt | hgt
            · have h3 : (a + 1) * 256 ^ s.length ≤ b * 256 ^ s.length :=
                Nat.mul_le_mul_right _ hlt
              rw [Nat.succ_mul] at h3
              have h4 : b * 256 ^ s.length = (a + 1) * 256 ^ s.length := by
                rw [Nat.succ_mul]; omega
              have hb2 : b = a + 1 := Nat.eq_of_mul_eq_mul_right hP h4
              have hc : a ≠ 0xff ∧ a + 1 = b := ⟨by omega, hb2.symm⟩
              rw [if_pos hc]
              apply (remaining_bytes_loop_iff s t hlen).2
              exact ⟨(bytes_value_add_one_eq_iff s hs2).1 (by omega),
                (bytes_value_eq_zero_iff t).1 (by omega)⟩
            · have h3 : (b + 1) * 256 ^ s.length ≤ a * 256 ^ s.length :=
                Nat.mul_le_mul_right _ hgt
              rw [Nat.succ_mul] at h3
              omega
      · rw [IsSameLengthImmediateSuccessor_length_ne _ _ (by simpa using hlen)]
        simp [hlen]

/-- On strings of one length, `t = s + 1` says that `t` is the next string after `s`. -/
theorem value_succ_iff_no_string_between (s t : List Nat) (hs : is_bytes s) (ht : is_bytes t)
    (hlen : s.length = t.length) :
    bytes_value t = bytes_value s + 1 ↔
      (Slice.compare s t < 0 ∧
        ∀ u : List Nat, is_bytes u → u.length = s.length →
          ¬ (Slice.compare s u < 0 ∧ Slice.compare u t < 0)) := by
  constructor
  · intro hv
    refine ⟨(compare_lt_zero_iff_value_lt s t hs ht hlen).2 (by omega), ?_⟩
    rintro u hu hul ⟨h1, h2⟩
    have h3 := (compare_lt_zero_iff_value_lt s u hs hu hul.symm).1 h1
    have h4 := (compare_lt_zero_iff_value_lt u t hu ht (hul.trans hlen)).1 h2
    omega
  · rintro ⟨hlt, hno⟩
    have h1 := (compare_lt_zero_iff_value_lt s t hs ht hlen).1 hlt
    by_contra hne
    have hvt := bytes_value_lt t ht
    rw [← hlen] at hvt
    obtain ⟨hu1, hu2, hu3⟩ := bytes_of_value_spec s.length (bytes_value s + 1) (by omega)
    apply hno (bytes_of_value (bytes_value s + 1) s.length) hu2 hu1
    exact ⟨(compare_lt_zero_iff_value_lt s _ hs hu2 hu1.symm).2 (by omega),
      (compare_lt_zero_iff_value_lt _ t hu2 ht (hu1.trans hlen)).2 (by omega)⟩

/-! ## The reverse bytewise `FindShortestSeparator`, one byte at a time -/

theorem Reverse_FindShortestSeparator_nil_left (limit : List Nat) :
    ReverseBytewiseComparatorImpl.FindShortestSeparator [] limit = [] := by
  unfold ReverseBytewiseComparatorImpl.FindShortestSeparator
  simp [diff_index_loop]

theorem Reverse_FindShortestSeparator_nil_right (start : List Nat) :
    ReverseBytewiseComparatorImpl.FindShortestSeparator start [] = start := by
  unfold ReverseBytewiseComparatorImpl.FindShortestSeparator
  simp [diff_index_loop]

theorem Reverse_FindShortestSeparator_cons_same (a : Nat) (s l : List Nat) :
    ReverseBytewiseComparatorImpl.FindShortestSeparator (a :: s) (a :: l) =
      a :: ReverseBytewiseComparatorImpl.FindShortestSeparator s l := by
  unfold ReverseBytewiseComparatorImpl.FindShortestSeparator
  simp only [List.length_cons, succ_min_succ]
  rw [diff_index_loop_succ]
  simp only [Nat.zero_lt_succ, List.getD_cons_zero, and_self, if_true, Nat.zero_add,
    diff_index_loop_cons, List.getD_cons_succ, resize_cons_succ, Nat.add_right_cancel_iff,
    Nat.add_sub_cancel]
  generalize diff_index_loop s l (min s.length l.length) (min s.length l.length) 0 = d
  have hcond : (d + 1 < s.length) ↔ (d < s.length - 1) := by omega
  simp only [hcond]
  split_ifs <;> rfl

theorem Reverse_FindShortestSeparator_cons_ne (a b : Nat) (s l : List Nat) (hne : a ≠ b) :
    ReverseBytewiseComparatorImpl.FindShortestSeparator (a :: s) (b :: l) =
      if a > b ∧ 0 < s.length then [a] else a :: s := by
  unfold ReverseBytewiseComparatorImpl.FindShortestSeparator
  simp only [List.length_cons, succ_min_succ]
  rw [diff_index_loop_succ]
  simp only [Nat.zero_lt_succ, List.getD_cons_zero, hne, and_false, if_false,
    resize_one_cons, Nat.zero_add, Nat.add_sub_cancel]
  have : ¬ (0 = min s.length l.length + 1) := by omega
  simp only [this, if_false]

/-- What the reverse bytewise `FindShortestSeparator` returns: a prefix of `start`, and when
it differs from `start`, the cut just after the first differing byte, which is larger in
`start` and is not the last byte of `start`. -/
theorem Reverse_FindShortestSeparator_spec (start : List Nat) :
    ∀ limit : List Nat,
      ReverseBytewiseComparatorImpl.FindShortestSeparator start limit <+: start ∧
        (ReverseBytewiseComparatorImpl.FindShortestSeparator start limit ≠ start →
          Slice.difference_offset start limit < min start.length limit.length ∧
            start.getD (Slice.difference_offset start limit) 0 >
              limit.getD (Slice.difference_offset start limit) 0 ∧
            Slice.difference_offset start limit < start.length - 1 ∧
            ReverseBytewiseComparatorImpl.FindShortestSeparator start limit =
              start.take (Slice.difference_offset start limit + 1) ∧
            Slice.compare start limit > 0 ∧
            Slice.compare start
              (ReverseBytewiseComparatorImpl.FindShortestSeparator start limit) ≥ 0 ∧
            Slice.compare
              (ReverseBytewiseComparatorImpl.FindShortestSeparator start limit) limit > 0) := by
  induction start with
  | nil =>
    intro limit
    rw [Reverse_FindShortestSeparator_nil_left]
    exact ⟨List.prefix_refl _, fun h => absurd rfl h⟩
  | cons a s ih =>
    intro limit
    cases limit with
    | nil =>
      rw [Reverse_FindShortestSeparator_nil_right]
      exact ⟨List.prefix_refl _, fun h => absurd rfl h⟩
    | cons b l =>
      by_cases hab : a = b
      · subst hab
        obtain ⟨h1, h2⟩ := ih l
        rw [Reverse_FindShortestSeparator_cons_same]
        refine ⟨List.cons_prefix_cons.2 ⟨rfl, h1⟩, fun hne => ?_⟩
        have hne2 : ReverseBytewiseComparatorImpl.FindShortestSeparator s l ≠ s :=
          fun h => hne (by rw [h])
        obtain ⟨k1, k2, k3, k4, k5, k6, k7⟩ := h2 hne2
        rw [difference_offset_cons_same, compare_cons_same, compare_cons_same,
          compare_cons_same]
        simp only [List.length_cons, succ_min_succ, List.getD_cons_succ, List.take_succ_cons,
          Nat.add_sub_cancel]
        exact ⟨by omega, k2, by omega, by rw [k4], k5, k6, k7⟩
      · rw [Reverse_FindShortestSeparator_cons_ne a b s l hab]
        by_cases hc : a > b ∧ 0 < s.length
        · rw [if_pos hc]
          refine ⟨by simp, fun _ => ?_⟩
          rw [difference_offset_cons_ne s l hab]
          have e1 := compare_cons_gt s l hc.1
          have e2 := compare_cons_gt [] l hc.1
          have e3 : Slice.compare (a :: s) [a] ≥ 0 := by
            rw [compare_cons_same]
            cases s with
            | nil => exact absurd hc.2 (Nat.lt_irrefl 0)
            | cons c s2 => rw [compare_cons_nil]; decide
          simp only [List.length_cons, succ_min_succ, List.getD_cons_zero, Nat.add_sub_cancel,
            Nat.zero_add, List.take_succ_cons, List.take_zero]
          exact ⟨by omega, hc.1, hc.2, trivial, by omega, e3, by omega⟩
        · rw [if_neg hc]
          exact ⟨List.prefix_refl _, fun h => absurd rfl h⟩

theorem Reverse_diff_index_assertion (start limit : List Nat) :
    ReverseBytewiseComparatorImpl.diff_index_assertion start limit :=
  diff_index_loop_le start limit _ _ 0 (Nat.zero_le _)

/-! ## Table properties, field by field -/

theorem Add_data_size {ρ : Type} (self tp : TableProperties ρ) :
    (self.Add tp).data_size =
      (self.data_size +
        tp.data_size) % 2 ^ 64 := rfl

theorem Add_index_size {ρ : Type} (self tp : TableProperties ρ) :
    (self.Add tp).index_size =
      (self.index_size +
        tp.index_size) % 2 ^ 64 := rfl

theorem Add_index_partitions {ρ : Type} (self tp : TableProperties ρ) :
    (self.Add tp).index_partitions =
      (self.index_partitions +
        tp.index_partitions) % 2 ^ 64 := rfl

theorem Add_top_level_index_size {ρ : Type} (self tp : TableProperties ρ) :
    (self.Add tp).top_level_index_size =
      (self.top_level_index_size +
        tp.top_level_index_size) % 2 ^ 64 := rfl

theorem Add_filter_size {ρ : Type} (self tp : TableProperties ρ) :
    (self.Add tp).filter_size =
      (self.filter_size +
        tp.filter_size) % 2 ^ 64 := rfl

theorem Add_raw_key_size {ρ : Type} (self tp : TableProperties ρ) :
    (self.Add tp).raw_key_size =
      (self.raw_key_size +
        tp.raw_key_size) % 2 ^ 64 := rfl

theorem Add_raw_value_size {ρ : Type} (self tp : TableProperties ρ) :
    (self.Add tp).raw_value_size =
      (self.raw_value_size +
        tp.raw_value_size) % 2 ^ 64 := rfl

theorem Add_num_data_blocks {ρ : Type} (self tp : TableProperties ρ) :
    (self.Add tp).num_data_blocks =
      (self.num_data_blocks +
        tp.num_data_blocks) % 2 ^ 64 := rfl

theorem Add_num_entries {ρ : Type} (self tp : TableProperties ρ) :
    (self.Add tp).num_entries =
      (self.num_entries +
        tp.num_entries) % 2 ^ 64 := rfl

theorem Add_num_filter_entries {ρ : Type} (self tp : TableProperties ρ) :
    (self.Add tp).num_filter_entries =
      (self.num_filter_entries +
        tp.num_filter_entries) % 2 ^ 64 := rfl

theorem Add_num_deletions {ρ : Type} (self tp : TableProperties ρ) :
    (self.Add tp).num_deletions =
      (self.num_deletions +
        tp.num_deletions) % 2 ^ 64 := rfl

theorem Add_num_merge_operands {ρ : Type} (self tp : TableProperties ρ) :
    (self.Add tp).num_merge_operands =
      (self.num_merge_operands +
        tp.num_merge_operands) % 2 ^ 64 := rfl

theorem Add_num_range_deletions {ρ : Type} (self tp : TableProperties ρ) :
    (self.Add tp).num_range_deletions =
      (self.num_range_deletions +
        tp.num_range_deletions) % 2 ^ 64 := rfl

theorem Add_slow_compression_estimated_data_size {ρ : Type} (self tp : TableProperties ρ) :
    (self.Add tp).slow_compression_estimated_data_size =
      (self.slow_compression_estimated_data_size +
        tp.slow_compression_estimated_data_size) % 2 ^ 64 := rfl

theorem Add_fast_compression_estimated_data_size {ρ : Type} (self tp : TableProperties ρ) :
    (self.Add tp).fast_compression_estimated_data_size =
      (self.fast_compression_estimated_data_size +
        tp.fast_compression_estimated_data_size) % 2 ^ 64 := rfl

theorem GetAggregatablePropertiesAsMap_data_size {ρ : Type}
    (p : TableProperties ρ) :
    p.GetAggregatablePropertiesAsMap "data_size" =
      some p.data_size := by
  simp [TableProperties.GetAggregatablePropertiesAsMap, map_assign]

theorem GetAggregatablePropertiesAsMap_index_size {ρ : Type}
    (p : TableProperties ρ) :
    p.GetAggregatablePropertiesAsMap "index_size" =
      some p.index_size := by
  simp [TableProperties.GetAggregatablePropertiesAsMap, map_assign]

theorem GetAggregatablePropertiesAsMap_index_partitions {ρ : Type}
    (p : TableProperties ρ) :
    p.GetAggregatablePropertiesAsMap "index_partitions" =
      some p.index_partitions := by
  simp [TableProperties.GetAggregatablePropertiesAsMap, map_assign]

theorem GetAggregatablePropertiesAsMap_top_level_index_size {ρ : Type}
    (p : TableProperties ρ) :
    p.GetAggregatablePropertiesAsMap "top_level_index_size" =
      some p.top_level_index_size := by
  simp [TableProperties.GetAggregatablePropertiesAsMap, map_assign]

theorem GetAggregatablePropertiesAsMap_filter_size {ρ : Type}
    (p : TableProperties ρ) :
    p.GetAggregatablePropertiesAsMap "filter_size" =
      some p.filter_size := by
  simp [TableProperties.GetAggregatablePropertiesAsMap, map_assign]

theorem GetAggregatablePropertiesAsMap_raw_key_size {ρ : Type}
    (p : TableProperties ρ) :
    p.GetAggregatablePropertiesAsMap "raw_key_size" =
      some p.raw_key_size := by
  simp [TableProperties.GetAggregatablePropertiesAsMap, map_assign]

theorem GetAggregatablePropertiesAsMap_raw_value_size {ρ : Type}
    (p : TableProperties ρ) :
    p.GetAggregatablePropertiesAsMap "raw_value_size" =
      some p.raw_value_size := by
  simp [TableProperties.GetAggregatablePropertiesAsMap, map_assign]

theorem GetAggregatablePropertiesAsMap_num_data_blocks {ρ : Type}
    (p : TableProperties ρ) :
    p.GetAggregatablePropertiesAsMap "num_data_blocks" =
      some p.num_data_blocks := by
  simp [TableProperties.GetAggregatablePropertiesAsMap, map_assign]

theorem GetAggregatablePropertiesAsMap_num_entries {ρ : Type}
    (p : TableProperties ρ) :
    p.GetAggregatablePropertiesAsMap "num_entries" =
      some p.num_entries := by
  simp [TableProperties.GetAggregatablePropertiesAsMap, map_assign]

theorem GetAggregatablePropertiesAsMap_num_filter_entries {ρ : Type}
    (p : TableProperties ρ) :
    p.GetAggregatablePropertiesAsMap "num_filter_entries" =
      some p.num_filter_entries := by
  simp [TableProperties.GetAggregatablePropertiesAsMap, map_assign]

theorem GetAggregatablePropertiesAsMap_num_deletions {ρ : Type}
    (p : TableProperties ρ) :
    p.GetAggregatablePropertiesAsMap "num_deletions" =
      some p.num_deletions := by
  simp [TableProperties.GetAggregatablePropertiesAsMap, map_assign]

theorem GetAggregatablePropertiesAsMap_num_merge_operands {ρ : Type}
    (p : TableProperties ρ) :
    p.GetAggregatablePropertiesAsMap "num_merge_operands" =
      some p.num_merge_operands := by
  simp [TableProperties.GetAggregatablePropertiesAsMap, map_assign]

theorem GetAggregatablePropertiesAsMap_num_range_deletions {ρ : Type}
    (p : TableProperties ρ) :
    p.GetAggregatablePropertiesAsMap "num_range_deletions" =
      some p.num_range_deletions := by
  simp [TableProperties.GetAggregatablePropertiesAsMap, map_assign]

theorem GetAggregatablePropertiesAsMap_slow_compression_estimated_data_size {ρ : Type}
    (p : TableProperties ρ) :
    p.GetAggregatablePropertiesAsMap "slow_compression_estimated_data_size" =
      some p.slow_compression_estimated_data_size := by
  simp [TableProperties.GetAggregatablePropertiesAsMap, map_assign]

theorem GetAggregatablePropertiesAsMap_fast_compression_estimated_data_size {ρ : Type}
    (p : TableProperties ρ) :
    p.GetAggregatablePropertiesAsMap "fast_compression_estimated_data_size" =
      some p.fast_compression_estimated_data_size := by
  simp [TableProperties.GetAggregatablePropertiesAsMap, map_assign]

theorem GetAggregatablePropertiesAsMap_none {ρ : Type} (p : TableProperties ρ) (key : String)
    (h : key ∉ aggregatable_keys) : p.GetAggregatablePropertiesAsMap key = none := by
  simp only [aggregatable_keys, List.mem_cons, List.mem_singleton, not_or, List.not_mem_nil,
    or_false] at h
  simp [TableProperties.GetAggregatablePropertiesAsMap, map_assign, h]

/-- On each of its keys the map of `self.Add tp` holds the sum of the two maps' values. -/
theorem GetAggregatablePropertiesAsMap_Add {ρ : Type} (self tp : TableProperties ρ)
    (key : String) (h : key ∈ aggregatable_keys) :
    ∃ x y : Nat, self.GetAggregatablePropertiesAsMap key = some x ∧
      tp.GetAggregatablePropertiesAsMap key = some y ∧
      (self.Add tp).GetAggregatablePropertiesAsMap key = some ((x + y) % 2 ^ 64) := by
  simp only [aggregatable_keys, List.mem_cons, List.mem_singleton, List.not_mem_nil,
    or_false] at h
  rcases h with h | h | h | h | h | h | h | h | h | h | h | h | h | h | h
  · subst h
    exact ⟨_, _, GetAggregatablePropertiesAsMap_data_size self,
      GetAggregatablePropertiesAsMap_data_size tp,
      GetAggregatablePropertiesAsMap_data_size (self.Add tp)⟩
  · subst h
    exact ⟨_, _, GetAggregatablePropertiesAsMap_index_size self,
      GetAggregatablePropertiesAsMap_index_size tp,
      GetAggregatablePropertiesAsMap_index_size (self.Add tp)⟩
  · subst h
    exact ⟨_, _, GetAggregatablePropertiesAsMap_index_partitions self,
      GetAggregatablePropertiesAsMap_index_partitions tp,
      GetAggregatablePropertiesAsMap_index_partitions (self.Add tp)⟩
  · subst h
    exact ⟨_, _, GetAggregatablePropertiesAsMap_top_level_index_size self,
      GetAggregatablePropertiesAsMap_top_level_index_size tp,
      GetAggregatablePropertiesAsMap_top_level_index_size (self.Add tp)⟩
  · subst h
    exact ⟨_, _, GetAggregatablePropertiesAsMap_filter_size self,
      GetAggregatablePropertiesAsMap_filter_size tp,
      GetAggregatablePropertiesAsMap_filter_size (self.Add tp)⟩
  · subst h
    exact ⟨_, _, GetAggregatablePropertiesAsMap_raw_key_size self,
      GetAggregatablePropertiesAsMap_raw_key_size tp,
      GetAggregatablePropertiesAsMap_raw_key_size (self.Add tp)⟩
  · subst h
    exact ⟨_, _, GetAggregatablePropertiesAsMap_raw_value_size self,
      GetAggregatablePropertiesAsMap_raw_value_size tp,
      GetAggregatablePropertiesAsMap_raw_value_size (self.Add tp)⟩
  · subst h
    exact ⟨_, _, GetAggregatablePropertiesAsMap_num_data_blocks self,
      GetAggregatablePropertiesAsMap_num_data_blocks tp,
      GetAggregatablePropertiesAsMap_num_data_blocks (self.Add tp)⟩
  · subst h
    exact ⟨_, _, GetAggregatablePropertiesAsMap_num_entries self,
      GetAggregatablePropertiesAsMap_num_entries tp,
      GetAggregatablePropertiesAsMap_num_entries (self.Add tp)⟩
  · subst h
    exact ⟨_, _, GetAggregatablePropertiesAsMap_num_filter_entries self,
      GetAggregatablePropertiesAsMap_num_filter_entries tp,
      GetAggregatablePropertiesAsMap_num_filter_entries (self.Add tp)⟩
  · subst h
    exact ⟨_, _, GetAggregatablePropertiesAsMap_num_deletions self,
      GetAggregatablePropertiesAsMap_num_deletions tp,
      GetAggregatablePropertiesAsMap_num_deletions (self.Add tp)⟩
  · subst h
    exact ⟨_, _, GetAggregatablePropertiesAsMap_num_merge_operands self,
      GetAggregatablePropertiesAsMap_num_merge_operands tp,
      GetAggregatablePropertiesAsMap_num_merge_operands (self.Add tp)⟩
  · subst h
    exact ⟨_, _, GetAggregatablePropertiesAsMap_num_range_deletions self,
      GetAggregatablePropertiesAsMap_num_range_deletions tp,
      GetAggregatablePropertiesAsMap_num_range_deletions (self.Add tp)⟩
  · subst h
    exact ⟨_, _, GetAggregatablePropertiesAsMap_slow_compression_estimated_data_size self,
      GetAggregatablePropertiesAsMap_slow_compression_estimated_data_size tp,
      GetAggregatablePropertiesAsMap_slow_compression_estimated_data_size (self.Add tp)⟩
  · subst h
    exact ⟨_, _, GetAggregatablePropertiesAsMap_fast_compression_estimated_data_size self,
      GetAggregatablePropertiesAsMap_fast_compression_estimated_data_size tp,
      GetAggregatablePropertiesAsMap_fast_compression_estimated_data_size (self.Add tp)⟩

/-- C1. For every `db_id`, `db_session_id`, `file_number` and `max_offset` the constructed
`OffsetableCacheKey` has a non-zero `session_etc64`, and so has every key that
`WithOffset` returns from it, for every offset. -/
theorem C1_session_etc64_ne_zero (E : Externals) (db_id db_session_id : String)
    (file_number max_offset : Nat) :
    (OffsetableCacheKey.OffsetableCacheKey E db_id db_session_id file_number
        max_offset).session_etc64 ≠ 0 ∧
      ∀ offset : Nat,
        ((OffsetableCacheKey.OffsetableCacheKey E db_id db_session_id file_number
            max_offset).WithOffset offset).session_etc64 ≠ 0 :=
  ⟨session_etc64_ne_zero_aux E db_id db_session_id file_number max_offset,
    fun _ => session_etc64_ne_zero_aux E db_id db_session_id file_number max_offset⟩

/-- C2. For every 64-bit `file_number` and `max_offset` and every offset with
`offset <= max_offset`, the offset shares no set bit with the file-number field:
`offset AND offset_etc_modifier = 0`, where `offset_etc_modifier` is
`reverse_bits(file_number & ((1 << bits) - 1))` with
`bits = 8 * ((63 - floor_log2(max_offset | 2^32)) / 8)`. -/
theorem C2_offset_disjoint_from_file_number (file_number max_offset offset : Nat)
    (hmax : max_offset < 2 ^ 64) (hoff : offset ≤ max_offset) :
    offset &&& offset_etc_modifier file_number max_offset = 0 ∧
      offset_etc_modifier file_number max_offset =
        ReverseBits (file_number &&&
          ((1 <<< (8 * ((63 - FloorLog2 (max_offset ||| 2 ^ 32)) / 8))) - 1)) := by
  constructor
  · apply Nat.eq_of_testBit_eq
    intro j
    rw [Nat.testBit_and, testBit_offset_etc_modifier, Nat.zero_testBit]
    by_cases hj : j < 64 ∧ 63 - j < file_number_bits_in_offset_etc max_offset
    · have hlt : offset < 2 ^ j :=
        Nat.lt_of_lt_of_le (Nat.lt_of_le_of_lt hoff (max_offset_lt hmax))
          (Nat.pow_le_pow_right (by decide) (by omega))
      simp [Nat.testBit_lt_two_pow hlt]
    · rcases not_and_or.1 hj with h | h <;> simp [h]
  · unfold offset_etc_modifier
    rw [mask_eq, Nat.one_shiftLeft]
    unfold file_number_bits_in_offset_etc file_number_bytes_in_offset_etc
    rw [Nat.mul_comm]
    rfl

theorem C2_offset_disjoint_from_file_number_witness :
    (2 : Nat) ^ 32 < 2 ^ 64 ∧ (0x1000 : Nat) ≤ 2 ^ 32 ∧
      (0x1000 &&& offset_etc_modifier 0x123 (2 ^ 32) = 0 ∧
        offset_etc_modifier 0x123 (2 ^ 32) =
          ReverseBits (0x123 &&&
            ((1 <<< (8 * ((63 - FloorLog2 (2 ^ 32 ||| 2 ^ 32)) / 8))) - 1))) :=
  ⟨by decide, by decide,
    C2_offset_disjoint_from_file_number 0x123 (2 ^ 32) 0x1000 (by decide) (by decide)⟩

/-- C3. For every input, with `(session_upper, session_lower)` the decoded session id,
`bytes = (63 - floor_log2(max_offset | 2^32)) / 8` and `bits = 8 * bytes`, the constructor
yields `offset_etc64 = hash64(db_id, session_upper) XOR reverse_bits(file_number &
(2^bits - 1))` and `session_etc64 = v` if `v != 0`, else `session_upper | 1`, where
`v = session_lower XOR reverse_bits((((file_number >> bits) << 2) mod 2^64) | (3 - bytes))`. -/
theorem C3_constructor_closed_form (E : Externals) (db_id db_session_id : String)
    (file_number max_offset : Nat) :
    (OffsetableCacheKey.OffsetableCacheKey E db_id db_session_id file_number
        max_offset).offset_etc64 =
        spec_offset_etc64 (E.Hash64 db_id (decoded_session E db_session_id).1)
          file_number max_offset ∧
      (OffsetableCacheKey.OffsetableCacheKey E db_id db_session_id file_number
        max_offset).session_etc64 =
        spec_session_etc64 (decoded_session E db_session_id).1
          (decoded_session E db_session_id).2 file_number max_offset := by
  have hbits : spec_bits max_offset = file_number_bits_in_offset_etc max_offset := by
    unfold spec_bits spec_bytes file_number_bits_in_offset_etc
      file_number_bytes_in_offset_etc
    rw [Nat.mul_comm]; rfl
  have hbytes : spec_bytes max_offset = file_number_bytes_in_offset_etc max_offset := rfl
  have hx : spec_session_xor (decoded_session E db_session_id).2 file_number max_offset =
      (decoded_session E db_session_id).2 ^^^ session_etc_modifier file_number max_offset := by
    unfold spec_session_xor session_etc_modifier shl64
    rw [hbits, hbytes]
  constructor
  · rw [ctor_offset_etc64]
    unfold spec_offset_etc64 offset_etc_modifier
    rw [mask_eq, hbits]
  · rw [ctor_session_etc64]
    unfold spec_session_etc64
    rw [hx]
    by_cases h : (decoded_session E db_session_id).2 ^^^
        session_etc_modifier file_number max_offset = 0
    · simp [h]
    · simp [h]

/-- C4. Single-process uniqueness: fix `db_id`, `session_upper` and exponents `a`, `b` with
`a + b <= 86`.  For any two inputs `(session_lower, file_number, max_offset, offset)` with
`1 <= session_lower < 2^a`, `file_number < 2^b` (a 64-bit number), `max_offset < 2^40` and
`offset <= max_offset`, if the triples `(session_lower, file_number, offset)` differ then
the two keys produced by the constructor followed by `with_offset` differ. -/
theorem C4_single_process_uniqueness (E : Externals) (db_id sid1 sid2 : String)
    (a b fn1 fn2 mo1 mo2 o1 o2 : Nat)
    (hu : (decoded_session E sid1).1 = (decoded_session E sid2).1)
    (hab : a + b ≤ 86)
    (hl1 : 1 ≤ (decoded_session E sid1).2) (hl1a : (decoded_session E sid1).2 < 2 ^ a)
    (hl2 : 1 ≤ (decoded_session E sid2).2) (hl2a : (decoded_session E sid2).2 < 2 ^ a)
    (hf1 : fn1 < 2 ^ b) (hf1w : fn1 < 2 ^ 64) (hf2 : fn2 < 2 ^ b) (hf2w : fn2 < 2 ^ 64)
    (hm1 : mo1 < 2 ^ 40) (hm2 : mo2 < 2 ^ 40) (ho1 : o1 ≤ mo1) (ho2 : o2 ≤ mo2)
    (hne : ((decoded_session E sid1).2, fn1, o1) ≠ ((decoded_session E sid2).2, fn2, o2)) :
    (OffsetableCacheKey.OffsetableCacheKey E db_id sid1 fn1 mo1).WithOffset o1 ≠
      (OffsetableCacheKey.OffsetableCacheKey E db_id sid2 fn2 mo2).WithOffset o2 := by
  intro hkey
  -- the session words
  have hlow1 : ∀ j : Nat, j < a → (session_etc_modifier fn1 mo1).testBit j = false :=
    fun _ hj => session_etc_modifier_low_bits hf1 hab hm1 hj
  have hlow2 : ∀ j : Nat, j < a → (session_etc_modifier fn2 mo2).testBit j = false :=
    fun _ hj => session_etc_modifier_low_bits hf2 hab hm2 hj
  have hx1 : (decoded_session E sid1).2 ^^^ session_etc_modifier fn1 mo1 ≠ 0 :=
    xor_ne_zero_of_low (by omega) hl1a hlow1
  have hx2 : (decoded_session E sid2).2 ^^^ session_etc_modifier fn2 mo2 ≠ 0 :=
    xor_ne_zero_of_low (by omega) hl2a hlow2
  have hsess : (OffsetableCacheKey.OffsetableCacheKey E db_id sid1 fn1 mo1).session_etc64 =
      (OffsetableCacheKey.OffsetableCacheKey E db_id sid2 fn2 mo2).session_etc64 :=
    congrArg CacheKey.session_etc64 hkey
  rw [ctor_session_etc64, ctor_session_etc64, if_neg hx1, if_neg hx2] at hsess
  obtain ⟨hl, hs⟩ := eq_and_eq_of_xor_eq hl1a hl2a hlow1 hlow2 hsess
  -- the offset words
  have hoff : (OffsetableCacheKey.OffsetableCacheKey E db_id sid1 fn1 mo1).offset_etc64 ^^^ o1 =
      (OffsetableCacheKey.OffsetableCacheKey E db_id sid2 fn2 mo2).offset_etc64 ^^^ o2 :=
    congrArg CacheKey.offset_etc64 hkey
  rw [ctor_offset_etc64, ctor_offset_etc64, hu, Nat.xor_assoc, Nat.xor_assoc] at hoff
  have hoff2 := Nat.xor_right_injective hoff
  rw [Nat.xor_comm (offset_etc_modifier fn1 mo1), Nat.xor_comm (offset_etc_modifier fn2 mo2)]
    at hoff2
  obtain ⟨ho, hm⟩ := eq_and_eq_of_xor_eq (Nat.lt_of_le_of_lt ho1 hm1)
    (Nat.lt_of_le_of_lt ho2 hm2)
    (fun _ hj => offset_etc_modifier_low_bits fn1 hm1 hj)
    (fun _ hj => offset_etc_modifier_low_bits fn2 hm2 hj) hoff2
  -- the file numbers
  have hb1 := bits_eq_24 hm1
  have hbits : file_number_bits_in_offset_etc mo1 = file_number_bits_in_offset_etc mo2 := by
    rw [hb1, bits_eq_24 hm2]
  have hfn : fn1 = fn2 :=
    file_number_eq_of_modifiers_eq hbits (lt_two_pow_of_lt_64 hf1w (by omega))
      (lt_two_pow_of_lt_64 hf2w (by omega)) hm hs
  exact hne (by rw [hl, hfn, ho])

theorem C4_single_process_uniqueness_witness :
    (decoded_session sampleExternals "170").1 = (decoded_session sampleExternals "171").1 ∧
      24 + 24 ≤ 86 ∧
      1 ≤ (decoded_session sampleExternals "170").2 ∧
      (decoded_session sampleExternals "170").2 < 2 ^ 24 ∧
      1 ≤ (decoded_session sampleExternals "171").2 ∧
      (decoded_session sampleExternals "171").2 < 2 ^ 24 ∧
      (0x123 : Nat) < 2 ^ 24 ∧ (0x123 : Nat) < 2 ^ 64 ∧
      (0x123 : Nat) < 2 ^ 24 ∧ (0x123 : Nat) < 2 ^ 64 ∧
      (2 : Nat) ^ 32 < 2 ^ 40 ∧ (2 : Nat) ^ 32 < 2 ^ 40 ∧
      (0x1000 : Nat) ≤ 2 ^ 32 ∧ (0x1000 : Nat) ≤ 2 ^ 32 ∧
      ((decoded_session sampleExternals "170").2, (0x123 : Nat), (0x1000 : Nat)) ≠
        ((decoded_session sampleExternals "171").2, 0x123, 0x1000) ∧
      (OffsetableCacheKey.OffsetableCacheKey sampleExternals "db-A" "170" 0x123
          (2 ^ 32)).WithOffset 0x1000 ≠
        (OffsetableCacheKey.OffsetableCacheKey sampleExternals "db-A" "171" 0x123
          (2 ^ 32)).WithOffset 0x1000 :=
  ⟨by decide, by decide, by decide, by decide, by decide, by decide, by decide, by decide,
    by decide, by decide, by decide, by decide, by decide, by decide, by decide,
    C4_single_process_uniqueness sampleExternals "db-A" "170" "171" 24 24 0x123 0x123
      (2 ^ 32) (2 ^ 32) 0x1000 0x1000 (by decide) (by decide) (by decide) (by decide)
      (by decide) (by decide) (by decide) (by decide) (by decide) (by decide) (by decide)
      (by decide) (by decide) (by decide) (by decide)⟩

/-- C5. For any fixed `(db_id, session_id, file_number, max_offset)` and all offsets
`o1`, `o2` in `[0, max_offset]` with `o1 != o2`, `with_offset(o1) != with_offset(o2)`. -/
theorem C5_distinct_offsets_distinct_keys (E : Externals) (db_id db_session_id : String)
    (file_number max_offset o1 o2 : Nat) (_h1 : o1 ≤ max_offset) (_h2 : o2 ≤ max_offset)
    (hne : o1 ≠ o2) :
    (OffsetableCacheKey.OffsetableCacheKey E db_id db_session_id file_number
        max_offset).WithOffset o1 ≠
      (OffsetableCacheKey.OffsetableCacheKey E db_id db_session_id file_number
        max_offset).WithOffset o2 := by
  intro h
  have h2 := congrArg CacheKey.offset_etc64 h
  exact hne (Nat.xor_right_injective h2)

theorem C5_distinct_offsets_distinct_keys_witness :
    (0 : Nat) ≤ 2 ^ 32 ∧ (0x1000 : Nat) ≤ 2 ^ 32 ∧ (0 : Nat) ≠ 0x1000 ∧
      (OffsetableCacheKey.OffsetableCacheKey sampleExternals "db-A" "170" 0x123
          (2 ^ 32)).WithOffset 0 ≠
        (OffsetableCacheKey.OffsetableCacheKey sampleExternals "db-A" "170" 0x123
          (2 ^ 32)).WithOffset 0x1000 :=
  ⟨by decide, by decide, by decide,
    C5_distinct_offsets_distinct_keys sampleExternals "db-A" "170" 0x123 (2 ^ 32) 0 0x1000
      (by decide) (by decide) (by decide)⟩

/-- C6, refuted as stated: at `max_offset = 2^40` only two bytes of the file number fit into
`offset_etc64`, so the 3-byte file numbers `0x10000` and `0x20000` overflow into the session
word and the two base keys have different `session_etc64`. -/
theorem C6_counterexample :
    (2 : Nat) ^ 40 ≤ 2 ^ 40 ∧ (0x10000 : Nat) < 2 ^ 24 ∧ (0x20000 : Nat) < 2 ^ 24 ∧
      (0x10000 : Nat) ≠ 0x20000 ∧
      (OffsetableCacheKey.OffsetableCacheKey sampleExternals "db-A" "170" 0x10000
          (2 ^ 40)).session_etc64 ≠
        (OffsetableCacheKey.OffsetableCacheKey sampleExternals "db-A" "170" 0x20000
          (2 ^ 40)).session_etc64 := by
  decide

/-- C6, amended. For any fixed `db_id`, session id and `max_offset` with
`max_offset <= 2^40 - 1`, and any two distinct file numbers `f1`, `f2` below `2^24`, the
keys `with_offset(o)` of the two files differ for every offset `o` in `[0, max_offset]`,
and the two `OffsetableCacheKey`s have the same `session_etc64`. -/
theorem C6_distinct_files_common_case (E : Externals) (db_id db_session_id : String)
    (max_offset f1 f2 : Nat) (hmax : max_offset ≤ 2 ^ 40 - 1) (h1 : f1 < 2 ^ 24)
    (h2 : f2 < 2 ^ 24) (hne : f1 ≠ f2) :
    (∀ o : Nat, o ≤ max_offset →
        (OffsetableCacheKey.OffsetableCacheKey E db_id db_session_id f1
            max_offset).WithOffset o ≠
          (OffsetableCacheKey.OffsetableCacheKey E db_id db_session_id f2
            max_offset).WithOffset o) ∧
      (OffsetableCacheKey.OffsetableCacheKey E db_id db_session_id f1
          max_offset).session_etc64 =
        (OffsetableCacheKey.OffsetableCacheKey E db_id db_session_id f2
          max_offset).session_etc64 := by
  have e : (2 : Nat) ^ 40 = 1099511627776 := by norm_num
  have hmo : max_offset < 2 ^ 40 := by omega
  have hs1 := session_etc_modifier_eq_zero h1 hmo
  have hs2 := session_etc_modifier_eq_zero h2 hmo
  constructor
  · intro o _ hkey
    have hoff := congrArg CacheKey.offset_etc64 hkey
    have hoff2 : E.Hash64 db_id (decoded_session E db_session_id).1 ^^^
          offset_etc_modifier f1 max_offset ^^^ o =
        E.Hash64 db_id (decoded_session E db_session_id).1 ^^^
          offset_etc_modifier f2 max_offset ^^^ o := hoff
    have hmod : offset_etc_modifier f1 max_offset = offset_etc_modifier f2 max_offset :=
      Nat.xor_right_injective (Nat.xor_left_injective hoff2)
    have hbig : ∀ f : Nat, f < 2 ^ 24 →
        f < 2 ^ (62 + file_number_bits_in_offset_etc max_offset) := fun f hf =>
      Nat.lt_of_lt_of_le hf (Nat.pow_le_pow_right (by decide) (by omega))
    exact hne (file_number_eq_of_modifiers_eq rfl (hbig f1 h1) (hbig f2 h2) hmod
      (hs1.trans hs2.symm))
  · rw [ctor_session_etc64, ctor_session_etc64, hs1, hs2]

theorem C6_distinct_files_common_case_witness :
    (2 : Nat) ^ 40 - 1 ≤ 2 ^ 40 - 1 ∧ (0x10000 : Nat) < 2 ^ 24 ∧ (0x20000 : Nat) < 2 ^ 24 ∧
      (0x10000 : Nat) ≠ 0x20000 ∧
      ((∀ o : Nat, o ≤ 2 ^ 40 - 1 →
          (OffsetableCacheKey.OffsetableCacheKey sampleExternals "db-A" "170" 0x10000
              (2 ^ 40 - 1)).WithOffset o ≠
            (OffsetableCacheKey.OffsetableCacheKey sampleExternals "db-A" "170" 0x20000
              (2 ^ 40 - 1)).WithOffset o) ∧
        (OffsetableCacheKey.OffsetableCacheKey sampleExternals "db-A" "170" 0x10000
            (2 ^ 40 - 1)).session_etc64 =
          (OffsetableCacheKey.OffsetableCacheKey sampleExternals "db-A" "170" 0x20000
            (2 ^ 40 - 1)).session_etc64) :=
  ⟨by decide, by decide, by decide, by decide,
    C6_distinct_files_common_case sampleExternals "db-A" "170" (2 ^ 40 - 1) 0x10000 0x20000
      (by decide) (by decide) (by decide) (by decide)⟩

/-- C7, refuted as stated: with `session_upper = 0x12345678`, file number `2^24` and
`max_offset = 2^32` the modifier is `2^61`; the session with `session_lower = 2^61` hits the
zero case and gets `session_upper | 1`, which is also the word of the session with
`session_lower = 2^61 + 0x12345679`.  The two session ids give the same keys. -/
theorem C7_counterexample :
    (decoded_session sampleExternals "2305843009213693952").1 =
        (decoded_session sampleExternals "2305843009519113849").1 ∧
      (decoded_session sampleExternals "2305843009213693952").2 ≠
        (decoded_session sampleExternals "2305843009519113849").2 ∧
      (OffsetableCacheKey.OffsetableCacheKey sampleExternals "db-A" "2305843009213693952"
          0x1000000 (2 ^ 32)).session_etc64 =
        (OffsetableCacheKey.OffsetableCacheKey sampleExternals "db-A" "2305843009519113849"
          0x1000000 (2 ^ 32)).session_etc64 ∧
      (OffsetableCacheKey.OffsetableCacheKey sampleExternals "db-A" "2305843009213693952"
          0x1000000 (2 ^ 32)).WithOffset 0x1000 =
        (OffsetableCacheKey.OffsetableCacheKey sampleExternals "db-A" "2305843009519113849"
          0x1000000 (2 ^ 32)).WithOffset 0x1000 := by
  decide

/-- C7, amended. For fixed `db_id`, `file_number`, `max_offset` and `session_upper`, two
session ids whose decoded `session_lower` values differ give the same `session_etc64`
exactly when one of them is the zero case (`session_lower XOR session_etc_modifier = 0`,
replaced by `session_upper | 1`) and the other has
`session_lower XOR session_etc_modifier = session_upper | 1`; in every other case the two
words differ.  The keys at one offset are equal exactly when the two words are equal, and
the zero check changes no word that is non-zero after the XOR. -/
theorem C7_sessions_differ (E : Externals) (db_id sid1 sid2 : String)
    (file_number max_offset : Nat)
    (hu : (decoded_session E sid1).1 = (decoded_session E sid2).1)
    (hl : (decoded_session E sid1).2 ≠ (decoded_session E sid2).2) :
    ((OffsetableCacheKey.OffsetableCacheKey E db_id sid1 file_number max_offset).session_etc64 =
        (OffsetableCacheKey.OffsetableCacheKey E db_id sid2 file_number
          max_offset).session_etc64 ↔
      (session_xor E sid1 file_number max_offset = 0 ∧
          session_xor E sid2 file_number max_offset = (decoded_session E sid1).1 ||| 1) ∨
        (session_xor E sid2 file_number max_offset = 0 ∧
          session_xor E sid1 file_number max_offset = (decoded_session E sid1).1 ||| 1)) ∧
      (∀ o : Nat,
        (OffsetableCacheKey.OffsetableCacheKey E db_id sid1 file_number max_offset).WithOffset o =
            (OffsetableCacheKey.OffsetableCacheKey E db_id sid2 file_number
              max_offset).WithOffset o ↔
          (OffsetableCacheKey.OffsetableCacheKey E db_id sid1 file_number
              max_offset).session_etc64 =
            (OffsetableCacheKey.OffsetableCacheKey E db_id sid2 file_number
              max_offset).session_etc64) ∧
      (∀ sid : String, session_xor E sid file_number max_offset ≠ 0 →
        (OffsetableCacheKey.OffsetableCacheKey E db_id sid file_number
            max_offset).session_etc64 = session_xor E sid file_number max_offset) := by
  have hx : session_xor E sid1 file_number max_offset ≠
      session_xor E sid2 file_number max_offset := fun h => hl (Nat.xor_left_injective h)
  have hs : ∀ sid : String,
      (OffsetableCacheKey.OffsetableCacheKey E db_id sid file_number max_offset).session_etc64 =
        if session_xor E sid file_number max_offset = 0 then (decoded_session E sid).1 ||| 1
        else session_xor E sid file_number max_offset := fun sid =>
    ctor_session_etc64 E db_id sid file_number max_offset
  refine ⟨?_, fun o => ⟨fun h => congrArg CacheKey.session_etc64 h, fun h => ?_⟩,
    fun sid hne => ?_⟩
  · rw [hs sid1, hs sid2, ← hu]
    by_cases h1 : session_xor E sid1 file_number max_offset = 0
    · by_cases h2 : session_xor E sid2 file_number max_offset = 0
      · exact absurd (h1.trans h2.symm) hx
      · simp only [h1, h2, if_true, if_false, true_and, false_and, or_false]
        exact eq_comm
    · by_cases h2 : session_xor E sid2 file_number max_offset = 0
      · simp only [h1, h2, if_true, if_false, true_and, false_and, false_or]
      · simp only [h1, h2, if_false, false_and, or_false, iff_false]
        exact hx
  · unfold OffsetableCacheKey.WithOffset
    rw [h, ctor_offset_etc64, ctor_offset_etc64, hu]
  · rw [hs sid, if_neg hne]

theorem C7_sessions_differ_witness :
    (decoded_session sampleExternals "170").1 = (decoded_session sampleExternals "171").1 ∧
      (decoded_session sampleExternals "170").2 ≠ (decoded_session sampleExternals "171").2 ∧
      (((OffsetableCacheKey.OffsetableCacheKey sampleExternals "db-A" "170" 0x123
            (2 ^ 32)).session_etc64 =
          (OffsetableCacheKey.OffsetableCacheKey sampleExternals "db-A" "171" 0x123
            (2 ^ 32)).session_etc64 ↔
        (session_xor sampleExternals "170" 0x123 (2 ^ 32) = 0 ∧
            session_xor sampleExternals "171" 0x123 (2 ^ 32) =
              (decoded_session sampleExternals "170").1 ||| 1) ∨
          (session_xor sampleExternals "171" 0x123 (2 ^ 32) = 0 ∧
            session_xor sampleExternals "170" 0x123 (2 ^ 32) =
              (decoded_session sampleExternals "170").1 ||| 1)) ∧
        (∀ o : Nat,
          (OffsetableCacheKey.OffsetableCacheKey sampleExternals "db-A" "170" 0x123
              (2 ^ 32)).WithOffset o =
              (OffsetableCacheKey.OffsetableCacheKey sampleExternals "db-A" "171" 0x123
                (2 ^ 32)).WithOffset o ↔
            (OffsetableCacheKey.OffsetableCacheKey sampleExternals "db-A" "170" 0x123
                (2 ^ 32)).session_etc64 =
              (OffsetableCacheKey.OffsetableCacheKey sampleExternals "db-A" "171" 0x123
                (2 ^ 32)).session_etc64) ∧
        (∀ sid : String, session_xor sampleExternals sid 0x123 (2 ^ 32) ≠ 0 →
          (OffsetableCacheKey.OffsetableCacheKey sampleExternals "db-A" sid 0x123
              (2 ^ 32)).session_etc64 = session_xor sampleExternals sid 0x123 (2 ^ 32))) :=
  ⟨by decide, by decide,
    C7_sessions_differ sampleExternals "db-A" "170" "171" 0x123 (2 ^ 32) (by decide)
      (by decide)⟩

/-- C8, refuted as stated: with `max_offset = 2^56` no byte of the file number goes into
`offset_etc64`, the shift by two metadata bits drops the top two bits of the file number,
and the distinct file numbers `0` and `2^62` get the same pair of modifiers. -/
theorem C8_counterexample :
    (0 : Nat) ≠ 2 ^ 62 ∧
      (offset_etc_modifier 0 (2 ^ 56), session_etc_modifier 0 (2 ^ 56)) =
        (offset_etc_modifier (2 ^ 62) (2 ^ 56), session_etc_modifier (2 ^ 62) (2 ^ 56)) := by
  decide

/-- C8, amended. For every fixed 64-bit `max_offset`, two distinct 64-bit file numbers give
different pairs `(offset_etc_modifier, session_etc_modifier)` provided `max_offset < 2^56`
or both file numbers are below `2^62`: either the part packed into `offset_etc64` differs
or the overflow part packed into `session_etc64` differs. -/
theorem C8_distinct_files_distinct_modifiers (max_offset fn1 fn2 : Nat)
    (h1 : fn1 < 2 ^ 64) (h2 : fn2 < 2 ^ 64)
    (hsmall : max_offset < 2 ^ 56 ∨ (fn1 < 2 ^ 62 ∧ fn2 < 2 ^ 62)) (hne : fn1 ≠ fn2) :
    (offset_etc_modifier fn1 max_offset, session_etc_modifier fn1 max_offset) ≠
        (offset_etc_modifier fn2 max_offset, session_etc_modifier fn2 max_offset) ∧
      (offset_etc_modifier fn1 max_offset ≠ offset_etc_modifier fn2 max_offset ∨
        session_etc_modifier fn1 max_offset ≠ session_etc_modifier fn2 max_offset) := by
  have hb : ∀ fn : Nat, fn < 2 ^ 64 → (max_offset < 2 ^ 56 ∨ fn < 2 ^ 62) →
      fn < 2 ^ (62 + file_number_bits_in_offset_etc max_offset) := by
    intro fn hfn hor
    rcases hor with hm | hf
    · have := eight_le_bits hm
      exact lt_two_pow_of_lt_64 hfn (by omega)
    · exact Nat.lt_of_lt_of_le hf (Nat.pow_le_pow_right (by decide) (by omega))
  have hb1 := hb fn1 h1 (hsmall.imp id And.left)
  have hb2 := hb fn2 h2 (hsmall.imp id And.right)
  have key : ¬ (offset_etc_modifier fn1 max_offset = offset_etc_modifier fn2 max_offset ∧
      session_etc_modifier fn1 max_offset = session_etc_modifier fn2 max_offset) :=
    fun ⟨ho, hs⟩ => hne (file_number_eq_of_modifiers_eq rfl hb1 hb2 ho hs)
  constructor
  · intro hpair
    exact key (Prod.mk.inj hpair)
  · by_cases ho : offset_etc_modifier fn1 max_offset = offset_etc_modifier fn2 max_offset
    · exact Or.inr fun hs => key ⟨ho, hs⟩
    · exact Or.inl ho

theorem C8_distinct_files_distinct_modifiers_witness :
    (0 : Nat) < 2 ^ 64 ∧ (2 : Nat) ^ 62 < 2 ^ 64 ∧
      ((2 : Nat) ^ 55 < 2 ^ 56 ∨ ((0 : Nat) < 2 ^ 62 ∧ (2 : Nat) ^ 62 < 2 ^ 62)) ∧
      (0 : Nat) ≠ 2 ^ 62 ∧
      ((offset_etc_modifier 0 (2 ^ 55), session_etc_modifier 0 (2 ^ 55)) ≠
          (offset_etc_modifier (2 ^ 62) (2 ^ 55), session_etc_modifier (2 ^ 62) (2 ^ 55)) ∧
        (offset_etc_modifier 0 (2 ^ 55) ≠ offset_etc_modifier (2 ^ 62) (2 ^ 55) ∨
          session_etc_modifier 0 (2 ^ 55) ≠ session_etc_modifier (2 ^ 62) (2 ^ 55))) :=
  ⟨by decide, by decide, Or.inl (by decide), by decide,
    C8_distinct_files_distinct_modifiers (2 ^ 55) 0 (2 ^ 62) (by decide) (by decide)
      (Or.inl (by decide)) (by decide)⟩

/-- C9. For every 64-bit `max_offset`, `file_number_bytes_in_offset_etc =
(63 - floor_log2(max_offset | 2^32)) / 8` is the largest `k` in `{0, 1, 2, 3}` with
`max_offset < 2^(64 - 8k)`; it is 3 exactly when `max_offset <= 2^40 - 1`; and whenever it
is below 3, `max_offset` does not fit in the bits left after one more byte of file number,
so the constructor's maximality assertion holds. -/
theorem C9_bytes_is_largest (max_offset : Nat) (hmax : max_offset < 2 ^ 64) :
    file_number_bytes_in_offset_etc max_offset ≤ 3 ∧
      max_offset < 2 ^ (64 - 8 * file_number_bytes_in_offset_etc max_offset) ∧
      (∀ k : Nat, k ≤ 3 → max_offset < 2 ^ (64 - 8 * k) →
        k ≤ file_number_bytes_in_offset_etc max_offset) ∧
      (file_number_bytes_in_offset_etc max_offset = 3 ↔ max_offset ≤ 2 ^ 40 - 1) ∧
      (file_number_bytes_in_offset_etc max_offset < 3 →
        ¬ max_offset < 2 ^ (64 - 8 * (file_number_bytes_in_offset_etc max_offset + 1))) ∧
      maximal_bytes_assertion max_offset := by
  have hle := bytes_le_three max_offset
  have hfit := max_offset_lt hmax
  have hnext : file_number_bytes_in_offset_etc max_offset < 3 →
      ¬ max_offset < 2 ^ (64 - 8 * (file_number_bytes_in_offset_etc max_offset + 1)) := by
    intro hlt hcontra
    have := bytes_maximal (k := file_number_bytes_in_offset_etc max_offset + 1) (by omega)
      hcontra
    omega
  refine ⟨hle, ?_, fun k hk h => bytes_maximal hk h, ?_, hnext, ?_⟩
  · unfold file_number_bits_in_offset_etc at hfit
    rwa [Nat.mul_comm] at hfit
  · rw [bytes_eq_three_iff hmax]
    have e : (2 : Nat) ^ 40 = 1099511627776 := by norm_num
    rw [e]
    omega
  · unfold maximal_bytes_assertion
    by_cases h3 : file_number_bytes_in_offset_etc max_offset = 3
    · exact Or.inl h3
    · right
      have hlt : file_number_bytes_in_offset_etc max_offset < 3 := by omega
      have hge := Nat.le_of_not_lt (hnext hlt)
      have hs : 64 - 8 * (file_number_bytes_in_offset_etc max_offset + 1) =
          64 - (file_number_bits_in_offset_etc max_offset + 8) := by
        unfold file_number_bits_in_offset_etc; omega
      rw [hs] at hge
      have hsle : file_number_bits_in_offset_etc max_offset + 8 ≤ 64 := by
        unfold file_number_bits_in_offset_etc; omega
      apply Nat.ne_of_lt
      refine Nat.lt_of_lt_of_le ?_ hge
      rw [Nat.shiftRight_eq_div_pow]
      apply Nat.div_lt_of_lt_mul
      rw [← Nat.pow_add, Nat.add_sub_cancel' hsle]
      unfold shl64
      exact Nat.mod_lt _ (Nat.pow_pos (by decide))

theorem C9_bytes_is_largest_witness :
    (2 : Nat) ^ 40 < 2 ^ 64 ∧
      (file_number_bytes_in_offset_etc (2 ^ 40) ≤ 3 ∧
        2 ^ 40 < 2 ^ (64 - 8 * file_number_bytes_in_offset_etc (2 ^ 40)) ∧
        (∀ k : Nat, k ≤ 3 → 2 ^ 40 < 2 ^ (64 - 8 * k) →
          k ≤ file_number_bytes_in_offset_etc (2 ^ 40)) ∧
        (file_number_bytes_in_offset_etc (2 ^ 40) = 3 ↔ 2 ^ 40 ≤ 2 ^ 40 - 1) ∧
        (file_number_bytes_in_offset_etc (2 ^ 40) < 3 →
          ¬ 2 ^ 40 < 2 ^ (64 - 8 * (file_number_bytes_in_offset_etc (2 ^ 40) + 1))) ∧
        maximal_bytes_assertion (2 ^ 40)) :=
  ⟨by decide, C9_bytes_is_largest (2 ^ 40) (by decide)⟩

/-- C10. In the common case the session word is untouched by file-number concerns: for
every input with `file_number <= 0xffffff` and `max_offset <= 0xffffffffff`,
`session_etc_modifier = 0`, and if additionally `session_lower != 0` the constructed
`session_etc64` equals `session_lower` exactly. -/
theorem C10_common_case_session_untouched (E : Externals) (db_id db_session_id : String)
    (file_number max_offset : Nat) (hfn : file_number ≤ 0xffffff)
    (hmax : max_offset ≤ 0xffffffffff) :
    session_etc_modifier file_number max_offset = 0 ∧
      ((decoded_session E db_session_id).2 ≠ 0 →
        (OffsetableCacheKey.OffsetableCacheKey E db_id db_session_id file_number
          max_offset).session_etc64 = (decoded_session E db_session_id).2) := by
  have hmod : session_etc_modifier file_number max_offset = 0 :=
    session_etc_modifier_eq_zero (by omega) (by omega)
  refine ⟨hmod, fun hne => ?_⟩
  rw [ctor_session_etc64, hmod, Nat.xor_zero]
  simp [hne]

theorem C10_common_case_session_untouched_witness :
    (0x123 : Nat) ≤ 0xffffff ∧ (2 : Nat) ^ 32 ≤ 0xffffffffff ∧
      (session_etc_modifier 0x123 (2 ^ 32) = 0 ∧
        ((decoded_session sampleExternals "170").2 ≠ 0 →
          (OffsetableCacheKey.OffsetableCacheKey sampleExternals "db-A" "170" 0x123
            (2 ^ 32)).session_etc64 = (decoded_session sampleExternals "170").2)) :=
  ⟨by decide, by decide,
    C10_common_case_session_untouched sampleExternals "db-A" "170" 0x123 (2 ^ 32)
      (by decide) (by decide)⟩

/-- C11, refuted as stated: an id `2^63 - 1` is below `2^63`, but the minted word is `2^63`,
which is outside `[1, 2^63)` and fails the top-bit assertion. -/
theorem C11_counterexample :
    (sampleNewId (2 ^ 63 - 1)).1 < 2 ^ 63 ∧
      (CacheKey.CreateUniqueForCacheLifetime sampleNewId (2 ^ 63 - 1)).1 =
        { session_etc64 := 0, offset_etc64 := 2 ^ 63 } ∧
      ¬ (CacheKey.CreateUniqueForCacheLifetime sampleNewId (2 ^ 63 - 1)).1.offset_etc64
          < 2 ^ 63 ∧
      ¬ cache_lifetime_assertion
          (CacheKey.CreateUniqueForCacheLifetime sampleNewId (2 ^ 63 - 1)).1.offset_etc64 := by
  decide

/-- C11, amended. When `new_id` returns a value below `2^63 - 1`,
`mint_for_cache_lifetime` returns `CacheKey(0, new_id + 1)` with `session_etc64 = 0` and
`offset_etc64` in `[1, 2^63)`, and its top-bit assertion holds. -/
theorem C11_cache_lifetime_key {σ : Type} (NewId : σ → Nat × σ) (cache : σ)
    (hid : (NewId cache).1 < 2 ^ 63 - 1) :
    (CacheKey.CreateUniqueForCacheLifetime NewId cache).1 =
        { session_etc64 := 0, offset_etc64 := (NewId cache).1 + 1 } ∧
      (CacheKey.CreateUniqueForCacheLifetime NewId cache).1.session_etc64 = 0 ∧
      1 ≤ (CacheKey.CreateUniqueForCacheLifetime NewId cache).1.offset_etc64 ∧
      (CacheKey.CreateUniqueForCacheLifetime NewId cache).1.offset_etc64 < 2 ^ 63 ∧
      cache_lifetime_assertion
        (CacheKey.CreateUniqueForCacheLifetime NewId cache).1.offset_etc64 := by
  have hmod : ((NewId cache).1 + 1) % 2 ^ 64 = (NewId cache).1 + 1 := by omega
  have hkey : (CacheKey.CreateUniqueForCacheLifetime NewId cache).1 =
      { session_etc64 := 0, offset_etc64 := (NewId cache).1 + 1 } := by
    unfold CacheKey.CreateUniqueForCacheLifetime
    simp only [hmod]
  refine ⟨hkey, ?_, ?_, ?_, ?_⟩
  · rw [hkey]
  · rw [hkey]; exact Nat.le_add_left 1 _
  · rw [hkey]; show (NewId cache).1 + 1 < 2 ^ 63; omega
  · rw [hkey]
    show ((NewId cache).1 + 1) >>> 63 = 0
    rw [Nat.shiftRight_eq_div_pow]
    omega

theorem C11_cache_lifetime_key_witness :
    (sampleNewId 0).1 < 2 ^ 63 - 1 ∧
      ((CacheKey.CreateUniqueForCacheLifetime sampleNewId 0).1 =
          { session_etc64 := 0, offset_etc64 := (sampleNewId 0).1 + 1 } ∧
        (CacheKey.CreateUniqueForCacheLifetime sampleNewId 0).1.session_etc64 = 0 ∧
        1 ≤ (CacheKey.CreateUniqueForCacheLifetime sampleNewId 0).1.offset_etc64 ∧
        (CacheKey.CreateUniqueForCacheLifetime sampleNewId 0).1.offset_etc64 < 2 ^ 63 ∧
        cache_lifetime_assertion
          (CacheKey.CreateUniqueForCacheLifetime sampleNewId 0).1.offset_etc64) :=
  ⟨by decide, C11_cache_lifetime_key sampleNewId 0 (by decide)⟩

/-- C12. For any two distinct 64-bit ids returned by the cache's `new_id`, the two keys
minted by `mint_for_cache_lifetime` are distinct and both have `session_etc64 = 0`. -/
theorem C12_distinct_ids_distinct_keys {σ : Type} (NewId : σ → Nat × σ) (c1 c2 : σ)
    (h1 : (NewId c1).1 < 2 ^ 64) (h2 : (NewId c2).1 < 2 ^ 64)
    (hne : (NewId c1).1 ≠ (NewId c2).1) :
    (CacheKey.CreateUniqueForCacheLifetime NewId c1).1 ≠
        (CacheKey.CreateUniqueForCacheLifetime NewId c2).1 ∧
      (CacheKey.CreateUniqueForCacheLifetime NewId c1).1.session_etc64 = 0 ∧
      (CacheKey.CreateUniqueForCacheLifetime NewId c2).1.session_etc64 = 0 := by
  refine ⟨fun h => ?_, rfl, rfl⟩
  have h3 : ((NewId c1).1 + 1) % 2 ^ 64 = ((NewId c2).1 + 1) % 2 ^ 64 :=
    congrArg CacheKey.offset_etc64 h
  omega

theorem C12_distinct_ids_distinct_keys_witness :
    (sampleNewId 0).1 < 2 ^ 64 ∧ (sampleNewId (2 ^ 64 - 1)).1 < 2 ^ 64 ∧
      (sampleNewId 0).1 ≠ (sampleNewId (2 ^ 64 - 1)).1 ∧
      ((CacheKey.CreateUniqueForCacheLifetime sampleNewId 0).1 ≠
          (CacheKey.CreateUniqueForCacheLifetime sampleNewId (2 ^ 64 - 1)).1 ∧
        (CacheKey.CreateUniqueForCacheLifetime sampleNewId 0).1.session_etc64 = 0 ∧
        (CacheKey.CreateUniqueForCacheLifetime sampleNewId (2 ^ 64 - 1)).1.session_etc64 = 0) :=
  ⟨by decide, by decide, by decide,
    C12_distinct_ids_distinct_keys sampleNewId 0 (2 ^ 64 - 1) (by decide) (by decide)
      (by decide)⟩

/-- C13. With the process-wide counter as state starting at `2^64 - 1`: the `k`-th call of
`mint_for_process_lifetime` (`k >= 1`) returns `CacheKey(0, 2^64 - k)` and leaves the
counter at `2^64 - 1 - k`, both as 64-bit words (exactly so up to call `2^64`, resp.
`2^64 - 1`); the first `2^63` results are pairwise distinct with `offset_etc64` in
`[2^63, 2^64)` and pass the top-bit assertion, which fails for the first time on call
`2^63 + 1`. -/
theorem C13_process_lifetime_keys :
    counter_after 0 = 2 ^ 64 - 1 ∧
      (∀ k : Nat, 1 ≤ k →
        (process_lifetime_key k).session_etc64 = 0 ∧
          ((process_lifetime_key k).offset_etc64 : Int) = (2 ^ 64 - (k : Int)) % 2 ^ 64 ∧
          ((counter_after k : Nat) : Int) = (2 ^ 64 - 1 - (k : Int)) % 2 ^ 64 ∧
          (k ≤ 2 ^ 64 →
            process_lifetime_key k = { session_etc64 := 0, offset_etc64 := 2 ^ 64 - k }) ∧
          (k ≤ 2 ^ 64 - 1 → counter_after k = 2 ^ 64 - 1 - k)) ∧
      (∀ i j : Nat, 1 ≤ i → i < j → j ≤ 2 ^ 63 →
        process_lifetime_key i ≠ process_lifetime_key j) ∧
      (∀ k : Nat, 1 ≤ k → k ≤ 2 ^ 63 →
        2 ^ 63 ≤ (process_lifetime_key k).offset_etc64 ∧
          (process_lifetime_key k).offset_etc64 < 2 ^ 64 ∧
          process_lifetime_assertion (process_lifetime_key k).offset_etc64) ∧
      ¬ process_lifetime_assertion (process_lifetime_key (2 ^ 63 + 1)).offset_etc64 := by
  refine ⟨rfl, fun k hk => ?_, fun i j hi hij hj hkey => ?_, fun k hk hk2 => ?_, ?_⟩
  · have hoff := process_lifetime_key_offset k
    have hc := counter_after_eq k
    refine ⟨rfl, by omega, by omega, fun hle => ?_, fun hle => by omega⟩
    have h2 : (process_lifetime_key k).offset_etc64 = 2 ^ 64 - k := by omega
    rw [← h2]
    rfl
  · have h1 := process_lifetime_key_offset i
    have h2 := process_lifetime_key_offset j
    have h3 := congrArg CacheKey.offset_etc64 hkey
    omega
  · have hoff := process_lifetime_key_offset k
    refine ⟨by omega, by omega, ?_⟩
    unfold process_lifetime_assertion
    rw [Nat.shiftRight_eq_div_pow]
    omega
  · have hoff := process_lifetime_key_offset (2 ^ 63 + 1)
    unfold process_lifetime_assertion
    rw [Nat.shiftRight_eq_div_pow]
    omega

theorem C13_process_lifetime_keys_witness :
    (1 ≤ 1 ∧ process_lifetime_key 1 = { session_etc64 := 0, offset_etc64 := 2 ^ 64 - 1 } ∧
        counter_after 1 = 2 ^ 64 - 1 - 1) ∧
      (1 ≤ 1 ∧ 1 < 2 ∧ 2 ≤ 2 ^ 63 ∧ process_lifetime_key 1 ≠ process_lifetime_key 2) :=
  ⟨⟨by decide, (C13_process_lifetime_keys.2.1 1 (by decide)).2.2.2.1 (by decide),
      (C13_process_lifetime_keys.2.1 1 (by decide)).2.2.2.2 (by decide)⟩,
    ⟨by decide, by decide, by decide,
      C13_process_lifetime_keys.2.2.1 1 2 (by decide) (by decide) (by decide)⟩⟩

/-- C14. No mint path returns the empty key `(0, 0)`: not `mint_for_cache_lifetime` for
any id the cache returns (an id below `2^63`, the contract of the id source), not
`mint_for_process_lifetime` on any call (any of the first `2^63` calls, and more generally
any call reached without an earlier call failing the top-bit assertion of line 42), and not
`with_offset` for any `OffsetableCacheKey` input and offset. -/
theorem C14_no_empty_key :
    (∀ (σ : Type) (NewId : σ → Nat × σ) (cache : σ), (NewId cache).1 < 2 ^ 63 →
        (CacheKey.CreateUniqueForCacheLifetime NewId cache).1 ≠
          { session_etc64 := 0, offset_etc64 := 0 }) ∧
      (∀ k : Nat, 1 ≤ k → k ≤ 2 ^ 63 →
        process_lifetime_key k ≠ { session_etc64 := 0, offset_etc64 := 0 }) ∧
      (∀ k : Nat, 1 ≤ k →
        (∀ j : Nat, 1 ≤ j → j < k →
          process_lifetime_assertion (process_lifetime_key j).offset_etc64) →
        process_lifetime_key k ≠ { session_etc64 := 0, offset_etc64 := 0 }) ∧
      (∀ (E : Externals) (db_id db_session_id : String) (file_number max_offset offset : Nat),
        (OffsetableCacheKey.OffsetableCacheKey E db_id db_session_id file_number
            max_offset).WithOffset offset ≠ { session_etc64 := 0, offset_etc64 := 0 }) := by
  refine ⟨fun σ NewId cache hlt hkey => ?_, fun k hk hle hkey => ?_,
    fun k hk hall hkey => ?_, fun E db_id sid fn mo offset hkey => ?_⟩
  · have h : ((NewId cache).1 + 1) % 2 ^ 64 = 0 := congrArg CacheKey.offset_etc64 hkey
    omega
  · have h1 := process_lifetime_key_offset k
    have h2 : (process_lifetime_key k).offset_etc64 = 0 := congrArg CacheKey.offset_etc64 hkey
    omega
  · have h1 := process_lifetime_key_offset k
    have h2 : (process_lifetime_key k).offset_etc64 = 0 := congrArg CacheKey.offset_etc64 hkey
    have h3 := hall (2 ^ 63 + 1) (by omega) (by omega)
    have h4 := process_lifetime_key_offset (2 ^ 63 + 1)
    unfold process_lifetime_assertion at h3
    rw [Nat.shiftRight_eq_div_pow] at h3
    omega
  · exact session_etc64_ne_zero_aux E db_id sid fn mo (congrArg CacheKey.session_etc64 hkey)

theorem C14_no_empty_key_witness :
    ((sampleNewId (2 ^ 63 - 1)).1 < 2 ^ 63 ∧
        (CacheKey.CreateUniqueForCacheLifetime sampleNewId (2 ^ 63 - 1)).1 ≠
          { session_etc64 := 0, offset_etc64 := 0 }) ∧
      (1 ≤ 2 ^ 63 ∧ 2 ^ 63 ≤ 2 ^ 63 ∧
        process_lifetime_key (2 ^ 63) ≠ { session_etc64 := 0, offset_etc64 := 0 }) ∧
      (1 ≤ 2 ∧ process_lifetime_assertion (process_lifetime_key 1).offset_etc64 ∧
        process_lifetime_key 2 ≠ { session_etc64 := 0, offset_etc64 := 0 }) :=
  ⟨⟨by decide, C14_no_empty_key.1 Nat sampleNewId (2 ^ 63 - 1) (by decide)⟩,
    ⟨by decide, by decide, C14_no_empty_key.2.1 (2 ^ 63) (by decide) (by decide)⟩,
    ⟨by decide, by decide,
      C14_no_empty_key.2.2.1 2 (by decide) (fun j h1 h2 => by
        have hj : j = 1 := by omega
        subst hj
        decide)⟩⟩

/-- C15. The three value ranges are pairwise disjoint: a key from
`mint_for_cache_lifetime` with `new_id < 2^63 - 1`, a key from any of the first `2^63` calls
of `mint_for_process_lifetime`, and a key from `with_offset` on any input are pairwise
different. -/
theorem C15_ranges_disjoint {σ : Type} (NewId : σ → Nat × σ) (cache : σ) (k : Nat)
    (E : Externals) (db_id db_session_id : String) (file_number max_offset offset : Nat)
    (hid : (NewId cache).1 < 2 ^ 63 - 1) (hk1 : 1 ≤ k) (hk2 : k ≤ 2 ^ 63) :
    (CacheKey.CreateUniqueForCacheLifetime NewId cache).1 ≠ process_lifetime_key k ∧
      (CacheKey.CreateUniqueForCacheLifetime NewId cache).1 ≠
        (OffsetableCacheKey.OffsetableCacheKey E db_id db_session_id file_number
          max_offset).WithOffset offset ∧
      process_lifetime_key k ≠
        (OffsetableCacheKey.OffsetableCacheKey E db_id db_session_id file_number
          max_offset).WithOffset offset := by
  have hs := session_etc64_ne_zero_aux E db_id db_session_id file_number max_offset
  refine ⟨fun h => ?_, fun h => ?_, fun h => ?_⟩
  · have h1 := process_lifetime_key_offset k
    have h2 : ((NewId cache).1 + 1) % 2 ^ 64 = (process_lifetime_key k).offset_etc64 :=
      congrArg CacheKey.offset_etc64 h
    omega
  · exact hs (congrArg CacheKey.session_etc64 h).symm
  · exact hs (congrArg CacheKey.session_etc64 h).symm

theorem C15_ranges_disjoint_witness :
    (sampleNewId 0).1 < 2 ^ 63 - 1 ∧ 1 ≤ 1 ∧ 1 ≤ 2 ^ 63 ∧
      ((CacheKey.CreateUniqueForCacheLifetime sampleNewId 0).1 ≠ process_lifetime_key 1 ∧
        (CacheKey.CreateUniqueForCacheLifetime sampleNewId 0).1 ≠
          (OffsetableCacheKey.OffsetableCacheKey sampleExternals "db-A" "170" 0x123
            (2 ^ 32)).WithOffset 0x1000 ∧
        process_lifetime_key 1 ≠
          (OffsetableCacheKey.OffsetableCacheKey sampleExternals "db-A" "170" 0x123
            (2 ^ 32)).WithOffset 0x1000) :=
  ⟨by decide, by decide, by decide,
    C15_ranges_disjoint sampleNewId 0 1 sampleExternals "db-A" "170" 0x123 (2 ^ 32) 0x1000
      (by decide) (by decide) (by decide)⟩

/-- C16. For every `OffsetableCacheKey` and every offset,
`with_offset(offset) = CacheKey(session_etc64, offset_etc64 XOR offset)`: the first word is
the same for all offsets of one SST, and `with_offset(0)` equals
`CacheKey(session_etc64, offset_etc64)`. -/
theorem C16_with_offset (key : OffsetableCacheKey) (offset : Nat) :
    key.WithOffset offset =
        { session_etc64 := key.session_etc64, offset_etc64 := key.offset_etc64 ^^^ offset } ∧
      (∀ o1 o2 : Nat, (key.WithOffset o1).session_etc64 = (key.WithOffset o2).session_etc64) ∧
      key.WithOffset 0 =
        { session_etc64 := key.session_etc64, offset_etc64 := key.offset_etc64 } := by
  refine ⟨rfl, fun _ _ => rfl, ?_⟩
  unfold OffsetableCacheKey.WithOffset
  rw [Nat.xor_zero]

/-- C17. For every `db_session_id` on which the session-id decoder fails, the constructed
key is the one the derivation produces with `(session_upper, session_lower) =
hash2x64(db_session_id)`; when the decoder succeeds, its two outputs are used unchanged. -/
theorem C17_decode_fallback (E : Externals) (db_id db_session_id : String)
    (file_number max_offset : Nat) :
    (E.DecodeSessionId db_session_id = none →
        OffsetableCacheKey.OffsetableCacheKey E db_id db_session_id file_number max_offset =
          OffsetableCacheKey.from_session_halves E db_id (E.Hash2x64 db_session_id).1
            (E.Hash2x64 db_session_id).2 file_number max_offset) ∧
      (∀ upper lower : Nat, E.DecodeSessionId db_session_id = some (upper, lower) →
        OffsetableCacheKey.OffsetableCacheKey E db_id db_session_id file_number max_offset =
          OffsetableCacheKey.from_session_halves E db_id upper lower file_number
            max_offset) := by
  constructor
  · intro h
    have hd : decoded_session E db_session_id = E.Hash2x64 db_session_id := by
      unfold decoded_session; rw [h]
    rw [ctor_eq_from_session_halves, hd]
  · intro upper lower h
    have hd : decoded_session E db_session_id = (upper, lower) := by
      unfold decoded_session; rw [h]
    rw [ctor_eq_from_session_halves, hd]

theorem C17_decode_fallback_witness :
    (sampleExternals.DecodeSessionId "not-a-number" = none ∧
        OffsetableCacheKey.OffsetableCacheKey sampleExternals "db-A" "not-a-number" 0x123
            (2 ^ 32) =
          OffsetableCacheKey.from_session_halves sampleExternals "db-A"
            (sampleExternals.Hash2x64 "not-a-number").1
            (sampleExternals.Hash2x64 "not-a-number").2 0x123 (2 ^ 32)) ∧
      (sampleExternals.DecodeSessionId "170" = some (0x12345678, 0xAA) ∧
        OffsetableCacheKey.OffsetableCacheKey sampleExternals "db-A" "170" 0x123 (2 ^ 32) =
          OffsetableCacheKey.from_session_halves sampleExternals "db-A" 0x12345678 0xAA 0x123
            (2 ^ 32)) :=
  ⟨⟨by decide,
      (C17_decode_fallback sampleExternals "db-A" "not-a-number" 0x123 (2 ^ 32)).1 (by decide)⟩,
    ⟨by decide,
      (C17_decode_fallback sampleExternals "db-A" "170" 0x123 (2 ^ 32)).2 0x12345678 0xAA
        (by decide)⟩⟩

/-- C18. Scenario S1: with `db_id = "db-A"`, decoded session `(session_upper,
session_lower) = (0x12345678, 0xAA)`, `file_number = 0x123` and `max_offset = 2^32`, the
derivation has `bytes = 3`, `fn_low = 0x123`, `fn_high = 0`, `meta = 0`,
`session_etc64 = 0xAA` and `offset_etc64 = hash64("db-A", 0x12345678) XOR
reverse_bits(0x123)`, and `with_offset(0x1000) = CacheKey(0xAA, offset_etc64 XOR 0x1000)`. -/
theorem C18_scenario_S1 (E : Externals) (db_session_id : String)
    (hs : decoded_session E db_session_id = (0x12345678, 0xAA)) :
    file_number_bytes_in_offset_etc (2 ^ 32) = 3 ∧
      0x123 &&& mask (2 ^ 32) = 0x123 ∧
      0x123 >>> file_number_bits_in_offset_etc (2 ^ 32) = 0 ∧
      shl64 (0x123 >>> file_number_bits_in_offset_etc (2 ^ 32)) 2 |||
          (3 - file_number_bytes_in_offset_etc (2 ^ 32)) = 0 ∧
      (OffsetableCacheKey.OffsetableCacheKey E "db-A" db_session_id 0x123
          (2 ^ 32)).session_etc64 = 0xAA ∧
      (OffsetableCacheKey.OffsetableCacheKey E "db-A" db_session_id 0x123
          (2 ^ 32)).offset_etc64 = E.Hash64 "db-A" 0x12345678 ^^^ ReverseBits 0x123 ∧
      (OffsetableCacheKey.OffsetableCacheKey E "db-A" db_session_id 0x123
          (2 ^ 32)).WithOffset 0x1000 =
        { session_etc64 := 0xAA,
          offset_etc64 := (E.Hash64 "db-A" 0x12345678 ^^^ ReverseBits 0x123) ^^^ 0x1000 } := by
  have hm : session_etc_modifier 0x123 (2 ^ 32) = 0 := by decide
  have ho : offset_etc_modifier 0x123 (2 ^ 32) = ReverseBits 0x123 := by decide
  have h1 : (OffsetableCacheKey.OffsetableCacheKey E "db-A" db_session_id 0x123
      (2 ^ 32)).session_etc64 = 0xAA := by
    rw [ctor_session_etc64, hs, hm]
    decide
  have h2 : (OffsetableCacheKey.OffsetableCacheKey E "db-A" db_session_id 0x123
      (2 ^ 32)).offset_etc64 = E.Hash64 "db-A" 0x12345678 ^^^ ReverseBits 0x123 := by
    rw [ctor_offset_etc64, hs, ho]
  refine ⟨by decide, by decide, by decide, by decide, h1, h2, ?_⟩
  unfold OffsetableCacheKey.WithOffset
  rw [h1, h2]

theorem C18_scenario_S1_witness :
    decoded_session sampleExternals "170" = (0x12345678, 0xAA) ∧
      (OffsetableCacheKey.OffsetableCacheKey sampleExternals "db-A" "170" 0x123
          (2 ^ 32)).WithOffset 0x1000 =
        { session_etc64 := 0xAA,
          offset_etc64 :=
            (sampleExternals.Hash64 "db-A" 0x12345678 ^^^ ReverseBits 0x123) ^^^ 0x1000 } :=
  ⟨by decide, (C18_scenario_S1 sampleExternals "170" (by decide)).2.2.2.2.2.2⟩

/-- C19, refuted as stated: for `file_number = 0xFF00000123` and `max_offset = 2^32` the
overflow `file_number >> 24` is `0xFF00`, not `0xFF`; the metadata word is `0x3FC00`, not
`0x3FC`, and `session_etc64` is not `0xAA XOR reverse_bits(0x3FC)`. -/
theorem C19_counterexample :
    decoded_session sampleExternals "170" = (0x12345678, 0xAA) ∧
      0xFF00000123 >>> file_number_bits_in_offset_etc (2 ^ 32) = 0xFF00 ∧
      (0xFF00 : Nat) ≠ 0xFF ∧
      shl64 (0xFF00000123 >>> file_number_bits_in_offset_etc (2 ^ 32)) 2 |||
          (3 - file_number_bytes_in_offset_etc (2 ^ 32)) ≠ 0x3FC ∧
      (OffsetableCacheKey.OffsetableCacheKey sampleExternals "db-A" "170" 0xFF00000123
          (2 ^ 32)).session_etc64 ≠ 0xAA ^^^ ReverseBits 0x3FC := by
  decide

/-- C19, amended. Scenario S2: with the inputs of S1 but `file_number = 0xFF00000123`, the
derivation has `fn_low = 0x000123`, `fn_high = 0xFF00`, `meta = (0xFF00 << 2) | 0 =
0x3FC00`, and `session_etc64 = 0xAA XOR reverse_bits(0x3FC00)`. -/
theorem C19_scenario_S2 (E : Externals) (db_session_id : String)
    (hs : decoded_session E db_session_id = (0x12345678, 0xAA)) :
    0xFF00000123 &&& mask (2 ^ 32) = 0x000123 ∧
      0xFF00000123 >>> file_number_bits_in_offset_etc (2 ^ 32) = 0xFF00 ∧
      shl64 (0xFF00000123 >>> file_number_bits_in_offset_etc (2 ^ 32)) 2 |||
          (3 - file_number_bytes_in_offset_etc (2 ^ 32)) = 0x3FC00 ∧
      (0xFF00 <<< 2) ||| 0 = 0x3FC00 ∧
      (OffsetableCacheKey.OffsetableCacheKey E "db-A" db_session_id 0xFF00000123
          (2 ^ 32)).session_etc64 = 0xAA ^^^ ReverseBits 0x3FC00 := by
  have hm : session_etc_modifier 0xFF00000123 (2 ^ 32) = ReverseBits 0x3FC00 := by decide
  refine ⟨by decide, by decide, by decide, by decide, ?_⟩
  rw [ctor_session_etc64, hs, hm]
  decide

theorem C19_scenario_S2_witness :
    decoded_session sampleExternals "170" = (0x12345678, 0xAA) ∧
      (OffsetableCacheKey.OffsetableCacheKey sampleExternals "db-A" "170" 0xFF00000123
          (2 ^ 32)).session_etc64 = 0xAA ^^^ ReverseBits 0x3FC00 :=
  ⟨by decide, (C19_scenario_S2 sampleExternals "170" (by decide)).2.2.2.2⟩

/-- C20. Scenario S4: for `max_offset = 2^60`, and for every 64-bit `max_offset >= 2^56`,
`bytes = 0`, so for every `file_number`: `fn_low = 0`, `offset_etc64 = hash64(db_id,
session_upper)` independently of `file_number`, `fn_high = file_number`, and
`session_etc_modifier = reverse_bits(((file_number << 2) mod 2^64) | 3)`. -/
theorem C20_scenario_S4 (E : Externals) (db_id db_session_id : String)
    (file_number max_offset : Nat) (h1 : 2 ^ 56 ≤ max_offset) (h2 : max_offset < 2 ^ 64) :
    file_number_bytes_in_offset_etc (2 ^ 60) = 0 ∧
      file_number_bytes_in_offset_etc max_offset = 0 ∧
      file_number &&& mask max_offset = 0 ∧
      (OffsetableCacheKey.OffsetableCacheKey E db_id db_session_id file_number
          max_offset).offset_etc64 = E.Hash64 db_id (decoded_session E db_session_id).1 ∧
      file_number >>> file_number_bits_in_offset_etc max_offset = file_number ∧
      session_etc_modifier file_number max_offset =
        ReverseBits (((file_number <<< 2) % 2 ^ 64) ||| 3) := by
  have hby := bytes_eq_zero h1 h2
  have hbi := bits_eq_zero h1 h2
  have hmask : file_number &&& mask max_offset = 0 := by
    rw [mask_eq, hbi]
    exact Nat.and_zero _
  refine ⟨by decide, hby, hmask, ?_, ?_, ?_⟩
  · rw [ctor_offset_etc64]
    unfold offset_etc_modifier
    rw [hmask, ReverseBits_zero, Nat.xor_zero]
  · rw [hbi]; rfl
  · unfold session_etc_modifier shl64
    rw [hbi, hby]
    rfl

theorem C20_scenario_S4_witness :
    (2 : Nat) ^ 56 ≤ 2 ^ 60 ∧ (2 : Nat) ^ 60 < 2 ^ 64 ∧
      (file_number_bytes_in_offset_etc (2 ^ 60) = 0 ∧
        file_number_bytes_in_offset_etc (2 ^ 60) = 0 ∧
        0x123 &&& mask (2 ^ 60) = 0 ∧
        (OffsetableCacheKey.OffsetableCacheKey sampleExternals "db-A" "170" 0x123
            (2 ^ 60)).offset_etc64 =
          sampleExternals.Hash64 "db-A" (decoded_session sampleExternals "170").1 ∧
        0x123 >>> file_number_bits_in_offset_etc (2 ^ 60) = 0x123 ∧
        session_etc_modifier 0x123 (2 ^ 60) = ReverseBits (((0x123 <<< 2) % 2 ^ 64) ||| 3)) :=
  ⟨by decide, by decide,
    C20_scenario_S4 sampleExternals "db-A" "170" 0x123 (2 ^ 60) (by decide) (by decide)⟩

/-- C21. Varying `db_id` alone changes only the second word: for two `db_id`s with the same
session id, `file_number` and `max_offset`, `session_etc64` is identical, and the keys
`with_offset(o)` at the same offset `o` are equal if and only if
`hash64(db_id1, session_upper) = hash64(db_id2, session_upper)`. -/
theorem C21_db_id_changes_second_word (E : Externals) (db_id1 db_id2 db_session_id : String)
    (file_number max_offset : Nat) :
    (OffsetableCacheKey.OffsetableCacheKey E db_id1 db_session_id file_number
          max_offset).session_etc64 =
        (OffsetableCacheKey.OffsetableCacheKey E db_id2 db_session_id file_number
          max_offset).session_etc64 ∧
      ∀ o : Nat,
        ((OffsetableCacheKey.OffsetableCacheKey E db_id1 db_session_id file_number
              max_offset).WithOffset o =
            (OffsetableCacheKey.OffsetableCacheKey E db_id2 db_session_id file_number
              max_offset).WithOffset o ↔
          E.Hash64 db_id1 (decoded_session E db_session_id).1 =
            E.Hash64 db_id2 (decoded_session E db_session_id).1) := by
  refine ⟨rfl, fun o => ⟨fun h => ?_, fun h => ?_⟩⟩
  · have h2 : (OffsetableCacheKey.OffsetableCacheKey E db_id1 db_session_id file_number
          max_offset).offset_etc64 ^^^ o =
        (OffsetableCacheKey.OffsetableCacheKey E db_id2 db_session_id file_number
          max_offset).offset_etc64 ^^^ o := congrArg CacheKey.offset_etc64 h
    rw [ctor_offset_etc64, ctor_offset_etc64] at h2
    exact Nat.xor_left_injective (Nat.xor_left_injective h2)
  · unfold OffsetableCacheKey.WithOffset
    rw [ctor_offset_etc64, ctor_offset_etc64, h]
    rfl

/-- C23. Bytewise `FindShortestSeparator`: for all byte strings `start` and `limit`, the
rewritten start `r` is never longer than `start` and satisfies `start <= r` in bytewise
order; and whenever `start < limit` it also satisfies `r < limit`, which is the function's
closing assertion `Compare(*start, limit) < 0`. -/
theorem C23_FindShortestSeparator (start limit : List Nat) (hl : is_bytes limit) :
    (BytewiseComparatorImpl.FindShortestSeparator start limit).length ≤ start.length ∧
      BytewiseComparatorImpl.Compare start
        (BytewiseComparatorImpl.FindShortestSeparator start limit) ≤ 0 ∧
      (BytewiseComparatorImpl.Compare start limit < 0 →
        BytewiseComparatorImpl.Compare
          (BytewiseComparatorImpl.FindShortestSeparator start limit) limit < 0) :=
  FindShortestSeparator_spec start limit hl

theorem C23_FindShortestSeparator_witness :
    is_bytes [1, 2, 4] ∧
      BytewiseComparatorImpl.FindShortestSeparator [1, 2, 3, 0xff, 7, 9] [1, 2, 4] =
        [1, 2, 3, 0xff, 8] ∧
      BytewiseComparatorImpl.Compare [1, 2, 3, 0xff, 7, 9] [1, 2, 4] < 0 ∧
      ((BytewiseComparatorImpl.FindShortestSeparator [1, 2, 3, 0xff, 7, 9] [1, 2, 4]).length ≤
          [1, 2, 3, 0xff, 7, 9].length ∧
        BytewiseComparatorImpl.Compare [1, 2, 3, 0xff, 7, 9]
          (BytewiseComparatorImpl.FindShortestSeparator [1, 2, 3, 0xff, 7, 9] [1, 2, 4]) ≤ 0 ∧
        (BytewiseComparatorImpl.Compare [1, 2, 3, 0xff, 7, 9] [1, 2, 4] < 0 →
          BytewiseComparatorImpl.Compare
            (BytewiseComparatorImpl.FindShortestSeparator [1, 2, 3, 0xff, 7, 9] [1, 2, 4])
            [1, 2, 4] < 0)) :=
  ⟨by decide, by decide, by decide,
    C23_FindShortestSeparator [1, 2, 3, 0xff, 7, 9] [1, 2, 4] (by decide)⟩

/-- C24. Bytewise `FindShortSuccessor`: for every key, if every byte is `0xff` (including
the empty key) the key is left alone; otherwise, with `i` the index of the first byte that
is not `0xff`, the result is `key[0..i)` followed by `key[i] + 1`, which has length
`i + 1 <= |key|` and is strictly greater than the original key in bytewise order. -/
theorem C24_FindShortSuccessor (key : List Nat) (hk : is_bytes key) :
    ((∀ b ∈ key, b = 0xff) → BytewiseComparatorImpl.FindShortSuccessor key = key) ∧
      ∀ i : Nat, i < key.length → (∀ j : Nat, j < i → key.getD j 0 = 0xff) →
        key.getD i 0 ≠ 0xff →
        BytewiseComparatorImpl.FindShortSuccessor key = key.take i ++ [key.getD i 0 + 1] ∧
          (BytewiseComparatorImpl.FindShortSuccessor key).length = i + 1 ∧
          i + 1 ≤ key.length ∧
          BytewiseComparatorImpl.Compare key
            (BytewiseComparatorImpl.FindShortSuccessor key) < 0 := by
  refine ⟨FindShortSuccessor_all_ff key, fun i hi hff hne => ?_⟩
  obtain ⟨h1, h2⟩ := FindShortSuccessor_first_not_ff key i hk hi hff hne
  refine ⟨h1, ?_, hi, h2⟩
  rw [h1, List.length_append, List.length_take]
  simp
  omega

theorem C24_FindShortSuccessor_witness :
    is_bytes [0xff, 0xff, 3, 4] ∧
      BytewiseComparatorImpl.FindShortSuccessor [0xff, 0xff, 3, 4] = [0xff, 0xff, 4] ∧
      BytewiseComparatorImpl.FindShortSuccessor [] = [] ∧
      BytewiseComparatorImpl.Compare [0xff, 0xff, 3, 4]
        (BytewiseComparatorImpl.FindShortSuccessor [0xff, 0xff, 3, 4]) < 0 :=
  ⟨by decide, by decide, by decide,
    ((C24_FindShortSuccessor [0xff, 0xff, 3, 4] (by decide)).2 2 (by decide) (by decide)
      (by decide)).2.2.2⟩

/-- C25. Bytewise `IsSameLengthImmediateSuccessor(s, t)` returns true if and only if `s` and
`t` have the same non-zero length and `t`, read as a big-endian base-256 number of that
length, equals `s + 1`; equivalently, they have the same non-zero length, `s < t`, and no
string `u` of that same length satisfies `s < u < t`. -/
theorem C25_IsSameLengthImmediateSuccessor (s t : List Nat) (hs : is_bytes s)
    (ht : is_bytes t) :
    (BytewiseComparatorImpl.IsSameLengthImmediateSuccessor s t = true ↔
        s.length = t.length ∧ s.length ≠ 0 ∧ bytes_value t = bytes_value s + 1) ∧
      (BytewiseComparatorImpl.IsSameLengthImmediateSuccessor s t = true ↔
        s.length = t.length ∧ s.length ≠ 0 ∧ BytewiseComparatorImpl.Compare s t < 0 ∧
          ∀ u : List Nat, is_bytes u → u.length = s.length →
            ¬ (BytewiseComparatorImpl.Compare s u < 0 ∧
              BytewiseComparatorImpl.Compare u t < 0)) := by
  have h1 := IsSameLengthImmediateSuccessor_iff_value s t hs ht
  refine ⟨h1, h1.trans ?_⟩
  constructor
  · rintro ⟨hlen, h0, hv⟩
    exact ⟨hlen, h0, (value_succ_iff_no_string_between s t hs ht hlen).1 hv⟩
  · rintro ⟨hlen, h0, hlt, hno⟩
    exact ⟨hlen, h0, (value_succ_iff_no_string_between s t hs ht hlen).2 ⟨hlt, hno⟩⟩

theorem C25_IsSameLengthImmediateSuccessor_witness :
    is_bytes [1, 2, 0xff] ∧ is_bytes [1, 3, 0] ∧
      BytewiseComparatorImpl.IsSameLengthImmediateSuccessor [1, 2, 0xff] [1, 3, 0] = true ∧
      bytes_value [1, 3, 0] = bytes_value [1, 2, 0xff] + 1 ∧
      BytewiseComparatorImpl.Compare [1, 2, 0xff] [1, 3, 0] < 0 :=
  ⟨by decide, by decide, by decide,
    ((C25_IsSameLengthImmediateSuccessor [1, 2, 0xff] [1, 3, 0] (by decide) (by decide)).1.1
      (by decide)).2.2,
    ((C25_IsSameLengthImmediateSuccessor [1, 2, 0xff] [1, 3, 0] (by decide) (by decide)).2.1
      (by decide)).2.2.1⟩

/-- C26. The derivation is total on all inputs: for every 64-bit `max_offset` the argument
`max_offset | 2^32` of `floor_log2` is never 0 and is a 64-bit value, `floor_log2` of it is
at most 63, `file_number_bytes_in_offset_etc` lies in `[0, 3]`, and every shift amount
used in the constructor (`bits`, `2`, and `bits + 8` when `bytes != 3`) is below 64. -/
theorem C26_derivation_total (max_offset : Nat) (hmax : max_offset < 2 ^ 64) :
    max_offset ||| 0x100000000 ≠ 0 ∧
      max_offset ||| 0x100000000 < 2 ^ 64 ∧
      FloorLog2 (max_offset ||| 0x100000000) ≤ 63 ∧
      0 ≤ file_number_bytes_in_offset_etc max_offset ∧
      file_number_bytes_in_offset_etc max_offset ≤ 3 ∧
      file_number_bits_in_offset_etc max_offset < 64 ∧
      (2 : Nat) < 64 ∧
      (file_number_bytes_in_offset_etc max_offset ≠ 3 →
        file_number_bits_in_offset_etc max_offset + 8 < 64) := by
  have hb := bits_le max_offset
  exact ⟨or_two_pow_32_ne_zero max_offset, or_two_pow_32_lt hmax, FloorLog2_or_le hmax,
    Nat.zero_le _, bytes_le_three max_offset, by omega, by decide, fun _ => by omega⟩

theorem C26_derivation_total_witness :
    (2 : Nat) ^ 60 < 2 ^ 64 ∧
      (2 ^ 60 ||| 0x100000000 ≠ 0 ∧
        2 ^ 60 ||| 0x100000000 < 2 ^ 64 ∧
        FloorLog2 (2 ^ 60 ||| 0x100000000) ≤ 63 ∧
        0 ≤ file_number_bytes_in_offset_etc (2 ^ 60) ∧
        file_number_bytes_in_offset_etc (2 ^ 60) ≤ 3 ∧
        file_number_bits_in_offset_etc (2 ^ 60) < 64 ∧
        (2 : Nat) < 64 ∧
        (file_number_bytes_in_offset_etc (2 ^ 60) ≠ 3 →
          file_number_bits_in_offset_etc (2 ^ 60) + 8 < 64)) :=
  ⟨by decide, C26_derivation_total (2 ^ 60) (by decide)⟩

/-- C27. For every `file_number` and `max_offset`, `offset_etc_modifier << bits == 0` in
64-bit arithmetic (only the top `bits` bits of `offset_etc_modifier` can be set), the low
`bits` bits of `offset_etc_modifier` are zero, and the debug assertion on it holds. -/
theorem C27_offset_etc_modifier_shift (file_number max_offset : Nat) :
    shl64 (offset_etc_modifier file_number max_offset)
        (file_number_bits_in_offset_etc max_offset) = 0 ∧
      (∀ j : Nat, j < 64 - file_number_bits_in_offset_etc max_offset →
        (offset_etc_modifier file_number max_offset).testBit j = false) ∧
      offset_etc_modifier file_number max_offset %
        2 ^ file_number_bits_in_offset_etc max_offset = 0 ∧
      offset_etc_modifier_assertion file_number max_offset := by
  have hb := bits_le max_offset
  have hlow : ∀ j : Nat, j < 64 - file_number_bits_in_offset_etc max_offset →
      (offset_etc_modifier file_number max_offset).testBit j = false := by
    intro j hj
    rw [testBit_offset_etc_modifier]
    have : ¬ 63 - j < file_number_bits_in_offset_etc max_offset := by omega
    simp [this]
  have hshift : shl64 (offset_etc_modifier file_number max_offset)
      (file_number_bits_in_offset_etc max_offset) = 0 := by
    apply Nat.eq_of_testBit_eq
    intro i
    rw [testBit_shl64, Nat.zero_testBit]
    by_cases hi : i < 64 ∧ file_number_bits_in_offset_etc max_offset ≤ i
    · rw [hlow _ (by omega)]
      simp
    · rcases not_and_or.1 hi with h | h <;> simp [h]
  refine ⟨hshift, hlow, ?_, hshift⟩
  apply Nat.eq_of_testBit_eq
  intro i
  rw [Nat.testBit_mod_two_pow, Nat.zero_testBit]
  by_cases hi : i < file_number_bits_in_offset_etc max_offset
  · rw [hlow i (by omega)]
    simp
  · simp [hi]

/-- C28, refuted as stated: with `db_id = "db-A"`, session `(0x12345678, 0xAA)`, file number
`0x123` and `max_offset = 2^32`, the low `floor_log2(2^32) + 1 = 33` bits of the constructed
`offset_etc64` are those of the hash of the db id, which are not zero. -/
theorem C28_counterexample :
    (0 : Nat) < 2 ^ 32 ∧ FloorLog2 (2 ^ 32) + 1 = 33 ∧
      (OffsetableCacheKey.OffsetableCacheKey sampleExternals "db-A" "170" 0x123
          (2 ^ 32)).offset_etc64 % 2 ^ (FloorLog2 (2 ^ 32) + 1) = 0xF5E46CC ∧
      (0xF5E46CC : Nat) ≠ 0 := by
  decide

/-- C28, amended. For every input with a 64-bit `max_offset > 0`, the low
`floor_log2(max_offset) + 1` bits of `offset_etc_modifier` are zero, so that after Stage
3/4, before any offset is XORed in, the constructed `offset_etc64` has in those bits the
bits of `hash64(db_id, session_upper)`. -/
theorem C28_low_bits_of_offset_word (E : Externals) (db_id db_session_id : String)
    (file_number max_offset : Nat) (h0 : 0 < max_offset) (hmax : max_offset < 2 ^ 64) :
    offset_etc_modifier file_number max_offset % 2 ^ (FloorLog2 max_offset + 1) = 0 ∧
      (OffsetableCacheKey.OffsetableCacheKey E db_id db_session_id file_number
          max_offset).offset_etc64 % 2 ^ (FloorLog2 max_offset + 1) =
        E.Hash64 db_id (decoded_session E db_session_id).1 %
          2 ^ (FloorLog2 max_offset + 1) := by
  have h1 := FloorLog2_le_FloorLog2_or h0 hmax
  have h2 := FloorLog2_or_le hmax
  have hlow : ∀ j : Nat, j < FloorLog2 max_offset + 1 →
      (offset_etc_modifier file_number max_offset).testBit j = false := by
    intro j hj
    rw [testBit_offset_etc_modifier]
    have : ¬ 63 - j < file_number_bits_in_offset_etc max_offset := by
      unfold file_number_bits_in_offset_etc file_number_bytes_in_offset_etc
      omega
    simp [this]
  constructor
  · apply Nat.eq_of_testBit_eq
    intro i
    rw [Nat.testBit_mod_two_pow, Nat.zero_testBit]
    by_cases hi : i < FloorLog2 max_offset + 1
    · rw [hlow i hi]; simp
    · simp [hi]
  · rw [ctor_offset_etc64]
    apply Nat.eq_of_testBit_eq
    intro i
    rw [Nat.testBit_mod_two_pow, Nat.testBit_mod_two_pow, Nat.testBit_xor]
    by_cases hi : i < FloorLog2 max_offset + 1
    · rw [hlow i hi]; simp
    · simp [hi]

theorem C28_low_bits_of_offset_word_witness :
    (0 : Nat) < 2 ^ 32 ∧ (2 : Nat) ^ 32 < 2 ^ 64 ∧
      (offset_etc_modifier 0x123 (2 ^ 32) % 2 ^ (FloorLog2 (2 ^ 32) + 1) = 0 ∧
        (OffsetableCacheKey.OffsetableCacheKey sampleExternals "db-A" "170" 0x123
            (2 ^ 32)).offset_etc64 % 2 ^ (FloorLog2 (2 ^ 32) + 1) =
          sampleExternals.Hash64 "db-A" (decoded_session sampleExternals "170").1 %
            2 ^ (FloorLog2 (2 ^ 32) + 1)) :=
  ⟨by decide, by decide,
    C28_low_bits_of_offset_word sampleExternals "db-A" "170" 0x123 (2 ^ 32) (by decide)
      (by decide)⟩

/-- C29. The file-number encoding is uniquely decodable below `2^62`: for file numbers
`f1`, `f2 < 2^62` and any max offsets `m1`, `m2`, if `(offset_etc_modifier,
session_etc_modifier)` for `(f1, m1)` equals that for `(f2, m2)` then `f1 = f2` and both
use the same byte count; the byte count is recovered as
`3 - (reverse_bits(session_etc_modifier) & 3)` and the file number as
`((reverse_bits(session_etc_modifier) >> 2) << bits) | reverse_bits(offset_etc_modifier)`. -/
theorem C29_uniquely_decodable (f1 f2 m1 m2 : Nat) (h1 : f1 < 2 ^ 62) (h2 : f2 < 2 ^ 62) :
    3 - (ReverseBits (session_etc_modifier f1 m1) &&& 3) =
        file_number_bytes_in_offset_etc m1 ∧
      ((ReverseBits (session_etc_modifier f1 m1) >>> 2) <<<
            (8 * (3 - (ReverseBits (session_etc_modifier f1 m1) &&& 3)))) |||
          ReverseBits (offset_etc_modifier f1 m1) = f1 ∧
      ((offset_etc_modifier f1 m1, session_etc_modifier f1 m1) =
          (offset_etc_modifier f2 m2, session_etc_modifier f2 m2) →
        f1 = f2 ∧ file_number_bytes_in_offset_etc m1 = file_number_bytes_in_offset_etc m2) := by
  have hbits : ∀ m : Nat, 8 * file_number_bytes_in_offset_etc m =
      file_number_bits_in_offset_etc m := fun m => Nat.mul_comm _ _
  refine ⟨decode_bytes f1 m1, ?_, fun hpair => ?_⟩
  · rw [decode_bytes, hbits]
    exact decode_file_number m1 h1
  · obtain ⟨ho, hs⟩ := Prod.mk.inj hpair
    have hby : file_number_bytes_in_offset_etc m1 = file_number_bytes_in_offset_etc m2 := by
      rw [← decode_bytes f1 m1, ← decode_bytes f2 m2, hs]
    have hbi : file_number_bits_in_offset_etc m1 = file_number_bits_in_offset_etc m2 := by
      rw [← hbits, ← hbits, hby]
    refine ⟨?_, hby⟩
    rw [← decode_file_number m1 h1, ← decode_file_number m2 h2, ho, hs, hbi]

theorem C29_uniquely_decodable_witness :
    (0xFF00000123 : Nat) < 2 ^ 62 ∧ (0x123 : Nat) < 2 ^ 62 ∧
      3 - (ReverseBits (session_etc_modifier 0xFF00000123 (2 ^ 48)) &&& 3) =
        file_number_bytes_in_offset_etc (2 ^ 48) ∧
      ((ReverseBits (session_etc_modifier 0xFF00000123 (2 ^ 48)) >>> 2) <<<
            (8 * (3 - (ReverseBits (session_etc_modifier 0xFF00000123 (2 ^ 48)) &&& 3)))) |||
          ReverseBits (offset_etc_modifier 0xFF00000123 (2 ^ 48)) = 0xFF00000123 :=
  ⟨by decide, by decide,
    (C29_uniquely_decodable 0xFF00000123 0x123 (2 ^ 48) (2 ^ 32) (by decide) (by decide)).1,
    (C29_uniquely_decodable 0xFF00000123 0x123 (2 ^ 48) (2 ^ 32) (by decide) (by decide)).2.1⟩

/-- C30. Bytewise `FindShortestSeparator` leaves `start` unchanged whenever `start` or
`limit` is a prefix of the other, and whenever `start > limit` in bytewise order. -/
theorem C30_FindShortestSeparator_unchanged (start limit : List Nat) :
    (start <+: limit → BytewiseComparatorImpl.FindShortestSeparator start limit = start) ∧
      (limit <+: start → BytewiseComparatorImpl.FindShortestSeparator start limit = start) ∧
      (BytewiseComparatorImpl.Compare start limit > 0 →
        BytewiseComparatorImpl.FindShortestSeparator start limit = start) :=
  ⟨fun h => FindShortestSeparator_unchanged start limit (Or.inl h),
    fun h => FindShortestSeparator_unchanged start limit (Or.inr (Or.inl h)),
    fun h => FindShortestSeparator_unchanged start limit (Or.inr (Or.inr h))⟩

theorem C30_FindShortestSeparator_unchanged_witness :
    ([1, 2] <+: [1, 2, 3] ∧
        BytewiseComparatorImpl.FindShortestSeparator [1, 2] [1, 2, 3] = [1, 2]) ∧
      ([1, 2] <+: [1, 2, 3] ∧
        BytewiseComparatorImpl.FindShortestSeparator [1, 2, 3] [1, 2] = [1, 2, 3]) ∧
      (BytewiseComparatorImpl.Compare [1, 5, 7] [1, 2, 9, 9] > 0 ∧
        BytewiseComparatorImpl.FindShortestSeparator [1, 5, 7] [1, 2, 9, 9] = [1, 5, 7]) :=
  ⟨⟨by decide, (C30_FindShortestSeparator_unchanged [1, 2] [1, 2, 3]).1 (by decide)⟩,
    ⟨by decide, (C30_FindShortestSeparator_unchanged [1, 2, 3] [1, 2]).2.1 (by decide)⟩,
    ⟨by decide, (C30_FindShortestSeparator_unchanged [1, 5, 7] [1, 2, 9, 9]).2.2 (by decide)⟩⟩

/-- C31. Reverse-bytewise `FindShortestSeparator`: for all `start` and `limit` the rewritten
start `r` is a prefix of the original `start`; it is changed only when `start > limit`
bytewise at the first differing byte and that byte is not `start`'s last, and then `r` is
bytewise `<=` the old start and bytewise `> limit`, i.e. in the reverse order
`start <= r < limit`; neither debug assertion of the branch, nor the one on `diff_index`,
can fail. -/
theorem C31_Reverse_FindShortestSeparator (start limit : List Nat) :
    ReverseBytewiseComparatorImpl.FindShortestSeparator start limit <+: start ∧
      ReverseBytewiseComparatorImpl.diff_index_assertion start limit ∧
      (ReverseBytewiseComparatorImpl.FindShortestSeparator start limit ≠ start →
        Slice.difference_offset start limit < min start.length limit.length ∧
          start.getD (Slice.difference_offset start limit) 0 >
            limit.getD (Slice.difference_offset start limit) 0 ∧
          Slice.difference_offset start limit < start.length - 1 ∧
          ReverseBytewiseComparatorImpl.FindShortestSeparator start limit =
            start.take (Slice.difference_offset start limit + 1) ∧
          Slice.compare start limit > 0 ∧
          Slice.compare start
            (ReverseBytewiseComparatorImpl.FindShortestSeparator start limit) ≥ 0 ∧
          Slice.compare
            (ReverseBytewiseComparatorImpl.FindShortestSeparator start limit) limit > 0 ∧
          ReverseBytewiseComparatorImpl.Compare start
            (ReverseBytewiseComparatorImpl.FindShortestSeparator start limit) ≤ 0 ∧
          ReverseBytewiseComparatorImpl.Compare
            (ReverseBytewiseComparatorImpl.FindShortestSeparator start limit) limit < 0) := by
  obtain ⟨h1, h2⟩ := Reverse_FindShortestSeparator_spec start limit
  refine ⟨h1, Reverse_diff_index_assertion start limit, fun hne => ?_⟩
  obtain ⟨k1, k2, k3, k4, k5, k6, k7⟩ := h2 hne
  refine ⟨k1, k2, k3, k4, k5, k6, k7, ?_, ?_⟩
  · unfold ReverseBytewiseComparatorImpl.Compare
    omega
  · unfold ReverseBytewiseComparatorImpl.Compare
    omega

theorem C31_Reverse_FindShortestSeparator_witness :
    ReverseBytewiseComparatorImpl.FindShortestSeparator [1, 2, 5, 7, 7] [1, 2, 3, 9] =
        [1, 2, 5] ∧
      ReverseBytewiseComparatorImpl.Compare [1, 2, 5, 7, 7] [1, 2, 5] ≤ 0 ∧
      ReverseBytewiseComparatorImpl.Compare [1, 2, 5] [1, 2, 3, 9] < 0 :=
  ⟨by decide,
    (((C31_Reverse_FindShortestSeparator [1, 2, 5, 7, 7] [1, 2, 3, 9]).2.2
      (by decide)).2.2.2.2.2.2.2.1 : ReverseBytewiseComparatorImpl.Compare [1, 2, 5, 7, 7]
        (ReverseBytewiseComparatorImpl.FindShortestSeparator [1, 2, 5, 7, 7] [1, 2, 3, 9]) ≤ 0),
    (((C31_Reverse_FindShortestSeparator [1, 2, 5, 7, 7] [1, 2, 3, 9]).2.2
      (by decide)).2.2.2.2.2.2.2.2 : ReverseBytewiseComparatorImpl.Compare
        (ReverseBytewiseComparatorImpl.FindShortestSeparator [1, 2, 5, 7, 7] [1, 2, 3, 9])
        [1, 2, 3, 9] < 0)⟩

/-- C32, evaluated on the code.  For the bytewise comparator, whenever
`IsSameLengthImmediateSuccessor(s, t)` returns true, `Compare(s, t) < 0`.  The reverse
bytewise comparator runs the inherited bytewise `IsSameLengthImmediateSuccessor` but negates
`Compare`, so whenever its `IsSameLengthImmediateSuccessor(s, t)` returns true its
`Compare(s, t)` is positive; for `s = [1, 2, 0xff]`, `t = [1, 3, 0]` it returns true and
`Compare(s, t) = 1`. -/
theorem C32_IsSameLengthImmediateSuccessor_order :
    (∀ s t : List Nat, is_bytes s → is_bytes t →
        BytewiseComparatorImpl.IsSameLengthImmediateSuccessor s t = true →
        BytewiseComparatorImpl.Compare s t < 0) ∧
      (∀ s t : List Nat, is_bytes s → is_bytes t →
        ReverseBytewiseComparatorImpl.IsSameLengthImmediateSuccessor s t = true →
        ReverseBytewiseComparatorImpl.Compare s t > 0) ∧
      (is_bytes [1, 2, 0xff] ∧ is_bytes [1, 3, 0] ∧
        ReverseBytewiseComparatorImpl.IsSameLengthImmediateSuccessor [1, 2, 0xff] [1, 3, 0] =
          true ∧
        ReverseBytewiseComparatorImpl.Compare [1, 2, 0xff] [1, 3, 0] = 1) := by
  have key : ∀ s t : List Nat, is_bytes s → is_bytes t →
      BytewiseComparatorImpl.IsSameLengthImmediateSuccessor s t = true →
      Slice.compare s t < 0 := by
    intro s t hs ht h
    obtain ⟨hlen, _, hv⟩ := (IsSameLengthImmediateSuccessor_iff_value s t hs ht).1 h
    exact (compare_lt_zero_iff_value_lt s t hs ht hlen).2 (by omega)
  refine ⟨key, fun s t hs ht h => ?_, by decide⟩
  have := key s t hs ht h
  unfold ReverseBytewiseComparatorImpl.Compare
  omega

/-- C33. `TableProperties::Add(tp)` replaces each of the 17 aggregated numeric fields by
its sum with `tp`'s field modulo `2^64` and leaves every other field unchanged; therefore
for each of the 15 keys of `GetAggregatablePropertiesAsMap`, the map of the result holds
the sum modulo `2^64` of the two operands' map values. -/
theorem C33_TableProperties_Add {ρ : Type} (self tp : TableProperties ρ) :
    self.Add tp =
        { orig_file_number := self.orig_file_number
          data_size := (self.data_size + tp.data_size) % 2 ^ 64
          index_size := (self.index_size + tp.index_size) % 2 ^ 64
          index_partitions := (self.index_partitions + tp.index_partitions) % 2 ^ 64
          top_level_index_size :=
            (self.top_level_index_size + tp.top_level_index_size) % 2 ^ 64
          index_key_is_user_key :=
            (self.index_key_is_user_key + tp.index_key_is_user_key) % 2 ^ 64
          index_value_is_delta_encoded :=
            (self.index_value_is_delta_encoded + tp.index_value_is_delta_encoded) % 2 ^ 64
          filter_size := (self.filter_size + tp.filter_size) % 2 ^ 64
          raw_key_size := (self.raw_key_size + tp.raw_key_size) % 2 ^ 64
          raw_value_size := (self.raw_value_size + tp.raw_value_size) % 2 ^ 64
          num_data_blocks := (self.num_data_blocks + tp.num_data_blocks) % 2 ^ 64
          num_entries := (self.num_entries + tp.num_entries) % 2 ^ 64
          num_filter_entries := (self.num_filter_entries + tp.num_filter_entries) % 2 ^ 64
          num_deletions := (self.num_deletions + tp.num_deletions) % 2 ^ 64
          num_merge_operands := (self.num_merge_operands + tp.num_merge_operands) % 2 ^ 64
          num_range_deletions := (self.num_range_deletions + tp.num_range_deletions) % 2 ^ 64
          column_family_id := self.column_family_id
          creation_time := self.creation_time
          oldest_key_time := self.oldest_key_time
          file_creation_time := self.file_creation_time
          slow_compression_estimated_data_size :=
            (self.slow_compression_estimated_data_size +
              tp.slow_compression_estimated_data_size) % 2 ^ 64
          fast_compression_estimated_data_size :=
            (self.fast_compression_estimated_data_size +
              tp.fast_compression_estimated_data_size) % 2 ^ 64
          db_id := self.db_id
          db_session_id := self.db_session_id
          db_host_id := self.db_host_id
          column_family_name := self.column_family_name
          filter_policy_name := self.filter_policy_name
          comparator_name := self.comparator_name
          merge_operator_name := self.merge_operator_name
          prefix_extractor_name := self.prefix_extractor_name
          property_collectors_names := self.property_collectors_names
          compression_name := self.compression_name
          compression_options := self.compression_options
          rest := self.rest } ∧
      aggregatable_keys.length = 15 ∧
      (∀ key : String,
        (self.GetAggregatablePropertiesAsMap key).isSome = true ↔ key ∈ aggregatable_keys) ∧
      ∀ key : String, key ∈ aggregatable_keys →
        ∃ x y : Nat, self.GetAggregatablePropertiesAsMap key = some x ∧
          tp.GetAggregatablePropertiesAsMap key = some y ∧
          (self.Add tp).GetAggregatablePropertiesAsMap key = some ((x + y) % 2 ^ 64) := by
  refine ⟨rfl, by decide, fun key => ⟨fun h => ?_, fun hk => ?_⟩,
    GetAggregatablePropertiesAsMap_Add self tp⟩
  · by_contra hk
    rw [GetAggregatablePropertiesAsMap_none self key hk] at h
    exact absurd h (by decide)
  · obtain ⟨x, _, hx, _, _⟩ := GetAggregatablePropertiesAsMap_Add self tp key hk
    rw [hx]
    rfl

/-- C34. `RemoveEmptyValueCompactionFilter::Filter` returns true (remove the entry) if and
only if `existing_value` is empty, for every level and key, and never writes `new_value` or
`value_changed`. -/
theorem C34_RemoveEmptyValue_Filter (level : Int) (key existing_value new_value : List Nat)
    (value_changed : Bool) :
    ((RemoveEmptyValueCompactionFilter.Filter level key existing_value new_value
          value_changed).1 = true ↔ existing_value = []) ∧
      (RemoveEmptyValueCompactionFilter.Filter level key existing_value new_value
          value_changed).2.1 = new_value ∧
      (RemoveEmptyValueCompactionFilter.Filter level key existing_value new_value
          value_changed).2.2 = value_changed := by
  refine ⟨?_, rfl, rfl⟩
  show Slice.empty existing_value = true ↔ existing_value = []
  unfold Slice.empty
  simp

end Mizar
